import Mathlib

/-!
# Windows console text editor: line store, render cache, viewport, dispatcher

A shallow embedding of `src/main.c`.

Conventions of the embedding.

* A byte (`char`) is a `Nat`, its value as an unsigned byte.  `int` values are `Int`: signed
  overflow is undefined in C and is not modelled.
* A `Line` of the source is the pair of buffers `chars` / `rchars` with their lengths `len` /
  `rlen`.  The embedding keeps the *contents* `chars[0 .. len)` and `rchars[0 .. rlen)` as
  lists; `len` and `rlen` are the lengths of those lists.  Allocation sizes and the `NUL`
  terminators that follow the contents are not part of the model.
* `editor.lines` with `editor.num_lines` is the list `lines`; `num_lines` is its length.
* A function of the source that can read or write outside `lines[0 .. num_lines)` or outside
  the content of a line returns `Option`: `none` stands for such an access (undefined
  behaviour in C).  Allocation failure (`malloc`/`realloc` returning `NULL`) is not modelled.
-/

set_option autoImplicit false

namespace WinEditor

/-! ## Constants -/

/-- Source: `#define TAB_LENGTH 4`. -/
def TAB_LENGTH : Nat := 4

/-- Source: `#define QUIT_CONFIRMATION 2`. -/
def QUIT_CONFIRMATION : Int := 2

/-- The byte `'\t'`. -/
def TAB : Nat := 9

/-- The byte `' '`. -/
def SPACE : Nat := 32

/-- The byte `'\n'`. -/
def NEWLINE : Nat := 10

/-- The byte `'\r'`. -/
def CR : Nat := 13

/-- Source: `#define CTRL_KEY(k) (k & 0x1f)`, on a character code below 256. -/
def CTRL_KEY (k : Nat) : Int := ((k % 32 : Nat) : Int)

/-- Source: `enum SpecialKeys`, `ARROW_LEFT = 1000` and the following members. -/
def ARROW_LEFT : Int := 1000
def ARROW_RIGHT : Int := 1001
def ARROW_UP : Int := 1002
def ARROW_DOWN : Int := 1003
def HOME_KEY : Int := 1004
def END_KEY : Int := 1005
def PAGE_UP : Int := 1006
def PAGE_DOWN : Int := 1007
def DELETE_KEY : Int := 1008
def ENTER_KEY : Int := 1009
def BACKSPACE : Int := 1010
def ESCAPE_KEY : Int := 1011

/-- Source: `clamp`, `*val < min ? min : (*val > max ? max : *val)`. -/
def clamp (val min max : Int) : Int :=
  if val < min then min else (if val > max then max else val)

/-! ## Render cache -/

/-- Source: the `do ... while (index % TAB_LENGTH)` loop of `updateLine`: store one space,
then repeat while the render length is not a multiple of `TAB_LENGTH`.  The first argument
bounds the number of iterations; `TAB_LENGTH` iterations always suffice
(`tabFill_eq_replicate`). -/
def tabFill : Nat → List Nat → List Nat
  | 0, r => r
  | n + 1, r =>
    let r1 := r ++ [SPACE]
    if r1.length % TAB_LENGTH ≠ 0 then tabFill n r1 else r1

/-- Source: the second `for` loop of `updateLine`, from content position `i` on: the bytes
still to scan and the render built so far (`index` is its length). -/
def renderFrom : List Nat → List Nat → List Nat
  | [], r => r
  | c :: cs, r =>
    if c = TAB then renderFrom cs (tabFill TAB_LENGTH r) else renderFrom cs (r ++ [c])

/-- Source: `updateLine`, the new `rchars[0 .. rlen)` for the content `chars[0 .. len)`. -/
def render (chars : List Nat) : List Nat := renderFrom chars []

/-- Source: the first `for` loop of `updateLine`, the number of tabs of the content. -/
def countTabs (chars : List Nat) : Nat := (chars.filter (fun c => c = TAB)).length

/-- Source: `typedef struct Line`; `len = chars.length`, `rlen = rchars.length`. -/
structure Line where
  chars : List Nat
  rchars : List Nat
  deriving DecidableEq

/-- Source: field `len` of `Line`. -/
def Line.len (l : Line) : Int := (l.chars.length : Int)

/-- Source: field `rlen` of `Line`. -/
def Line.rlen (l : Line) : Int := (l.rchars.length : Int)

/-- Source: `updateLine(line)`: `rchars` and `rlen` are recomputed from `chars` and `len`. -/
def updateLine (l : Line) : Line := { l with rchars := render l.chars }


/-! ## Editor state -/

/-- Source: the text left in `editor.status` by `setStatusMessage`, one constructor for each
format string of the program together with its arguments. -/
inductive Status where
  /-- Source: `setStatusMessage("")` and the initial `status[0] = 0`. -/
  | empty
  /-- Source: the text set by `main` before the first frame. -/
  | help
  /-- Source: `"WARNING! File has unsaved changes. Press CTRL-Q %d more times to confirm."`. -/
  | quitWarning (n : Int)
  /-- Source: `"Save aborted"`. -/
  | saveAborted
  /-- Source: `"Wrote %d bytes to file: %s"`. -/
  | wrote (len : Int) (filename : List Nat)
  /-- Source: `setStatusMessage(ErrorExit())`, with the text that `ErrorExit()` returned. -/
  | errorExit (text : List Nat)
  deriving DecidableEq

/-- Source: the global `editor`.  `num_lines` is the length of `lines`; the console modes and
the time stamp of the status message are left out. -/
structure Editor where
  cursor_x : Int
  cursor_y : Int
  render_x : Int
  rows : Int
  cols : Int
  lines : List Line
  row_offset : Int
  col_offset : Int
  filename : Option (List Nat)
  status : Status
  dirty : Bool
  deriving DecidableEq

/-- Source: field `num_lines` of `editor`. -/
def Editor.num_lines (e : Editor) : Int := (e.lines.length : Int)

/-- Source: the initialiser of `editor`, with the window size that `getWindowSize` stores. -/
def initEditor (rows cols : Int) : Editor :=
  { cursor_x := 0, cursor_y := 0, render_x := 0, rows := rows, cols := cols, lines := [],
    row_offset := 0, col_offset := 0, filename := none, status := Status.empty,
    dirty := false }

/-- Source: the access `editor.lines[i]`: the record when `0 <= i < num_lines`, and `none`
for an index outside the array of lines. -/
def lineAt (lines : List Line) (i : Int) : Option Line :=
  if i < 0 then none else lines[i.toNat]?

/-- The sequence of line contents of a document. -/
def contents (lines : List Line) : List (List Nat) := lines.map Line.chars

/-! ## Cursor to render column, scrolling -/

/-- Source: the `for` loop of `cursorToRenderX`, with `n` iterations left at index `i`.  A
read of `chars[i]` at or beyond `len` is outside the content and gives `none`.  The `%` of C
truncates, hence `Int.tmod`. -/
def cursorToRenderXLoop (chars : List Nat) : Nat → Nat → Int → Option Int
  | 0, _, render_x => some render_x
  | n + 1, i, render_x =>
    match chars[i]? with
    | none => none
    | some c =>
      let r1 := if c = TAB then
          render_x + ((TAB_LENGTH : Int) - 1 - render_x.tmod (TAB_LENGTH : Int))
        else render_x
      cursorToRenderXLoop chars n (i + 1) (r1 + 1)

/-- Source: `cursorToRenderX(line)`, the new `editor.render_x` from `editor.cursor_x` and the
old `editor.render_x`. -/
def cursorToRenderX (line : Line) (cursor_x render_x : Int) : Option Int :=
  cursorToRenderXLoop line.chars cursor_x.toNat 0 render_x

/-- Source: `scroll`. -/
def scroll (e : Editor) : Option Editor := do
  let e1 := { e with render_x := 0 }
  let e2 ← if e1.cursor_y < e1.num_lines then do
      let line ← lineAt e1.lines e1.cursor_y
      let rx ← cursorToRenderX line e1.cursor_x e1.render_x
      pure { e1 with render_x := rx }
    else pure e1
  let e3 := { e2 with row_offset := clamp e2.row_offset (e2.cursor_y - e2.rows + 1) e2.cursor_y }
  pure { e3 with col_offset := clamp e3.col_offset (e3.render_x - e3.cols + 1) e3.render_x }

/-- Source: the two arguments of the cursor-position escape written by `refreshScreen`:
`cursor_y - row_offset + 1` and `render_x - col_offset + 1`. -/
def refreshScreenCursor (e : Editor) : Int × Int :=
  (e.cursor_y - e.row_offset + 1, e.render_x - e.col_offset + 1)

/-! ## Line store -/

/-- Source: `insertLine(index, str, len)`; `str` holds the `len` bytes that are copied. -/
def insertLine (e : Editor) (index : Int) (str : List Nat) : Editor :=
  if index < 0 ∨ index > e.num_lines then e
  else
    { e with lines :=
        e.lines.take index.toNat ++ updateLine { chars := str, rchars := [] }
          :: e.lines.drop index.toNat }

/-- Source: `insertNewline`.  In the second branch the bytes `chars[cursor_x .. len)` are
copied, which needs `0 <= cursor_x <= len`. -/
def insertNewline (e : Editor) : Option Editor := do
  let e1 ← if e.cursor_x = 0 then pure (insertLine e e.cursor_y [])
    else do
      let line ← lineAt e.lines e.cursor_y
      if e.cursor_x < 0 ∨ e.cursor_x > line.len then none
      else
        let e1 := insertLine e (e.cursor_y + 1) (line.chars.drop e.cursor_x.toNat)
        let line1 ← lineAt e1.lines e1.cursor_y
        let line2 := updateLine { line1 with chars := line1.chars.take e1.cursor_x.toNat }
        pure { e1 with lines := e1.lines.set e1.cursor_y.toNat line2 }
  pure { e1 with cursor_x := 0, cursor_y := e1.cursor_y + 1, dirty := true }

/-- Source: `lineInsert(line, index, c)` with `line = &editor.lines[row]`. -/
def lineInsert (e : Editor) (row : Int) (index : Int) (c : Nat) : Option Editor := do
  let line ← lineAt e.lines row
  let index := if index < 0 ∨ index > line.len then line.len else index
  let line1 := updateLine
    { line with chars := line.chars.take index.toNat ++ c :: line.chars.drop index.toNat }
  pure { e with lines := e.lines.set row.toNat line1, dirty := true }

/-- Source: `insert(c)`; `cursor_x++` hands the old column to `lineInsert`. -/
def insert (e : Editor) (c : Nat) : Option Editor := do
  let e1 := if e.cursor_y = e.num_lines then insertLine e e.num_lines [] else e
  let e2 ← lineInsert e1 e1.cursor_y e1.cursor_x c
  pure { e2 with cursor_x := e2.cursor_x + 1 }

/-- Source: `lineDelete(line, index)` with `line = &editor.lines[row]`.  The guard lets
`index == len` through: `memmove` then moves `len - index = 0` bytes and `len--` drops the
last byte of the content; with `len == 0` the length becomes `-1` and `updateLine` stores
`rchars[0]` into an allocation of `0` bytes, which is `none` here. -/
def lineDelete (e : Editor) (row : Int) (index : Int) : Option Editor := do
  let line ← lineAt e.lines row
  if index < 0 ∨ index > line.len then pure e
  else if index < line.len then
    let line1 := updateLine { line with chars := line.chars.eraseIdx index.toNat }
    pure { e with lines := e.lines.set row.toNat line1, dirty := true }
  else if line.len = 0 then none
  else
    let line1 := updateLine { line with chars := line.chars.take (line.len - 1).toNat }
    pure { e with lines := e.lines.set row.toNat line1, dirty := true }

/-- Source: `deleteRow(index)`.  The guard lets `index == num_lines` through, and the two
`free` calls then read `editor.lines[num_lines]`, outside the array. -/
def deleteRow (e : Editor) (index : Int) : Option Editor :=
  if index < 0 ∨ index > e.num_lines then some e
  else
    match lineAt e.lines index with
    | none => none
    | some _ => some { e with lines := e.lines.eraseIdx index.toNat, dirty := true }

/-- Source: `appendToLine(line, str, len)` with `line = &editor.lines[row]`; `str` holds the
`len` bytes that are copied. -/
def appendToLine (e : Editor) (row : Int) (str : List Nat) : Option Editor := do
  let line ← lineAt e.lines row
  let line1 := updateLine { line with chars := line.chars ++ str }
  pure { e with lines := e.lines.set row.toNat line1, dirty := true }

/-- Source: `delete()`, the handler of Backspace. -/
def delete (e : Editor) : Option Editor :=
  if e.cursor_x = 0 ∧ e.cursor_y = 0 then some e
  else if e.cursor_x > 0 then
    let e1 := { e with cursor_x := e.cursor_x - 1 }
    lineDelete e1 e1.cursor_y e1.cursor_x
  else do
    let e1 := { e with cursor_y := e.cursor_y - 1 }
    let line ← lineAt e1.lines e1.cursor_y
    let e2 := { e1 with cursor_x := line.len }
    let next ← lineAt e2.lines (e2.cursor_y + 1)
    let e3 ← appendToLine e2 e2.cursor_y next.chars
    deleteRow e3 (e3.cursor_y + 1)

/-! ## Cursor movement -/

/-- Source: the `switch` of `moveCursor(key)`.  `current` is `NULL` when
`cursor_y >= num_lines` and `&editor.lines[cursor_y]` otherwise; it is read through `lineAt`
where the source dereferences it. -/
def moveCursorSwitch (e : Editor) (key : Int) : Option Editor :=
  if key = ARROW_LEFT then
    if e.cursor_x > 0 then some { e with cursor_x := e.cursor_x - 1 }
    else if e.cursor_y > 0 then
      if e.cursor_y ≥ e.num_lines then
        some { e with cursor_y := e.cursor_y - 1, cursor_x := 0 }
      else do
        let current ← lineAt e.lines e.cursor_y
        pure { e with cursor_y := e.cursor_y - 1, cursor_x := current.len }
    else some e
  else if key = ARROW_RIGHT then
    if e.cursor_y ≥ e.num_lines then some e
    else do
      let current ← lineAt e.lines e.cursor_y
      if e.cursor_x < current.len then pure { e with cursor_x := e.cursor_x + 1 }
      else if e.cursor_x = current.len ∧ e.cursor_y < e.num_lines - 1 then
        pure { e with cursor_y := e.cursor_y + 1, cursor_x := 0 }
      else pure e
  else if key = ARROW_UP then
    if e.cursor_y > 0 then some { e with cursor_y := e.cursor_y - 1 } else some e
  else if key = ARROW_DOWN then
    if e.cursor_y < e.num_lines - 1 then some { e with cursor_y := e.cursor_y + 1 } else some e
  else some e

/-- Source: `moveCursor(key)`: the `switch`, then the column is cut back to the length of the
line the cursor is on (`0` past the last line). -/
def moveCursor (e : Editor) (key : Int) : Option Editor := do
  let e1 ← moveCursorSwitch e key
  let len ← if e1.cursor_y ≥ e1.num_lines then pure 0
    else do
      let current ← lineAt e1.lines e1.cursor_y
      pure current.len
  pure { e1 with cursor_x := if e1.cursor_x > len then len else e1.cursor_x }

/-- Source: `while (n--) moveCursor(key)` for `n` iterations. -/
def moveCursorTimes (key : Int) : Nat → Editor → Option Editor
  | 0, e => some e
  | n + 1, e => (moveCursor e key).bind (moveCursorTimes key n)

/-- Source: the body of the `HOME_KEY` / `END_KEY` loop of `processKeypress`. -/
def homeEndStep (c : Int) (e : Editor) : Option Editor :=
  if c = HOME_KEY ∧ e.cursor_x > 0 then moveCursor e ARROW_LEFT
  else if c = END_KEY ∧ e.cursor_y < e.num_lines then do
    let line ← lineAt e.lines e.cursor_y
    if e.cursor_x < line.len then moveCursor e ARROW_RIGHT else pure e
  else some e

/-- Source: the `HOME_KEY` / `END_KEY` loop of `processKeypress`, for `n` iterations. -/
def homeEndTimes (c : Int) : Nat → Editor → Option Editor
  | 0, e => some e
  | n + 1, e => (homeEndStep c e).bind (homeEndTimes c n)

/-! ## Files -/

/-- What a run of the program does: it goes on with a state, it ends with an exit code
(`exit`), or it leaves its data (`fault`): an access outside the lines or outside the content
of a line, a write through a pointer that was never set, a `free` of an address that no
allocation returned. -/
inductive Outcome (α : Type) where
  | running (a : α)
  | exited (code : Int)
  | fault
  deriving DecidableEq

/-- An `Option` result as an outcome: `none` is an access outside the data. -/
def Outcome.ofOption {α : Type} : Option α → Outcome α
  | some a => Outcome.running a
  | none => Outcome.fault

/-- Source: the first loop of `saveToDisk`, `len += editor.lines[i].len + 1`. -/
def fullTextLen (lines : List Line) : Int :=
  lines.foldl (fun len line => len + (line.len + 1)) 0

/-- Source: the second loop of `saveToDisk`: the `len` bytes built in `full_text`, each
content followed by a newline byte. -/
def fullText (lines : List Line) : List Nat :=
  lines.foldl (fun text line => text ++ line.chars ++ [NEWLINE]) []

/-- What the surroundings answer during one call of `saveToDisk`: the string returned by
`prompt` (`none` for `NULL`) and whether each file operation succeeds. -/
structure SaveEnv where
  promptResult : Option (List Nat)
  createFile : Bool
  setFilePointerEnd : Bool
  setEndOfFile : Bool
  setFilePointerStart : Bool
  writeFile : Bool
  deriving DecidableEq

/-- Source: `prompt("Save As: %s")` as called by `saveToDisk`: every turn of its loop draws a
frame (`refreshScreen`, hence `scroll`), the keys it reads are summed up by the returned
string, and it leaves the empty status message. -/
def promptSaveAs (env : SaveEnv) (e : Editor) : Option (Editor × Option (List Nat)) := do
  let e1 ← scroll e
  pure ({ e1 with status := Status.empty }, env.promptResult)

/-- Source: `ErrorExit()`, the text it returns.  The text is stored by `sprintf(buffer, ...)`
through `char *buffer`, a pointer that is never given a value: a write outside the data of
the program, whatever the error code is.  No text comes back, hence `none`. -/
def ErrorExit : Option (List Nat) := none

/-- Source: `die(s)`.  Every call of the source passes a string literal, and once the
message is formatted `die` calls `free(s)`: it frees an address that no allocation returned.
Further down it prints `ErrorExit()`, which writes through the pointer that is never set.
The call leaves the data of the program before it reaches `exit(1)`. -/
def die {α : Type} : Outcome α := Outcome.fault

/-- Source: the statements `setStatusMessage(ErrorExit()); return;` of the four branches of
`saveToDisk` in which a file operation has failed. -/
def setStatusErrorExit (e : Editor) : Outcome Editor :=
  match ErrorExit with
  | some text => Outcome.running { e with status := Status.errorExit text }
  | none => Outcome.fault

/-- Source: the bytes that `WriteFile(file_handle, full_text, len, NULL, NULL)` stores: the
first `len` bytes at `full_text`.  With fewer than `len` bytes built there, or a negative
`len`, the call reads outside the text: `none`. -/
def writeFileBytes (full_text : List Nat) (len : Int) : Option (List Nat) :=
  if len < 0 ∨ (full_text.length : Int) < len then none
  else some (full_text.take len.toNat)

/-- Source: `saveToDisk` from `int len = 0` on, with the file name set.  The second
component is the content of the file after a successful save: the file is cut to `len` bytes
(`SetFilePointerEx` to `len`, `SetEndOfFile`) and `WriteFile` stores the first `len` bytes of
`full_text` from position `0`.  A failed `CreateFileA` goes to `die`, every other failed
operation to `setStatusMessage(ErrorExit())`.  The source ends the text with `*ptr = 0`, a
byte at index `len` of the `len` bytes it allocated; it is not among the bytes written, and
allocation sizes are not modelled. -/
def saveToDiskWrite (env : SaveEnv) (e : Editor) : Outcome Editor × Option (List Nat) :=
  let len := fullTextLen e.lines
  let full_text := fullText e.lines
  if ¬ env.createFile then (die, none)
  else if ¬ env.setFilePointerEnd then (setStatusErrorExit e, none)
  else if ¬ env.setEndOfFile then (setStatusErrorExit e, none)
  else if ¬ env.setFilePointerStart then (setStatusErrorExit e, none)
  else if ¬ env.writeFile then (setStatusErrorExit e, none)
  else
    match writeFileBytes full_text len with
    | none => (Outcome.fault, none)
    | some bytes =>
      (Outcome.running
        { e with dirty := false, status := Status.wrote len (e.filename.getD []) },
        some bytes)

/-- Source: `saveToDisk`. -/
def saveToDisk (env : SaveEnv) (e : Editor) : Outcome Editor × Option (List Nat) :=
  match e.filename with
  | some _ => saveToDiskWrite env e
  | none =>
    match promptSaveAs env e with
    | none => (Outcome.fault, none)
    | some (e1, none) => (Outcome.running { e1 with status := Status.saveAborted }, none)
    | some (e1, some name) => saveToDiskWrite env { e1 with filename := some name }

/-- Source: the `for` loop of `getline` over the bytes still to be read from the stream, with
the bytes stored in `buffer` so far.  The result is the returned line (`none` for `-1`) and
the rest of the stream. -/
def getlineLoop : List Nat → List Nat → Option (List Nat) × List Nat
  | [], buffer => if buffer.length = 0 then (none, []) else (some buffer, [])
  | c :: stream, buffer =>
    if c = NEWLINE then (some buffer, stream) else getlineLoop stream (buffer ++ [c])

/-- Source: `getline(&line, &len, file)`. -/
def getline (stream : List Nat) : Option (List Nat) × List Nat := getlineLoop stream []

/-- Source: the inner `while` of `openEditor`: `llen` steps back over trailing newline and
carriage-return bytes. -/
def stripLineEnd (line : List Nat) : List Nat :=
  line.rdropWhile (fun c => c == NEWLINE || c == CR)

/-- Source: the outer `while` of `openEditor`.  The first argument bounds the number of
`getline` calls; `none` means that the bound was reached. -/
def openLoop : Nat → List Nat → Editor → Option Editor
  | 0, _, _ => none
  | n + 1, stream, e =>
    match getline stream with
    | (none, _) => some e
    | (some line, rest) => openLoop n rest (insertLine e e.num_lines (stripLineEnd line))

/-- Source: `openEditor(filename)` on a file that `fopen` opens, with the bytes that `fgetc`
delivers.  Every `getline` call but the last takes at least one byte, so one call more than
there are bytes is enough (`openLoop_isSome`). -/
def openEditor (e : Editor) (filename : List Nat) (bytes : List Nat) : Option Editor :=
  openLoop (bytes.length + 1) bytes { e with filename := some filename }

/-! ## Key dispatch -/

/-- Source: the conversion of the `int` key to the `char` parameter of `insert`, as the
value of the stored byte. -/
def keyByte (c : Int) : Nat := (c % 256).toNat

/-- Source: the editor together with the `static int quit_left` of `processKeypress`. -/
structure State where
  editor : Editor
  quit_left : Int
  deriving DecidableEq

/-- Source: the `switch` of `processKeypress` for every key but `CTRL_KEY(q)`.  A negative
count `n` makes `while (n--)` count down without reaching `0`, which is `none` here. -/
def dispatchKey (env : SaveEnv) (e : Editor) (c : Int) : Outcome Editor :=
  if c = CTRL_KEY 115 then (saveToDisk env e).1
  else if c = ARROW_LEFT ∨ c = ARROW_RIGHT ∨ c = ARROW_UP ∨ c = ARROW_DOWN then
    Outcome.ofOption (moveCursor e c)
  else if c = PAGE_UP ∨ c = PAGE_DOWN then
    let n := e.rows
    if n < 0 then Outcome.fault
    else
      Outcome.ofOption
        (moveCursorTimes (if c = PAGE_UP then ARROW_UP else ARROW_DOWN) n.toNat e)
  else if c = HOME_KEY ∨ c = END_KEY then
    Outcome.ofOption do
      let n ← if e.cursor_y ≥ e.num_lines then pure e.cols
        else do
          let line ← lineAt e.lines e.cursor_y
          pure line.len
      if n < 0 then none else homeEndTimes c n.toNat e
  else if c = DELETE_KEY then
    Outcome.ofOption do
      let current_x := e.cursor_x
      let e1 ← moveCursor e ARROW_RIGHT
      if current_x ≠ e1.cursor_x then delete e1 else pure e1
  else if c = BACKSPACE then Outcome.ofOption (delete e)
  else if c = ENTER_KEY then Outcome.ofOption (insertNewline e)
  else Outcome.ofOption (insert e (keyByte c))

/-- Source: `processKeypress` on the key `c` returned by `readKey`. -/
def processKeypress (env : SaveEnv) (s : State) (c : Int) : Outcome State :=
  if c = CTRL_KEY 113 then
    if s.editor.dirty = true ∧ s.quit_left ≠ 0 then
      Outcome.running
        { editor := { s.editor with status := Status.quitWarning s.quit_left },
          quit_left := s.quit_left - 1 }
    else Outcome.exited 0
  else
    match dispatchKey env s.editor c with
    | Outcome.running e => Outcome.running { editor := e, quit_left := QUIT_CONFIRMATION }
    | Outcome.exited code => Outcome.exited code
    | Outcome.fault => Outcome.fault

/-- One keypress as `processKeypress` sees it: the key and what the surroundings answer
should the key start a save. -/
structure KeyEvent where
  key : Int
  env : SaveEnv
  deriving DecidableEq

/-- Source: `refreshScreen` as far as the editor state goes: `scroll`; the frame it writes to
the console is not part of the state. -/
def refreshScreen (e : Editor) : Option Editor := scroll e

/-- Source: the loop of `main`, `refreshScreen(); processKeypress();`, over the keys that
`readKey` returns to `processKeypress`, for as long as the program runs. -/
def run : State → List KeyEvent → Outcome State
  | s, [] => Outcome.running s
  | s, k :: ks =>
    match refreshScreen s.editor with
    | none => Outcome.fault
    | some e =>
      match processKeypress k.env { s with editor := e } k.key with
      | Outcome.running s1 => run s1 ks
      | Outcome.exited code => Outcome.exited code
      | Outcome.fault => Outcome.fault

/-- Source: the state in which `main` enters its loop without a file argument. -/
def initState (rows cols : Int) : State :=
  { editor := { initEditor rows cols with status := Status.help },
    quit_left := QUIT_CONFIRMATION }

/-- A key event whose save answers are all failures; for keys that do not save. -/
def key (c : Int) : KeyEvent :=
  { key := c,
    env := { promptResult := none, createFile := false, setFilePointerEnd := false,
             setEndOfFile := false, setFilePointerStart := false, writeFile := false } }

/-- The quit key, `CTRL_KEY('q')`. -/
def CTRL_Q : Int := CTRL_KEY 113

/-- The number of quit keys that end a sequence of keys. -/
def quitRun (ks : List KeyEvent) : Nat :=
  (ks.reverse.takeWhile (fun k => decide (k.key = CTRL_Q))).length

/-! ## Frame rows -/

/-- Source: `appendToBuffer(add, len)` on the string builder `sb`; `add` holds the `len`
bytes that are copied. -/
def appendToBuffer (sb : List Nat) (add : List Nat) : List Nat := sb ++ add

/-- Source: the `len` bytes that `writeLines` hands to `appendToBuffer` from
`&rchars[col_offset]`.  A negative `len` becomes a huge `size_t`, and bytes before or behind
the render are outside it: both are `none`.  With `len == 0` nothing is read. -/
def renderSlice (rchars : List Nat) (col_offset len : Int) : Option (List Nat) :=
  if len < 0 then none
  else if len = 0 then some []
  else if col_offset < 0 ∨ col_offset + len > (rchars.length : Int) then none
  else some ((rchars.drop col_offset.toNat).take len.toNat)

/-- Source: the body of the `for` loop of `writeLines` for row `i`. -/
def writeLinesRow (e : Editor) (i : Nat) (sb : List Nat) : Option (List Nat) := do
  let currentLine := (i : Int) + e.row_offset
  let sb1 ← if currentLine ≥ e.num_lines then pure (appendToBuffer sb [126])
    else do
      let line ← lineAt e.lines currentLine
      let len := clamp (line.rlen - e.col_offset) 0 e.cols
      let bytes ← renderSlice line.rchars e.col_offset len
      pure (appendToBuffer sb bytes)
  let sb2 := appendToBuffer sb1 [27, 91, 75]
  pure (appendToBuffer sb2 [13, 10])

/-- Source: the `for` loop of `writeLines`, with `n` rows left from row `i` on. -/
def writeLinesLoop (e : Editor) : Nat → Nat → List Nat → Option (List Nat)
  | 0, _, sb => some sb
  | n + 1, i, sb => (writeLinesRow e i sb).bind (writeLinesLoop e n (i + 1))

/-- Source: `writeLines`, the string builder after the call. -/
def writeLines (e : Editor) (sb : List Nat) : Option (List Nat) :=
  writeLinesLoop e e.rows.toNat 0 sb

/-- Reference, in the words of the frame description: the visible bytes of row `i`, the
filler `~` below the document and otherwise the bytes
`rchars[col_offset .. min(rlen, col_offset + cols))` of line `row_offset + i`. -/
def rowVisible (e : Editor) (i : Nat) : List Nat :=
  if e.row_offset + (i : Int) ≥ e.num_lines then [126]
  else
    match lineAt e.lines (e.row_offset + (i : Int)) with
    | none => []
    | some line =>
      (line.rchars.take (min line.rlen (e.col_offset + e.cols)).toNat).drop e.col_offset.toNat

/-- Reference: the record of row `i`, its visible bytes, the erase-to-end-of-line escape and
the line break. -/
def rowRecord (e : Editor) (i : Nat) : List Nat := rowVisible e i ++ [27, 91, 75] ++ [13, 10]

/-! ## Prompt -/

/-- The `iscntrl` of `<ctype.h>` in the C locale, which the program never changes: the
control characters are `0 .. 31` and `127`, and `EOF` (`-1`) is none.  For an argument that
is neither a byte value nor `EOF` the C standard leaves the result open; it is taken as
`false` here. -/
def iscntrl (c : Int) : Bool := decide ((0 ≤ c ∧ c < 32) ∨ c = 127)

/-- Source: the loop of `prompt` over the keys that `readKey` returns, with the bytes of
`str` so far.  The result is the returned string (`none` for `NULL`) and the keys left;
`none` when the keys run out while the loop is still waiting. -/
def promptLoop : List Nat → List Int → Option (Option (List Nat) × List Int)
  | _, [] => none
  | str, c :: keys =>
    if c = DELETE_KEY ∨ c = CTRL_KEY 104 ∨ c = BACKSPACE then
      promptLoop (if str.length ≠ 0 then str.dropLast else str) keys
    else if c = ESCAPE_KEY then some (none, keys)
    else if c = ENTER_KEY then
      if str.length ≠ 0 then some (some str, keys) else promptLoop str keys
    else if (!iscntrl c) ∧ c < 128 then promptLoop (str ++ [keyByte c]) keys
    else promptLoop str keys

/-- Source: `prompt(...)` as a function of the keys read, starting from the empty string. -/
def prompt (keys : List Int) : Option (Option (List Nat) × List Int) := promptLoop [] keys

/-- Reference, in the words of the prompt description: the buffer after one more key.
Backspace, Delete and Ctrl-H take the last byte away if there is one, a non-control ASCII key
(`32 .. 126`) is added at the end, every other key leaves the buffer. -/
def promptBufferStep (buf : List Nat) (c : Int) : List Nat :=
  if c = BACKSPACE ∨ c = DELETE_KEY ∨ c = CTRL_KEY 104 then buf.dropLast
  else if 32 ≤ c ∧ c ≤ 126 then buf ++ [c.toNat]
  else buf

/-- Reference: the buffer after the keys `keys`, starting from `buf`. -/
def promptBufferFrom (buf : List Nat) (keys : List Int) : List Nat :=
  keys.foldl promptBufferStep buf

/-- Reference: whether the key `c` ends the prompt when the buffer holds `buf`: Escape
always, Enter when the buffer is not empty. -/
def promptEnds (buf : List Nat) (c : Int) : Prop :=
  c = ESCAPE_KEY ∨ (c = ENTER_KEY ∧ buf ≠ [])

/-- Reference: the result when the key `c` ends the prompt with the buffer `buf`. -/
def promptResult (buf : List Nat) (c : Int) : Option (List Nat) :=
  if c = ESCAPE_KEY then none else some buf

/-! ## Reachable states and their invariants -/

/-- Source: the state in which `main` enters its loop after `openEditor(argv[1])` has read
the bytes of the file. -/
def loadState (rows cols : Int) (filename bytes : List Nat) : Option State :=
  (openEditor (initEditor rows cols) filename bytes).map fun e =>
    { editor := { e with status := Status.help }, quit_left := QUIT_CONFIRMATION }

/-- The states in which `main` can enter its loop: the empty document or a loaded file. -/
def Initial (s : State) : Prop :=
  (∃ rows cols, s = initState rows cols)
  ∨ ∃ rows cols filename bytes, loadState rows cols filename bytes = some s

/-- The states that the loop of `main` reaches from an initial state by a sequence of keys. -/
def Reachable (s : State) : Prop :=
  ∃ s0 ks, Initial s0 ∧ run s0 ks = Outcome.running s

/-- The render cache of every line is the tab expansion of its content. -/
def RenderValid (lines : List Line) : Prop :=
  ∀ l ∈ lines, l.rchars = render l.chars

/-- The length of the line the cursor is on, `0` past the last line (as `moveCursor`
computes it). -/
def curLen (e : Editor) : Int :=
  match lineAt e.lines e.cursor_y with
  | some line => line.len
  | none => 0

/-- The cursor invariant: `0 <= cursor_y <= num_lines` and `0 <= cursor_x <= len` of the
cursor line, which is `cursor_x = 0` past the last line. -/
def CursorOk (e : Editor) : Prop :=
  0 ≤ e.cursor_y ∧ e.cursor_y ≤ e.num_lines ∧ 0 ≤ e.cursor_x ∧ e.cursor_x ≤ curLen e

/-! # Properties -/

/-! ## Render cache: tab expansion -/

theorem tabFill_eq_replicate (r : List Nat) :
    tabFill TAB_LENGTH r
      = r ++ List.replicate (TAB_LENGTH - r.length % TAB_LENGTH) SPACE := by
  have h : r.length % 4 = 0 ∨ r.length % 4 = 1 ∨ r.length % 4 = 2 ∨ r.length % 4 = 3 := by
    omega
  have e1 : (r.length + 1) % 4 = (r.length % 4 + 1) % 4 := by omega
  have e2 : (r.length + 1 + 1) % 4 = (r.length % 4 + 2) % 4 := by omega
  have e3 : (r.length + 1 + 1 + 1) % 4 = (r.length % 4 + 3) % 4 := by omega
  have e4 : (r.length + 1 + 1 + 1 + 1) % 4 = (r.length % 4) % 4 := by omega
  rcases h with h | h | h | h <;>
    simp [tabFill, TAB_LENGTH, List.length_append, e1, e2, e3, e4, h, List.replicate]

theorem renderFrom_append (s t r : List Nat) :
    renderFrom (s ++ t) r = renderFrom t (renderFrom s r) := by
  induction s generalizing r with
  | nil => rfl
  | cons c cs ih =>
    by_cases hc : c = TAB
    · simp [renderFrom, hc, ih]
    · simp [renderFrom, hc, ih]

theorem render_append (s t : List Nat) : render (s ++ t) = renderFrom t (render s) := by
  simp [render, renderFrom_append]

theorem render_snoc (s : List Nat) (c : Nat) :
    render (s ++ [c])
      = render s ++ (if c = TAB then
          List.replicate (TAB_LENGTH - (render s).length % TAB_LENGTH) SPACE else [c]) := by
  rw [render_append]
  by_cases hc : c = TAB
  · simp [renderFrom, hc, tabFill_eq_replicate]
  · simp [renderFrom, hc]

/-- The allocation of `updateLine`, `len + tabs * (TAB_LENGTH - 1) + 1` bytes, holds the
render and its terminator. -/
theorem render_length_le (s : List Nat) :
    (render s).length ≤ s.length + countTabs s * (TAB_LENGTH - 1) := by
  induction s using List.reverseRecOn with
  | nil => simp [render, renderFrom]
  | append_singleton s c ih =>
    rw [render_snoc]
    by_cases hc : c = TAB
    · simp only [hc, if_true, countTabs, List.filter_append, List.length_append,
        List.length_replicate, TAB_LENGTH] at ih ⊢
      simp only [List.filter_cons, decide_True, if_true, List.filter_nil, List.length_cons,
        List.length_nil]
      omega
    · simp only [hc, if_false, countTabs, List.filter_append, List.length_append,
        TAB_LENGTH] at ih ⊢
      simp only [List.filter_cons, hc, decide_False, List.filter_nil, List.length_cons,
        List.length_nil]
      omega

/-- C1: `updateLine` keeps the content and stores its tab-expanded render, built left to
right: a byte other than a tab is copied unchanged, a tab becomes `k` spaces where
`1 <= k <= 4` and `k = 4 - (render length so far) mod 4`, so that the render length after a
tab is the next multiple of 4 strictly above the column the tab started at. -/
theorem updateLine_render_spec (s r0 : List Nat) (b : Nat) :
    (updateLine { chars := s, rchars := r0 }).chars = s
    ∧ (updateLine { chars := s, rchars := r0 }).rchars = render s
    ∧ render [] = []
    ∧ render (s ++ [b])
        = render s ++ (if b = TAB then
            List.replicate (TAB_LENGTH - (render s).length % TAB_LENGTH) SPACE else [b])
    ∧ 1 ≤ TAB_LENGTH - (render s).length % TAB_LENGTH
    ∧ TAB_LENGTH - (render s).length % TAB_LENGTH ≤ 4
    ∧ (render (s ++ [TAB])).length % 4 = 0
    ∧ (render s).length < (render (s ++ [TAB])).length
    ∧ (render (s ++ [TAB])).length ≤ (render s).length + 4 := by
  have hlen : (render (s ++ [TAB])).length
      = (render s).length + (4 - (render s).length % 4) := by
    rw [render_snoc s TAB]; simp [TAB_LENGTH]
  refine ⟨rfl, rfl, rfl, render_snoc s b, ?_, ?_, ?_, ?_, ?_⟩
  · simp only [TAB_LENGTH]; omega
  · simp only [TAB_LENGTH]; omega
  · rw [hlen]; omega
  · rw [hlen]; omega
  · rw [hlen]; omega

theorem tabFill_append (r : List Nat) : ∃ t, tabFill TAB_LENGTH r = r ++ t :=
  ⟨_, tabFill_eq_replicate r⟩

theorem renderFrom_append_left (t r : List Nat) : ∃ u, renderFrom t r = r ++ u := by
  induction t generalizing r with
  | nil => exact ⟨[], by simp [renderFrom]⟩
  | cons c cs ih =>
    by_cases hc : c = TAB
    · obtain ⟨t1, h1⟩ := tabFill_append r
      obtain ⟨u, hu⟩ := ih (tabFill TAB_LENGTH r)
      refine ⟨t1 ++ u, ?_⟩
      simp only [renderFrom, hc, if_true]
      rw [hu, h1, List.append_assoc]
    · obtain ⟨u, hu⟩ := ih (r ++ [c])
      exact ⟨c :: u, by simp [renderFrom, hc, hu]⟩

theorem render_take_append (s : List Nat) (n : Nat) :
    ∃ u, render s = render (s.take n) ++ u := by
  obtain ⟨u, hu⟩ := renderFrom_append_left (s.drop n) (render (s.take n))
  refine ⟨u, ?_⟩
  rw [← hu, ← render_append, List.take_append_drop]

theorem render_snoc_length (s : List Nat) (c : Nat) :
    ((render (s ++ [c])).length : Int)
      = (if c = TAB then
          ((render s).length : Int)
            + ((TAB_LENGTH : Int) - 1 - ((render s).length : Int).tmod (TAB_LENGTH : Int))
        else ((render s).length : Int)) + 1 := by
  rw [render_snoc s c]
  have hm : ((render s).length : Int).tmod (TAB_LENGTH : Int)
      = ((render s).length : Int) % 4 :=
    Int.tmod_eq_emod (by omega) (by simp [TAB_LENGTH])
  by_cases hc : c = TAB
  · simp only [hc, if_true, List.length_append, List.length_replicate, hm]
    simp only [TAB_LENGTH]
    push_cast
    omega
  · simp [hc]

theorem cursorToRenderXLoop_eq (chars : List Nat) (n i : Nat) (h : i + n ≤ chars.length) :
    cursorToRenderXLoop chars n i ((render (chars.take i)).length : Int)
      = some ((render (chars.take (i + n))).length : Int) := by
  induction n generalizing i with
  | zero => simp [cursorToRenderXLoop]
  | succ n ih =>
    have hi : i < chars.length := by omega
    have hget : chars[i]? = some chars[i] := List.getElem?_eq_getElem hi
    have htake : chars.take (i + 1) = chars.take i ++ [chars[i]] := by
      rw [List.take_succ, hget]; rfl
    have hstep := render_snoc_length (chars.take i) chars[i]
    rw [← htake] at hstep
    simp only [cursorToRenderXLoop, hget]
    rw [← hstep, ih (i + 1) (by omega)]
    rw [show i + 1 + n = i + (n + 1) by omega]

/-! ## Access to the array of lines -/

theorem lineAt_eq_some {lines : List Line} {i : Int} {l : Line} (h : lineAt lines i = some l) :
    0 ≤ i ∧ i < (lines.length : Int) ∧ lines[i.toNat]? = some l := by
  unfold lineAt at h
  by_cases hi : i < 0
  · simp [hi] at h
  · simp only [hi, if_false] at h
    have hlt : i.toNat < lines.length := by
      by_contra hge
      rw [List.getElem?_eq_none (by omega)] at h
      exact Option.noConfusion h
    exact ⟨by omega, by omega, h⟩

theorem lineAt_of_nat (lines : List Line) (n : Nat) : lineAt lines (n : Int) = lines[n]? := by
  simp [lineAt]

theorem lineAt_eq_none_of_ge {lines : List Line} {i : Int} (h : (lines.length : Int) ≤ i) :
    lineAt lines i = none := by
  unfold lineAt
  by_cases hi : i < 0
  · simp [hi]
  · simp only [hi, if_false]
    exact List.getElem?_eq_none (by omega)

/-! ## Scrolling -/

theorem scroll_eq (e : Editor) :
    scroll e
      = (if e.cursor_y < e.num_lines then
            (lineAt e.lines e.cursor_y).bind (fun line => cursorToRenderX line e.cursor_x 0)
          else some 0).map
          (fun rx =>
            { e with
              render_x := rx
              row_offset := clamp e.row_offset (e.cursor_y - e.rows + 1) e.cursor_y
              col_offset := clamp e.col_offset (rx - e.cols + 1) rx }) := by
  unfold scroll
  simp only [Editor.num_lines]
  by_cases h : e.cursor_y < (e.lines.length : Int)
  · simp only [h, if_true]
    cases hl : lineAt e.lines e.cursor_y with
    | none => rfl
    | some line =>
      cases hr : cursorToRenderX line e.cursor_x 0 with
      | none => simp [hr]
      | some rx => simp [hr]
  · simp only [h, if_false]
    rfl

theorem clamp_bounds (val lo hi : Int) (h : lo ≤ hi) :
    lo ≤ clamp val lo hi ∧ clamp val lo hi ≤ hi := by
  unfold clamp
  split_ifs <;> omega

theorem scroll_inside_line (e : Editor) (line : Line)
    (hline : lineAt e.lines e.cursor_y = some line)
    (h0 : 0 ≤ e.cursor_x) (h1 : e.cursor_x ≤ line.len) :
    scroll e = some
      { e with
        render_x := ((render (line.chars.take e.cursor_x.toNat)).length : Int)
        row_offset := clamp e.row_offset (e.cursor_y - e.rows + 1) e.cursor_y
        col_offset := clamp e.col_offset
          (((render (line.chars.take e.cursor_x.toNat)).length : Int) - e.cols + 1)
          ((render (line.chars.take e.cursor_x.toNat)).length : Int) } := by
  obtain ⟨_, hlt, _⟩ := lineAt_eq_some hline
  have hloop := cursorToRenderXLoop_eq line.chars e.cursor_x.toNat 0
    (by simp only [Line.len] at h1; omega)
  simp only [List.take_zero, Nat.zero_add] at hloop
  have hr0 : ((render ([] : List Nat)).length : Int) = 0 := rfl
  rw [hr0] at hloop
  rw [scroll_eq]
  simp only [Editor.num_lines, hlt, if_true, hline, cursorToRenderX, Option.some_bind, hloop,
    Option.map_some']

/-- C2: with the cursor inside a line (`0 <= cursor_x <= len`), `scroll` returns, the
`render_x` it computes is the length of the render that `updateLine` gives to the content
prefix `chars[0 .. cursor_x)`, and that render is a prefix of the render of the whole line. -/
theorem scroll_render_x_eq_prefix_render (e : Editor) (line : Line)
    (hline : lineAt e.lines e.cursor_y = some line)
    (h0 : 0 ≤ e.cursor_x) (h1 : e.cursor_x ≤ line.len) :
    ∃ e1, scroll e = some e1
      ∧ e1.render_x
          = (updateLine { chars := line.chars.take e.cursor_x.toNat, rchars := [] }).rlen
      ∧ (updateLine { chars := line.chars.take e.cursor_x.toNat, rchars := [] }).rchars
          <+: (updateLine line).rchars := by
  refine ⟨_, scroll_inside_line e line hline h0 h1, rfl, ?_⟩
  obtain ⟨u, hu⟩ := render_take_append line.chars e.cursor_x.toNat
  exact ⟨u, hu.symm⟩

/-- Witness of C2: the cursor after `a`, tab, `b` in the line `a`, tab, `b`, `c`. -/
theorem scroll_render_x_eq_prefix_render_witness :
    ∃ e1,
      scroll { initEditor 24 80 with
          lines := [updateLine { chars := [97, 9, 98, 99], rchars := [] }], cursor_x := 3 }
        = some e1
      ∧ e1.render_x = (updateLine { chars := List.take 3 [97, 9, 98, 99], rchars := [] }).rlen
      ∧ (updateLine { chars := List.take 3 [97, 9, 98, 99], rchars := [] }).rchars
          <+: (updateLine (updateLine { chars := [97, 9, 98, 99], rchars := [] })).rchars :=
  scroll_render_x_eq_prefix_render
    { initEditor 24 80 with
      lines := [updateLine { chars := [97, 9, 98, 99], rchars := [] }], cursor_x := 3 }
    (updateLine { chars := [97, 9, 98, 99], rchars := [] })
    (by decide) (by decide) (by decide)

/-- C3: with `rows >= 1` and `cols >= 1`, whatever the offsets were, every result of `scroll`
has the cursor inside the window, `row_offset <= cursor_y <= row_offset + rows - 1` and
`col_offset <= render_x <= col_offset + cols - 1`, so the position that `refreshScreen`
writes is in `[1, rows] x [1, cols]`; and `scroll` returns whenever the cursor is past the
last line or inside a line. -/
theorem scroll_cursor_in_window (e : Editor) (hrows : 1 ≤ e.rows) (hcols : 1 ≤ e.cols) :
    ((e.num_lines ≤ e.cursor_y
        ∨ ∃ line, lineAt e.lines e.cursor_y = some line ∧ e.cursor_x ≤ line.len)
      → ∃ e1, scroll e = some e1)
    ∧ ∀ e1, scroll e = some e1 →
        e1.cursor_y = e.cursor_y ∧ e1.rows = e.rows ∧ e1.cols = e.cols
        ∧ e1.row_offset ≤ e1.cursor_y ∧ e1.cursor_y ≤ e1.row_offset + e1.rows - 1
        ∧ e1.col_offset ≤ e1.render_x ∧ e1.render_x ≤ e1.col_offset + e1.cols - 1
        ∧ 1 ≤ (refreshScreenCursor e1).1 ∧ (refreshScreenCursor e1).1 ≤ e1.rows
        ∧ 1 ≤ (refreshScreenCursor e1).2 ∧ (refreshScreenCursor e1).2 ≤ e1.cols := by
  constructor
  · rintro (hpast | ⟨line, hline, hx⟩)
    · rw [scroll_eq]
      have : ¬ e.cursor_y < e.num_lines := by omega
      simp [this]
    · by_cases h0 : 0 ≤ e.cursor_x
      · exact ⟨_, scroll_inside_line e line hline h0 hx⟩
      · obtain ⟨_, hlt, _⟩ := lineAt_eq_some hline
        have hz : e.cursor_x.toNat = 0 := by omega
        rw [scroll_eq]
        simp [Editor.num_lines, hlt, hline, cursorToRenderX, hz, cursorToRenderXLoop]
  · intro e1 h
    rw [scroll_eq] at h
    obtain ⟨rx, _, rfl⟩ := Option.map_eq_some'.mp h
    have hr := clamp_bounds e.row_offset (e.cursor_y - e.rows + 1) e.cursor_y (by omega)
    have hc := clamp_bounds e.col_offset (rx - e.cols + 1) rx (by omega)
    refine ⟨rfl, rfl, rfl, ?_, ?_, ?_, ?_, ?_, ?_, ?_, ?_⟩ <;>
      simp only [refreshScreenCursor] <;> omega

/-- Witness of C3: a window of 2 rows and 3 columns, the cursor at row 1, column 5 of a
document of two lines, and offsets that start far outside. -/
theorem scroll_cursor_in_window_witness :
    (∃ e1, scroll { initEditor 2 3 with
        lines := [updateLine { chars := [], rchars := [] },
                  updateLine { chars := [9, 97, 98, 99], rchars := [] }],
        cursor_x := 2, cursor_y := 1, row_offset := 40, col_offset := -7 } = some e1)
    ∧ ∀ e1, scroll { initEditor 2 3 with
        lines := [updateLine { chars := [], rchars := [] },
                  updateLine { chars := [9, 97, 98, 99], rchars := [] }],
        cursor_x := 2, cursor_y := 1, row_offset := 40, col_offset := -7 } = some e1 →
        e1.row_offset ≤ e1.cursor_y ∧ e1.cursor_y ≤ e1.row_offset + e1.rows - 1
        ∧ e1.col_offset ≤ e1.render_x ∧ e1.render_x ≤ e1.col_offset + e1.cols - 1 :=
  have h := scroll_cursor_in_window
    { initEditor 2 3 with
        lines := [updateLine { chars := [], rchars := [] },
                  updateLine { chars := [9, 97, 98, 99], rchars := [] }],
        cursor_x := 2, cursor_y := 1, row_offset := 40, col_offset := -7 }
    (by decide) (by decide)
  ⟨h.1 (Or.inr ⟨updateLine { chars := [9, 97, 98, 99], rchars := [] }, by decide, by decide⟩),
   fun e1 he => ⟨(h.2 e1 he).2.2.2.1, (h.2 e1 he).2.2.2.2.1, (h.2 e1 he).2.2.2.2.2.1,
     (h.2 e1 he).2.2.2.2.2.2.1⟩⟩

/-! ## Quit confirmation -/

theorem quitRun_nil : quitRun [] = 0 := rfl

theorem quitRun_snoc (ks : List KeyEvent) (k : KeyEvent) :
    quitRun (ks ++ [k]) = if k.key = CTRL_Q then quitRun ks + 1 else 0 := by
  unfold quitRun
  rw [List.reverse_append]
  by_cases h : k.key = CTRL_Q
  · simp [List.takeWhile_cons, h]
  · simp [List.takeWhile_cons, h]

theorem two_le_quitRun_iff (ks : List KeyEvent) :
    2 ≤ quitRun ks
      ↔ ∃ ks0 k1 k2, ks = ks0 ++ [k1, k2] ∧ k1.key = CTRL_Q ∧ k2.key = CTRL_Q := by
  constructor
  · intro h
    rcases List.eq_nil_or_concat ks with rfl | ⟨ks1, k2, rfl⟩
    · simp [quitRun] at h
    · rw [List.concat_eq_append] at h ⊢
      rw [quitRun_snoc] at h
      by_cases h2 : k2.key = CTRL_Q
      · simp only [h2, if_true] at h
        rcases List.eq_nil_or_concat ks1 with rfl | ⟨ks0, k1, rfl⟩
        · simp [quitRun] at h
        · rw [List.concat_eq_append] at h ⊢
          rw [quitRun_snoc] at h
          by_cases h1 : k1.key = CTRL_Q
          · exact ⟨ks0, k1, k2, by simp, h1, h2⟩
          · simp [h1] at h
      · simp [h2] at h
  · rintro ⟨ks0, k1, k2, rfl, h1, h2⟩
    have : ks0 ++ [k1, k2] = (ks0 ++ [k1]) ++ [k2] := by simp
    rw [this, quitRun_snoc, quitRun_snoc]
    simp [h1, h2]

theorem run_snoc (s0 : State) (ks : List KeyEvent) (k : KeyEvent) :
    run s0 (ks ++ [k])
      = match run s0 ks with
        | Outcome.running s => run s [k]
        | Outcome.exited code => Outcome.exited code
        | Outcome.fault => Outcome.fault := by
  induction ks generalizing s0 with
  | nil => simp [run]
  | cons k0 ks ih =>
    simp only [List.cons_append, run]
    cases hr : refreshScreen s0.editor with
    | none => rfl
    | some e =>
      simp only []
      cases hp : processKeypress k0.env { s0 with editor := e } k0.key with
      | running s1 => simp only []; exact ih s1
      | exited code => rfl
      | fault => rfl

theorem run_single_running {s s1 : State} {k : KeyEvent}
    (h : run s [k] = Outcome.running s1) :
    ∃ e, refreshScreen s.editor = some e
      ∧ processKeypress k.env { s with editor := e } k.key = Outcome.running s1 := by
  simp only [run] at h
  cases hr : refreshScreen s.editor with
  | none => simp [hr] at h
  | some e =>
    simp only [hr] at h
    cases hp : processKeypress k.env { s with editor := e } k.key with
    | running s2 =>
      simp only [hp] at h
      exact ⟨e, rfl, hp.trans h⟩
    | exited code => simp [hp] at h
    | fault => simp [hp] at h

theorem refreshScreen_dirty {e e1 : Editor} (h : refreshScreen e = some e1) :
    e1.dirty = e.dirty ∧ e1.lines = e.lines ∧ e1.cursor_x = e.cursor_x
      ∧ e1.cursor_y = e.cursor_y := by
  unfold refreshScreen at h
  rw [scroll_eq] at h
  obtain ⟨rx, _, rfl⟩ := Option.map_eq_some'.mp h
  exact ⟨rfl, rfl, rfl, rfl⟩

theorem processKeypress_quit (env : SaveEnv) (s : State) :
    processKeypress env s CTRL_Q
      = if s.editor.dirty = true ∧ s.quit_left ≠ 0 then
          Outcome.running
            { editor := { s.editor with status := Status.quitWarning s.quit_left },
              quit_left := s.quit_left - 1 }
        else Outcome.exited 0 := by
  simp [processKeypress, CTRL_Q]

theorem processKeypress_other {env : SaveEnv} {s s1 : State} {c : Int} (hc : c ≠ CTRL_Q)
    (h : processKeypress env s c = Outcome.running s1) : s1.quit_left = QUIT_CONFIRMATION := by
  have hc1 : ¬ c = CTRL_KEY 113 := hc
  simp only [processKeypress, hc1, if_false] at h
  cases hd : dispatchKey env s.editor c with
  | running e => simp only [hd, Outcome.running.injEq] at h; rw [← h]
  | exited code => simp [hd] at h
  | fault => simp [hd] at h

theorem run_quit_left (s0 : State) (h0 : s0.quit_left = QUIT_CONFIRMATION)
    (ks : List KeyEvent) :
    ∀ s, run s0 ks = Outcome.running s →
      s.quit_left = 2 - (quitRun ks : Int) ∧ quitRun ks ≤ 2
        ∧ (0 < quitRun ks → s.editor.dirty = true) := by
  induction ks using List.reverseRecOn with
  | nil =>
    intro s h
    simp only [run, Outcome.running.injEq] at h
    subst h
    simp [quitRun_nil, h0, QUIT_CONFIRMATION]
  | append_singleton ks k ih =>
    intro s h
    rw [run_snoc] at h
    cases hr : run s0 ks with
    | exited code => simp [hr] at h
    | fault => simp [hr] at h
    | running s1 =>
      simp only [hr] at h
      obtain ⟨e, he, hp⟩ := run_single_running h
      obtain ⟨hq, hle, hd⟩ := ih s1 hr
      rw [quitRun_snoc]
      by_cases hk : k.key = CTRL_Q
      · rw [hk, processKeypress_quit] at hp
        simp only [if_pos hk]
        by_cases hc : e.dirty = true ∧ s1.quit_left ≠ 0
        · rw [if_pos hc] at hp
          have hs := Outcome.running.inj hp
          subst hs
          have hne := hc.2
          refine ⟨?_, by omega, fun _ => hc.1⟩
          show s1.quit_left - 1 = _
          push_cast
          omega
        · rw [if_neg hc] at hp
          exact Outcome.noConfusion hp
      · simp only [if_neg hk]
        have := processKeypress_other hk hp
        simp only [QUIT_CONFIRMATION] at this
        simp [this]

/-- C4: in every run that starts with the counter at `QUIT_CONFIRMATION` and is still going
after the keys `ks`, a quit key ends the program (`exit(0)`) exactly when the document is
not dirty or the two keys just before it were quit keys as well; a quit key that does not
end the program changes the status message and the counter only.  Starting dirty with the
counter at 2, the first and second quit keys leave document, cursor and dirty alone and the
third one ends the program; and every other key that returns sets the counter to 2. -/
theorem quit_confirmation (s0 : State) (h0 : s0.quit_left = QUIT_CONFIRMATION)
    (ks : List KeyEvent) (s : State) (hrun : run s0 ks = Outcome.running s) (env : SaveEnv) :
    (processKeypress env s CTRL_Q = Outcome.exited 0
      ↔ (s.editor.dirty = false
          ∨ ∃ ks0 k1 k2, ks = ks0 ++ [k1, k2] ∧ k1.key = CTRL_Q ∧ k2.key = CTRL_Q))
    ∧ (processKeypress env s CTRL_Q ≠ Outcome.exited 0 →
        processKeypress env s CTRL_Q
          = Outcome.running
              { editor := { s.editor with status := Status.quitWarning s.quit_left },
                quit_left := s.quit_left - 1 })
    ∧ (∀ e, refreshScreen s.editor = some e →
        (run s0 (ks ++ [{ key := CTRL_Q, env := env }]) = Outcome.exited 0
          ↔ (s.editor.dirty = false
              ∨ ∃ ks0 k1 k2, ks = ks0 ++ [k1, k2] ∧ k1.key = CTRL_Q ∧ k2.key = CTRL_Q)))
    ∧ (∀ d : State, d.editor.dirty = true → d.quit_left = QUIT_CONFIRMATION →
        ∀ env1 env2 env3 : SaveEnv, ∃ d1 d2,
          processKeypress env1 d CTRL_Q = Outcome.running d1
          ∧ processKeypress env2 d1 CTRL_Q = Outcome.running d2
          ∧ processKeypress env3 d2 CTRL_Q = Outcome.exited 0
          ∧ d1.editor.lines = d.editor.lines ∧ d1.editor.cursor_x = d.editor.cursor_x
          ∧ d1.editor.cursor_y = d.editor.cursor_y ∧ d1.editor.dirty = d.editor.dirty
          ∧ d2.editor.lines = d.editor.lines ∧ d2.editor.cursor_x = d.editor.cursor_x
          ∧ d2.editor.cursor_y = d.editor.cursor_y ∧ d2.editor.dirty = d.editor.dirty)
    ∧ (∀ (env1 : SaveEnv) (t t1 : State) (c : Int), c ≠ CTRL_Q →
        processKeypress env1 t c = Outcome.running t1 → t1.quit_left = QUIT_CONFIRMATION) := by
  obtain ⟨hq, hle, hd⟩ := run_quit_left s0 h0 ks s hrun
  have hiff : ∀ (env1 : SaveEnv) (e : Editor), e.dirty = s.editor.dirty →
      (processKeypress env1 { s with editor := e } CTRL_Q = Outcome.exited 0
        ↔ (s.editor.dirty = false
            ∨ ∃ ks0 k1 k2, ks = ks0 ++ [k1, k2] ∧ k1.key = CTRL_Q ∧ k2.key = CTRL_Q)) := by
    intro env1 e he
    rw [processKeypress_quit, ← two_le_quitRun_iff]
    show (if e.dirty = true ∧ s.quit_left ≠ 0 then _ else _) = _ ↔ _
    rw [he]
    by_cases hc : s.editor.dirty = true ∧ s.quit_left ≠ 0
    · rw [if_pos hc]
      have h1 := hc.1
      have h2 := hc.2
      constructor
      · intro h
        exact Outcome.noConfusion h
      · rintro (h | h)
        · rw [h1] at h
          exact Bool.noConfusion h
        · omega
    · rw [if_neg hc]
      refine ⟨fun _ => ?_, fun _ => rfl⟩
      by_cases hdirty : s.editor.dirty = true
      · right
        have : s.quit_left = 0 := by
          by_contra hne
          exact hc ⟨hdirty, hne⟩
        omega
      · left
        simpa using hdirty
  refine ⟨hiff env s.editor rfl, ?_, ?_, ?_, ?_⟩
  · intro hne
    rw [processKeypress_quit] at hne ⊢
    by_cases hc : s.editor.dirty = true ∧ s.quit_left ≠ 0
    · rw [if_pos hc]
    · rw [if_neg hc] at hne
      exact absurd rfl hne
  · intro e he
    rw [run_snoc, hrun]
    simp only [run, he]
    rw [← hiff env e (refreshScreen_dirty he).1]
    cases hp : processKeypress env { s with editor := e } CTRL_Q with
    | running s1 => simp
    | exited code => simp
    | fault => simp
  · intro d hdirty hleft env1 env2 env3
    refine ⟨{ editor := { d.editor with status := Status.quitWarning d.quit_left },
              quit_left := d.quit_left - 1 },
            { editor := { d.editor with status := Status.quitWarning (d.quit_left - 1) },
              quit_left := d.quit_left - 1 - 1 },
            ?_, ?_, ?_, rfl, rfl, rfl, rfl, rfl, rfl, rfl, rfl⟩
    · rw [processKeypress_quit, if_pos ⟨hdirty, by rw [hleft]; decide⟩]
    · rw [processKeypress_quit, if_pos ⟨hdirty, by show d.quit_left - 1 ≠ 0; rw [hleft]; decide⟩]
    · rw [processKeypress_quit, if_neg]
      show ¬ (d.editor.dirty = true ∧ d.quit_left - 1 - 1 ≠ 0)
      rw [hleft]
      simp [QUIT_CONFIRMATION]
  · intro env1 t t1 c hc hp
    exact processKeypress_other hc hp

/-- Witness of C4: from the initial state the keys `a`, quit, quit leave the program running
with a dirty document, and the next quit key ends it. -/
theorem quit_confirmation_witness :
    (initState 24 80).quit_left = QUIT_CONFIRMATION
    ∧ run (initState 24 80) [key 97, key CTRL_Q, key CTRL_Q]
        = Outcome.running
            { editor :=
                { initEditor 24 80 with
                  lines := [{ chars := [97], rchars := [97] }]
                  cursor_x := 1, render_x := 1, dirty := true
                  status := Status.quitWarning 1 }
              quit_left := 0 }
    ∧ processKeypress (key CTRL_Q).env
        { editor :=
            { initEditor 24 80 with
              lines := [{ chars := [97], rchars := [97] }]
              cursor_x := 1, render_x := 1, dirty := true
              status := Status.quitWarning 1 }
          quit_left := 0 } CTRL_Q = Outcome.exited 0 :=
  ⟨by decide, by decide,
    ((quit_confirmation (initState 24 80) (by decide)
        [key 97, key CTRL_Q, key CTRL_Q] _ (by decide) (key CTRL_Q).env).1).mpr
      (Or.inr ⟨[key 97], key CTRL_Q, key CTRL_Q, rfl, rfl, rfl⟩)⟩

/-! ## Line store: explicit results -/

theorem toNat_natCast_succ (n : Nat) : ((n : Int) + 1).toNat = n + 1 := by omega

theorem lineAt_append_length (pre post : List Line) (l : Line) :
    lineAt (pre ++ l :: post) (pre.length : Int) = some l := by
  rw [lineAt_of_nat, List.getElem?_append_right (by omega)]
  simp

theorem lineAt_append_length_succ (pre post : List Line) (a b : Line) :
    lineAt (pre ++ a :: b :: post) ((pre.length : Int) + 1) = some b := by
  have h := lineAt_of_nat (pre ++ a :: b :: post) (pre.length + 1)
  rw [List.getElem?_append_right (by omega)] at h
  simpa using h

theorem lines_split {lines : List Line} {i : Int} {l : Line} (h : lineAt lines i = some l) :
    ∃ pre post, lines = pre ++ l :: post ∧ (pre.length : Int) = i
      ∧ pre = lines.take i.toNat ∧ post = lines.drop (i.toNat + 1) := by
  obtain ⟨h0, hlt, hget⟩ := lineAt_eq_some h
  obtain ⟨hn, rfl⟩ := List.getElem?_eq_some.mp hget
  refine ⟨lines.take i.toNat, lines.drop (i.toNat + 1), ?_, ?_, rfl, rfl⟩
  · rw [← List.drop_eq_getElem_cons hn, List.take_append_drop]
  · rw [List.length_take]
    omega

theorem contents_append (a b : List Line) : contents (a ++ b) = contents a ++ contents b := by
  simp [contents]

theorem contents_cons (l : Line) (b : List Line) : contents (l :: b) = l.chars :: contents b := by
  simp [contents]

theorem insertLine_append (e : Editor) (pre post : List Line) (str : List Nat)
    (hl : e.lines = pre ++ post) :
    insertLine e (pre.length : Int) str
      = { e with lines := pre ++ { chars := str, rchars := render str } :: post } := by
  unfold insertLine
  have h : ¬ ((pre.length : Int) < 0 ∨ (pre.length : Int) > e.num_lines) := by
    simp only [Editor.num_lines, hl, List.length_append]
    push_cast
    omega
  rw [if_neg h, hl]
  simp [updateLine]

/-- The result of `insertNewline` with the cursor inside the document. -/
theorem insertNewline_append (e : Editor) (pre post : List Line) (line : Line)
    (hl : e.lines = pre ++ line :: post) (hy : e.cursor_y = (pre.length : Int))
    (h0 : 0 ≤ e.cursor_x) (h1 : e.cursor_x ≤ line.len) :
    ∃ l0 l1 : Line, l0.chars = line.chars.take e.cursor_x.toNat
      ∧ l1.chars = line.chars.drop e.cursor_x.toNat
      ∧ insertNewline e = some
          { e with lines := pre ++ l0 :: l1 :: post, cursor_x := 0,
                   cursor_y := (pre.length : Int) + 1, dirty := true } := by
  by_cases hx : e.cursor_x = 0
  · refine ⟨{ chars := [], rchars := render [] }, line, by simp [hx], by simp [hx], ?_⟩
    unfold insertNewline
    rw [if_pos hx, hy, insertLine_append e pre (line :: post) [] hl]
    simp only [Option.pure_def, Option.bind_eq_bind, Option.some_bind, hy]
  · refine ⟨updateLine { line with chars := line.chars.take e.cursor_x.toNat },
      { chars := line.chars.drop e.cursor_x.toNat,
        rchars := render (line.chars.drop e.cursor_x.toNat) }, rfl, rfl, ?_⟩
    have hline : lineAt e.lines e.cursor_y = some line := by
      rw [hl, hy]; exact lineAt_append_length pre post line
    have hg : ¬ (e.cursor_x < 0 ∨ e.cursor_x > line.len) := by omega
    have hins := insertLine_append e (pre ++ [line]) post
      (line.chars.drop e.cursor_x.toNat) (by simp [hl])
    have hcast : ((pre ++ [line]).length : Int) = e.cursor_y + 1 := by
      rw [hy]; simp
    rw [hcast] at hins
    unfold insertNewline
    simp only [if_neg hx, hline, Option.bind_eq_bind, Option.some_bind, if_neg hg, hins]
    have hline1 : lineAt
        ((pre ++ [line]) ++ (Line.mk (line.chars.drop e.cursor_x.toNat)
            (render (line.chars.drop e.cursor_x.toNat))) :: post) e.cursor_y
        = some line := by
      rw [hy, List.append_assoc]; exact lineAt_append_length pre _ line
    simp only [hline1, Option.some_bind, Option.pure_def, hy, Int.toNat_ofNat]
    simp [lineAt_append_length]

/-- The result of `delete` at column 0 of a row other than the first: the join. -/
theorem delete_join_append (e : Editor) (pre post : List Line) (a b : Line)
    (hl : e.lines = pre ++ a :: b :: post) (hy : e.cursor_y = (pre.length : Int) + 1)
    (hx : e.cursor_x = 0) :
    delete e = some
      { e with lines := pre ++ updateLine { a with chars := a.chars ++ b.chars } :: post,
               cursor_x := a.len, cursor_y := (pre.length : Int), dirty := true } := by
  have h1 : ¬ (e.cursor_x = 0 ∧ e.cursor_y = 0) := by omega
  have h2 : ¬ e.cursor_x > 0 := by omega
  have hy1 : e.cursor_y - 1 = (pre.length : Int) := by omega
  have ha : lineAt (pre ++ a :: b :: post) (pre.length : Int) = some a :=
    lineAt_append_length pre _ a
  have hb : lineAt (pre ++ a :: b :: post) ((pre.length : Int) + 1) = some b :=
    lineAt_append_length_succ pre post a b
  have hb1 : lineAt (pre ++ updateLine { a with chars := a.chars ++ b.chars } :: b :: post)
      ((pre.length : Int) + 1) = some b :=
    lineAt_append_length_succ pre post _ b
  have hguard : ¬ ((pre.length : Int) + 1 < 0
      ∨ (pre.length : Int) + 1 > ((pre.length + (post.length + 1 + 1) : Nat) : Int)) := by
    push_cast
    omega
  unfold delete
  simp only [if_neg h1, if_neg h2, hy1, hl, ha, hb, appendToLine, deleteRow, Editor.num_lines,
    Option.bind_eq_bind, Option.some_bind, Option.pure_def, Int.toNat_ofNat, List.set_append,
    List.length_append, List.length_cons, lt_irrefl, if_false, Nat.sub_self, List.set_cons_zero,
    hb1, if_neg hguard, toNat_natCast_succ]
  rw [List.eraseIdx_append_of_length_le (by omega)]
  simp

/-- The result of `delete` at a column other than 0 inside a line: one byte goes. -/
theorem delete_char_append (e : Editor) (pre post : List Line) (line : Line)
    (hl : e.lines = pre ++ line :: post) (hy : e.cursor_y = (pre.length : Int))
    (h0 : 0 < e.cursor_x) (h1 : e.cursor_x ≤ line.len) :
    delete e = some
      { e with lines := pre ++ updateLine
                  { line with chars := line.chars.eraseIdx (e.cursor_x - 1).toNat } :: post,
               cursor_x := e.cursor_x - 1, dirty := true } := by
  have hn : ¬ (e.cursor_x = 0 ∧ e.cursor_y = 0) := by omega
  have hp : e.cursor_x > 0 := h0
  have ha : lineAt (pre ++ line :: post) (pre.length : Int) = some line :=
    lineAt_append_length pre _ line
  have hg : ¬ (e.cursor_x - 1 < 0 ∨ e.cursor_x - 1 > line.len) := by omega
  have hlt : e.cursor_x - 1 < line.len := by omega
  unfold delete
  rw [if_neg hn, if_pos hp]
  simp only [lineDelete, hl, hy, ha, Option.bind_eq_bind,
    Option.some_bind, if_neg hg, if_pos hlt, Option.pure_def, Int.toNat_ofNat, List.set_append,
    lt_irrefl, if_false, Nat.sub_self, List.set_cons_zero]

theorem delete_origin (e : Editor) (hx : e.cursor_x = 0) (hy : e.cursor_y = 0) :
    delete e = some e := by
  unfold delete
  rw [if_pos ⟨hx, hy⟩]

theorem refreshScreen_inside_line (e : Editor) (line : Line)
    (hline : lineAt e.lines e.cursor_y = some line)
    (h0 : 0 ≤ e.cursor_x) (h1 : e.cursor_x ≤ line.len) :
    ∃ e1, refreshScreen e = some e1 ∧ e1.lines = e.lines ∧ e1.cursor_x = e.cursor_x
      ∧ e1.cursor_y = e.cursor_y ∧ e1.dirty = e.dirty :=
  ⟨_, scroll_inside_line e line hline h0 h1, rfl, rfl, rfl, rfl⟩

theorem processKeypress_enter (env : SaveEnv) (s : State) :
    processKeypress env s ENTER_KEY
      = match insertNewline s.editor with
        | some e => Outcome.running { editor := e, quit_left := QUIT_CONFIRMATION }
        | none => Outcome.fault := by
  have h : dispatchKey env s.editor ENTER_KEY = Outcome.ofOption (insertNewline s.editor) := by
    simp [dispatchKey, ENTER_KEY, CTRL_KEY, ARROW_LEFT, ARROW_RIGHT, ARROW_UP, ARROW_DOWN,
      PAGE_UP, PAGE_DOWN, HOME_KEY, END_KEY, DELETE_KEY, BACKSPACE]
  have hq : ¬ ENTER_KEY = CTRL_KEY 113 := by decide
  simp only [processKeypress, if_neg hq, h]
  cases insertNewline s.editor <;> rfl

theorem processKeypress_backspace (env : SaveEnv) (s : State) :
    processKeypress env s BACKSPACE
      = match delete s.editor with
        | some e => Outcome.running { editor := e, quit_left := QUIT_CONFIRMATION }
        | none => Outcome.fault := by
  have h : dispatchKey env s.editor BACKSPACE = Outcome.ofOption (delete s.editor) := by
    simp [dispatchKey, ENTER_KEY, CTRL_KEY, ARROW_LEFT, ARROW_RIGHT, ARROW_UP, ARROW_DOWN,
      PAGE_UP, PAGE_DOWN, HOME_KEY, END_KEY, DELETE_KEY, BACKSPACE]
  have hq : ¬ BACKSPACE = CTRL_KEY 113 := by decide
  simp only [processKeypress, if_neg hq, h]
  cases delete s.editor <;> rfl

theorem take_length_cast (chars : List Nat) (x : Int) (h0 : 0 ≤ x)
    (h1 : x ≤ (chars.length : Int)) : ((chars.take x.toNat).length : Int) = x := by
  rw [List.length_take]
  omega

theorem join_split_contents (pre post : List Line) (line l0 l1 : Line) (n : Nat)
    (hc0 : l0.chars = line.chars.take n) (hc1 : l1.chars = line.chars.drop n) :
    contents (pre ++ updateLine { l0 with chars := l0.chars ++ l1.chars } :: post)
      = contents (pre ++ line :: post) := by
  simp only [contents_append, contents_cons, updateLine, hc0, hc1, List.take_append_drop]

/-- C5: with the cursor inside the document (`row < num_lines`, `0 <= col <= len`), Enter
(`insertNewline`) followed by Backspace (`delete`) both return, and they leave the sequence
of line contents as it was and the cursor back at `(row, col)`; the same holds for the two
keys handled by the loop of `main`. -/
theorem insertNewline_delete_roundtrip (e : Editor) (line : Line)
    (hline : lineAt e.lines e.cursor_y = some line)
    (h0 : 0 ≤ e.cursor_x) (h1 : e.cursor_x ≤ line.len) :
    (∃ e1 e2, insertNewline e = some e1 ∧ delete e1 = some e2
      ∧ contents e2.lines = contents e.lines
      ∧ e2.cursor_x = e.cursor_x ∧ e2.cursor_y = e.cursor_y)
    ∧ ∀ (q : Int) (env1 env2 : SaveEnv), ∃ s2,
        run { editor := e, quit_left := q }
            [{ key := ENTER_KEY, env := env1 }, { key := BACKSPACE, env := env2 }]
          = Outcome.running s2
        ∧ contents s2.editor.lines = contents e.lines
        ∧ s2.editor.cursor_x = e.cursor_x ∧ s2.editor.cursor_y = e.cursor_y := by
  obtain ⟨pre, post, hl, hy, _, _⟩ := lines_split hline
  constructor
  · obtain ⟨l0, l1, hc0, hc1, hins⟩ := insertNewline_append e pre post line hl hy.symm h0 h1
    have hdel := delete_join_append
      { e with lines := pre ++ l0 :: l1 :: post, cursor_x := 0,
               cursor_y := (pre.length : Int) + 1, dirty := true }
      pre post l0 l1 rfl rfl rfl
    refine ⟨_, _, hins, hdel, ?_, ?_, hy⟩
    · rw [hl]
      exact join_split_contents pre post line l0 l1 _ hc0 hc1
    · show l0.len = e.cursor_x
      simp only [Line.len, hc0]
      exact take_length_cast line.chars e.cursor_x h0 h1
  · intro q env1 env2
    obtain ⟨ea, hsa, hla, hxa, hya, _⟩ := refreshScreen_inside_line e line hline h0 h1
    obtain ⟨l0, l1, hc0, hc1, hins⟩ :=
      insertNewline_append ea pre post line (hla.trans hl) (hya.trans hy.symm)
        (by omega) (by omega)
    obtain ⟨eb, hsb, hlb, hxb, hyb, _⟩ := refreshScreen_inside_line
      { ea with lines := pre ++ l0 :: l1 :: post, cursor_x := 0,
                cursor_y := (pre.length : Int) + 1, dirty := true } l1
      (lineAt_append_length_succ pre post l0 l1) (le_refl _) (by simp [Line.len])
    have hdel := delete_join_append eb pre post l0 l1 hlb hyb hxb
    refine ⟨{ editor :=
                { eb with
                  lines := pre ++ updateLine { l0 with chars := l0.chars ++ l1.chars } :: post,
                  cursor_x := l0.len, cursor_y := (pre.length : Int), dirty := true }
              quit_left := QUIT_CONFIRMATION }, ?_, ?_, ?_, ?_⟩
    · simp only [run, hsa, processKeypress_enter, hins, hsb, processKeypress_backspace, hdel]
    · rw [hl]
      exact join_split_contents pre post line l0 l1 _ hc0 hc1
    · show l0.len = e.cursor_x
      simp only [Line.len, hc0, hxa]
      exact take_length_cast line.chars e.cursor_x h0 h1
    · exact hy

/-- Witness of C5: Enter then Backspace in the middle of the second of two lines. -/
theorem insertNewline_delete_roundtrip_witness :
    ∃ e1 e2,
      insertNewline { initEditor 24 80 with
          lines := [{ chars := [102], rchars := [102] },
                    { chars := [97, 9, 98], rchars := [97, 32, 32, 32, 98] }],
          cursor_x := 2, cursor_y := 1 } = some e1
      ∧ delete e1 = some e2
      ∧ contents e2.lines = [[102], [97, 9, 98]]
      ∧ e2.cursor_x = 2 ∧ e2.cursor_y = 1 :=
  (insertNewline_delete_roundtrip
    { initEditor 24 80 with
        lines := [{ chars := [102], rchars := [102] },
                  { chars := [97, 9, 98], rchars := [97, 32, 32, 32, 98] }],
        cursor_x := 2, cursor_y := 1 }
    { chars := [97, 9, 98], rchars := [97, 32, 32, 32, 98] }
    (by decide) (by decide) (by decide)).1

/-! ## Save and load -/

theorem fullText_foldl (lines : List Line) (text : List Nat) :
    lines.foldl (fun text line => text ++ line.chars ++ [NEWLINE]) text
      = text ++ fullText lines := by
  induction lines generalizing text with
  | nil => simp [fullText]
  | cons l ls ih =>
    simp only [fullText, List.foldl_cons, List.nil_append]
    rw [ih, ih (l.chars ++ [NEWLINE])]
    simp

theorem fullText_cons (l : Line) (ls : List Line) :
    fullText (l :: ls) = l.chars ++ NEWLINE :: fullText ls := by
  have h := fullText_foldl ls (l.chars ++ [NEWLINE])
  simp only [fullText, List.foldl_cons, List.nil_append] at h ⊢
  rw [h]
  simp

theorem fullText_eq_flatten (lines : List Line) :
    fullText lines = (lines.map (fun l => l.chars ++ [NEWLINE])).flatten := by
  induction lines with
  | nil => rfl
  | cons l ls ih => rw [fullText_cons, List.map_cons, List.flatten_cons, ← ih]; simp

theorem fullTextLen_foldl (lines : List Line) (len : Int) :
    lines.foldl (fun len line => len + (line.len + 1)) len = len + fullTextLen lines := by
  induction lines generalizing len with
  | nil => simp [fullTextLen]
  | cons l ls ih =>
    simp only [fullTextLen, List.foldl_cons]
    rw [ih, ih (0 + (l.len + 1))]
    omega

theorem fullTextLen_cons (l : Line) (ls : List Line) :
    fullTextLen (l :: ls) = (l.len + 1) + fullTextLen ls := by
  have h := fullTextLen_foldl ls (0 + (l.len + 1))
  simp only [fullTextLen, List.foldl_cons] at h ⊢
  rw [h]
  omega

theorem fullTextLen_eq_sum (lines : List Line) :
    fullTextLen lines = (lines.map (fun l => l.len + 1)).sum := by
  induction lines with
  | nil => rfl
  | cons l ls ih => rw [fullTextLen_cons, List.map_cons, List.sum_cons, ih]

theorem fullText_length (lines : List Line) :
    ((fullText lines).length : Int) = fullTextLen lines := by
  induction lines with
  | nil => rfl
  | cons l ls ih =>
    rw [fullText_cons, fullTextLen_cons, ← ih]
    simp only [List.length_append, List.length_cons, Line.len]
    push_cast
    omega

theorem getlineLoop_line (chars rest buffer : List Nat) (h : NEWLINE ∉ chars) :
    getlineLoop (chars ++ NEWLINE :: rest) buffer = (some (buffer ++ chars), rest) := by
  induction chars generalizing buffer with
  | nil => simp [getlineLoop]
  | cons c cs ih =>
    have hc : ¬ c = NEWLINE := fun hc => h (by simp [hc])
    have hcs : NEWLINE ∉ cs := fun hcs => h (by simp [hcs])
    rw [List.cons_append, getlineLoop, if_neg hc, ih _ hcs]
    simp

theorem getline_line (chars rest : List Nat) (h : NEWLINE ∉ chars) :
    getline (chars ++ NEWLINE :: rest) = (some chars, rest) := by
  rw [getline, getlineLoop_line chars rest [] h]
  simp

theorem stripLineEnd_eq_self (chars : List Nat) (hn : NEWLINE ∉ chars)
    (hr : chars.getLast? ≠ some CR) : stripLineEnd chars = chars := by
  unfold stripLineEnd
  rw [List.rdropWhile_eq_self_iff]
  intro hl
  have hmem : chars.getLast hl ∈ chars := List.getLast_mem hl
  have h1 : chars.getLast hl ≠ NEWLINE := fun h => hn (h ▸ hmem)
  have h2 : chars.getLast hl ≠ CR := by
    intro h
    apply hr
    rw [List.getLast?_eq_getLast _ hl, h]
  simp [h1, h2]

theorem insertLine_end (e : Editor) (str : List Nat) :
    insertLine e e.num_lines str
      = { e with lines := e.lines ++ [{ chars := str, rchars := render str }] } := by
  have h := insertLine_append e e.lines [] str (by simp)
  exact h

theorem openLoop_fullText (lines : List Line) (hn : ∀ l ∈ lines, NEWLINE ∉ l.chars)
    (hr : ∀ l ∈ lines, l.chars.getLast? ≠ some CR) (fuel : Nat) (e : Editor)
    (hfuel : lines.length < fuel) :
    openLoop fuel (fullText lines) e
      = some { e with lines := e.lines ++ lines.map updateLine } := by
  induction lines generalizing fuel e with
  | nil =>
    obtain ⟨n, rfl⟩ : ∃ n, fuel = n + 1 := ⟨fuel - 1, by simp at hfuel; omega⟩
    simp [openLoop, fullText, getline, getlineLoop]
  | cons l ls ih =>
    obtain ⟨n, rfl⟩ : ∃ n, fuel = n + 1 := ⟨fuel - 1, by simp at hfuel; omega⟩
    have hl := hn l (by simp)
    rw [fullText_cons]
    simp only [openLoop, getline_line l.chars (fullText ls) hl]
    rw [stripLineEnd_eq_self l.chars hl (hr l (by simp)), insertLine_end,
      ih (fun l1 h1 => hn l1 (by simp [h1])) (fun l1 h1 => hr l1 (by simp [h1])) n _
        (by simp at hfuel; omega)]
    simp [updateLine]

theorem getlineLoop_rest_length (stream buffer : List Nat) :
    (getlineLoop stream buffer).2.length ≤ stream.length := by
  induction stream generalizing buffer with
  | nil =>
    unfold getlineLoop
    split_ifs <;> simp
  | cons c cs ih =>
    unfold getlineLoop
    by_cases hc : c = NEWLINE
    · simp [hc]
    · rw [if_neg hc]
      have := ih (buffer ++ [c])
      simp only [List.length_cons]
      omega

theorem getline_some_rest_length {stream line rest : List Nat}
    (h : getline stream = (some line, rest)) : rest.length < stream.length := by
  cases stream with
  | nil => simp [getline, getlineLoop] at h
  | cons c cs =>
    have hr : rest = (getline (c :: cs)).2 := by rw [h]
    rw [hr]
    unfold getline getlineLoop
    by_cases hc : c = NEWLINE
    · simp [hc]
    · rw [if_neg hc]
      have := getlineLoop_rest_length cs ([] ++ [c])
      simp only [List.length_cons]
      omega

/-- The loop of `openEditor` returns for every file: one `getline` call more than there are
bytes is never used up. -/
theorem openLoop_isSome (fuel : Nat) (stream : List Nat) (e : Editor)
    (h : stream.length < fuel) : ∃ e1, openLoop fuel stream e = some e1 := by
  induction fuel generalizing stream e with
  | zero => omega
  | succ n ih =>
    unfold openLoop
    rcases hg : getline stream with ⟨_ | line, rest⟩
    · exact ⟨e, rfl⟩
    · have := getline_some_rest_length hg
      exact ih rest _ (by omega)

theorem contents_map_updateLine (lines : List Line) :
    contents (lines.map updateLine) = contents lines := by
  simp [contents, updateLine]

theorem length_le_fullText_length (lines : List Line) :
    lines.length ≤ (fullText lines).length := by
  induction lines with
  | nil => simp
  | cons l ls ih =>
    rw [fullText_cons]
    simp only [List.length_append, List.length_cons]
    omega

/-- The count `len` of `saveToDisk` is the number of bytes built in `full_text`, so
`WriteFile` takes all of them and none from outside. -/
theorem writeFileBytes_fullText (lines : List Line) :
    writeFileBytes (fullText lines) (fullTextLen lines) = some (fullText lines) := by
  have h := fullText_length lines
  have h0 : ¬ (fullTextLen lines < 0 ∨ ((fullText lines).length : Int) < fullTextLen lines) := by
    omega
  unfold writeFileBytes
  rw [if_neg h0]
  congr 1
  exact List.take_of_length_le (by omega)

theorem saveToDisk_named_ok (env : SaveEnv) (e : Editor) (name : List Nat)
    (hname : e.filename = some name)
    (henv : env.createFile = true ∧ env.setFilePointerEnd = true ∧ env.setEndOfFile = true
      ∧ env.setFilePointerStart = true ∧ env.writeFile = true) :
    saveToDisk env e
      = (Outcome.running
          { e with dirty := false, status := Status.wrote (fullTextLen e.lines) name },
         some (fullText e.lines)) := by
  obtain ⟨h1, h2, h3, h4, h5⟩ := henv
  simp [saveToDisk, hname, saveToDiskWrite, h1, h2, h3, h4, h5, writeFileBytes_fullText]

/-- C6: a save in which every file operation succeeds computes the count `len` as
`sum (len + 1)` over the lines, reports it in the status, and leaves in the file exactly the
`len` bytes that `WriteFile` takes from `full_text`: the concatenation, in order, of each
line content followed by one newline byte.  When no line contains a newline byte or ends in
a carriage return, `openEditor` reading those bytes into an empty editor returns and builds
lines with the same contents, in the same order, each with its render. -/
theorem save_load_roundtrip (env : SaveEnv) (e : Editor) (name : List Nat) (rows cols : Int)
    (hname : e.filename = some name)
    (henv : env.createFile = true ∧ env.setFilePointerEnd = true ∧ env.setEndOfFile = true
      ∧ env.setFilePointerStart = true ∧ env.writeFile = true)
    (hn : ∀ l ∈ e.lines, NEWLINE ∉ l.chars)
    (hr : ∀ l ∈ e.lines, l.chars.getLast? ≠ some CR) :
    ∃ bytes e1,
      (saveToDisk env e).2 = some bytes
      ∧ bytes = (e.lines.map (fun l => l.chars ++ [NEWLINE])).flatten
      ∧ (bytes.length : Int) = (e.lines.map (fun l => l.len + 1)).sum
      ∧ openEditor (initEditor rows cols) name bytes = some e1
      ∧ contents e1.lines = contents e.lines
      ∧ e1.lines = e.lines.map updateLine
      ∧ fullTextLen e.lines = (e.lines.map (fun l => l.len + 1)).sum
      ∧ writeFileBytes (fullText e.lines) (fullTextLen e.lines) = some bytes
      ∧ (saveToDisk env e).1
          = Outcome.running
              { e with dirty := false,
                       status := Status.wrote (e.lines.map (fun l => l.len + 1)).sum name } := by
  refine ⟨fullText e.lines,
    { initEditor rows cols with filename := some name, lines := e.lines.map updateLine },
    ?_, fullText_eq_flatten e.lines, ?_, ?_, contents_map_updateLine e.lines, rfl,
    fullTextLen_eq_sum e.lines, writeFileBytes_fullText e.lines, ?_⟩
  · rw [saveToDisk_named_ok env e name hname henv]
  · rw [fullText_length, fullTextLen_eq_sum]
  rotate_left
  · rw [saveToDisk_named_ok env e name hname henv, fullTextLen_eq_sum]
  · unfold openEditor
    rw [openLoop_fullText e.lines hn hr _ _
      (by have := length_le_fullText_length e.lines; omega)]
    simp [initEditor]

/-- Witness of C6: the document of the two lines `a` and `bb`. -/
theorem save_load_roundtrip_witness :
    ∃ bytes e1,
      (saveToDisk
          { promptResult := none, createFile := true, setFilePointerEnd := true,
            setEndOfFile := true, setFilePointerStart := true, writeFile := true }
          { initEditor 24 80 with
            lines := [{ chars := [97], rchars := [97] }, { chars := [98, 98], rchars := [98, 98] }]
            filename := some [102] }).2 = some bytes
      ∧ bytes = [97, 10, 98, 98, 10]
      ∧ openEditor (initEditor 24 80) [102] bytes = some e1
      ∧ contents e1.lines = [[97], [98, 98]] :=
  have h := save_load_roundtrip
    { promptResult := none, createFile := true, setFilePointerEnd := true,
      setEndOfFile := true, setFilePointerStart := true, writeFile := true }
    { initEditor 24 80 with
      lines := [{ chars := [97], rchars := [97] }, { chars := [98, 98], rchars := [98, 98] }]
      filename := some [102] }
    [102] 24 80 rfl (by decide) (by decide) (by decide)
  match h with
  | ⟨bytes, e1, h1, h2, _, h4, h5, _⟩ => ⟨bytes, e1, h1, h2, h4, h5⟩

/-! ## Enter, Backspace, character insertion, row deletion -/

/-- C7: with the cursor at `(row, col)` inside the document, Enter (`insertNewline`, also as
dispatched by `processKeypress`) returns; afterwards line `row` holds `content[..col]`, a new
line `row + 1` holds `content[col..]`, the lines before and after keep contents and order,
`num_lines` has grown by 1, the cursor is at `(row + 1, 0)` and `dirty` is set.  On the empty
document the keys `a`, `b`, `c`, Enter, `d` give the lines `abc` and `d` with the cursor at
row 1, column 1. -/
theorem enter_splits_line (e : Editor) (line : Line) (env : SaveEnv) (q : Int)
    (hline : lineAt e.lines e.cursor_y = some line)
    (h0 : 0 ≤ e.cursor_x) (h1 : e.cursor_x ≤ line.len) :
    (∃ e1, insertNewline e = some e1
      ∧ processKeypress env { editor := e, quit_left := q } ENTER_KEY
          = Outcome.running { editor := e1, quit_left := QUIT_CONFIRMATION }
      ∧ contents e1.lines
          = (contents e.lines).take e.cursor_y.toNat
            ++ [line.chars.take e.cursor_x.toNat, line.chars.drop e.cursor_x.toNat]
            ++ (contents e.lines).drop (e.cursor_y.toNat + 1)
      ∧ e1.num_lines = e.num_lines + 1
      ∧ e1.cursor_y = e.cursor_y + 1 ∧ e1.cursor_x = 0 ∧ e1.dirty = true)
    ∧ ∃ s, run (initState 24 80) [key 97, key 98, key 99, key ENTER_KEY, key 100]
          = Outcome.running s
        ∧ contents s.editor.lines = [[97, 98, 99], [100]]
        ∧ s.editor.cursor_y = 1 ∧ s.editor.cursor_x = 1 := by
  constructor
  · obtain ⟨pre, post, hl, hy, hpre, hpost⟩ := lines_split hline
    obtain ⟨l0, l1, hc0, hc1, hins⟩ := insertNewline_append e pre post line hl hy.symm h0 h1
    refine ⟨_, hins, ?_, ?_, ?_, ?_, rfl, rfl⟩
    · rw [processKeypress_enter]
      simp only [hins]
    · show contents (pre ++ l0 :: l1 :: post) = _
      simp only [contents_append, contents_cons, hc0, hc1]
      rw [hpre, hpost]
      simp [contents, List.map_take, List.map_drop]
    · show ((pre ++ l0 :: l1 :: post).length : Int) = (e.lines.length : Int) + 1
      rw [hl]
      simp only [List.length_append, List.length_cons]
      push_cast
      omega
    · show (pre.length : Int) + 1 = e.cursor_y + 1
      rw [hy]
  · exact ⟨State.mk
        { initEditor 24 80 with
          lines := [{ chars := [97, 98, 99], rchars := [97, 98, 99] },
                    { chars := [100], rchars := [100] }],
          cursor_x := 1, cursor_y := 1, dirty := true, status := Status.help }
        QUIT_CONFIRMATION,
      by decide, by decide, by decide, by decide⟩

/-- Witness of C7: Enter after `abc` on the only line. -/
theorem enter_splits_line_witness :
    ∃ e1,
      insertNewline { initEditor 24 80 with
          lines := [{ chars := [97, 98, 99], rchars := [97, 98, 99] }], cursor_x := 3 } = some e1
      ∧ contents e1.lines = [[97, 98, 99], []]
      ∧ e1.cursor_y = 1 ∧ e1.cursor_x = 0 ∧ e1.dirty = true :=
  have h := (enter_splits_line
    { initEditor 24 80 with
        lines := [{ chars := [97, 98, 99], rchars := [97, 98, 99] }], cursor_x := 3 }
    { chars := [97, 98, 99], rchars := [97, 98, 99] } (key 0).env 2
    (by decide) (by decide) (by decide)).1
  match h with
  | ⟨e1, h1, _, h3, _, h5, h6, h7⟩ => ⟨e1, h1, h3, h5, h6, h7⟩

/-- C8: with the cursor at `(row, col)` inside the document, Backspace (`delete`, also as
dispatched by `processKeypress`) returns and does what its reference says: at `(0, 0)`
nothing changes; with `col > 0` exactly the byte at `col - 1` of line `row` goes, the cursor
moves to `col - 1` and `dirty` is set; with `col = 0` and `row > 0` line `row - 1` becomes
`line(row - 1) ++ line(row)`, line `row` goes (`num_lines` shrinks by 1), the cursor moves
to `(row - 1, old length of line row - 1)` and `dirty` is set.  Backspace at the end of
`hello` gives `hell` with the cursor at column 4; Backspace at row 1, column 0 of `foo`,
`bar` gives `foobar` with the cursor at row 0, column 3. -/
theorem backspace_spec (e : Editor) (line : Line) (env : SaveEnv) (q : Int)
    (hline : lineAt e.lines e.cursor_y = some line)
    (h0 : 0 ≤ e.cursor_x) (h1 : e.cursor_x ≤ line.len) :
    (∃ e1, delete e = some e1
      ∧ processKeypress env { editor := e, quit_left := q } BACKSPACE
          = Outcome.running { editor := e1, quit_left := QUIT_CONFIRMATION })
    ∧ (e.cursor_x = 0 ∧ e.cursor_y = 0 → delete e = some e)
    ∧ (0 < e.cursor_x → ∃ e1, delete e = some e1
        ∧ contents e1.lines
            = (contents e.lines).set e.cursor_y.toNat
                (line.chars.eraseIdx (e.cursor_x - 1).toNat)
        ∧ (line.chars.eraseIdx (e.cursor_x - 1).toNat).length + 1 = line.chars.length
        ∧ e1.num_lines = e.num_lines
        ∧ e1.cursor_x = e.cursor_x - 1 ∧ e1.cursor_y = e.cursor_y ∧ e1.dirty = true)
    ∧ (e.cursor_x = 0 ∧ 0 < e.cursor_y → ∃ prev e1,
        lineAt e.lines (e.cursor_y - 1) = some prev
        ∧ delete e = some e1
        ∧ contents e1.lines
            = (contents e.lines).take (e.cursor_y - 1).toNat
              ++ [prev.chars ++ line.chars]
              ++ (contents e.lines).drop (e.cursor_y.toNat + 1)
        ∧ e1.num_lines = e.num_lines - 1
        ∧ e1.cursor_x = prev.len ∧ e1.cursor_y = e.cursor_y - 1 ∧ e1.dirty = true)
    ∧ delete { initEditor 24 80 with
          lines := [{ chars := [104, 101, 108, 108, 111], rchars := [104, 101, 108, 108, 111] }],
          cursor_x := 5 }
        = some { initEditor 24 80 with
          lines := [{ chars := [104, 101, 108, 108], rchars := [104, 101, 108, 108] }],
          cursor_x := 4, dirty := true }
    ∧ delete { initEditor 24 80 with
          lines := [{ chars := [102, 111, 111], rchars := [102, 111, 111] },
                    { chars := [98, 97, 114], rchars := [98, 97, 114] }],
          cursor_x := 0, cursor_y := 1 }
        = some { initEditor 24 80 with
          lines := [{ chars := [102, 111, 111, 98, 97, 114],
                      rchars := [102, 111, 111, 98, 97, 114] }],
          cursor_x := 3, cursor_y := 0, dirty := true } := by
  obtain ⟨pre, post, hl, hy, hpre, hpost⟩ := lines_split hline
  have hchar : 0 < e.cursor_x → ∃ e1, delete e = some e1
        ∧ contents e1.lines
            = (contents e.lines).set e.cursor_y.toNat
                (line.chars.eraseIdx (e.cursor_x - 1).toNat)
        ∧ (line.chars.eraseIdx (e.cursor_x - 1).toNat).length + 1 = line.chars.length
        ∧ e1.num_lines = e.num_lines
        ∧ e1.cursor_x = e.cursor_x - 1 ∧ e1.cursor_y = e.cursor_y ∧ e1.dirty = true := by
    intro hx
    have hd := delete_char_append e pre post line hl hy.symm hx h1
    have hlt : (e.cursor_x - 1).toNat < line.chars.length := by
      simp only [Line.len] at h1
      omega
    refine ⟨_, hd, ?_, ?_, ?_, rfl, rfl, rfl⟩
    · have hyn : e.cursor_y.toNat = (contents pre).length := by
        simp only [contents, List.length_map]
        omega
      show contents (pre ++ _ :: post) = _
      rw [hl, hyn]
      simp [contents_append, contents_cons, updateLine]
    · rw [List.length_eraseIdx, if_pos hlt]
      omega
    · show ((pre ++ _ :: post).length : Int) = (e.lines.length : Int)
      rw [hl]
      simp
  have hjoin : e.cursor_x = 0 ∧ 0 < e.cursor_y → ∃ prev e1,
        lineAt e.lines (e.cursor_y - 1) = some prev
        ∧ delete e = some e1
        ∧ contents e1.lines
            = (contents e.lines).take (e.cursor_y - 1).toNat
              ++ [prev.chars ++ line.chars]
              ++ (contents e.lines).drop (e.cursor_y.toNat + 1)
        ∧ e1.num_lines = e.num_lines - 1
        ∧ e1.cursor_x = prev.len ∧ e1.cursor_y = e.cursor_y - 1 ∧ e1.dirty = true := by
    rintro ⟨hx, hpos⟩
    rcases List.eq_nil_or_concat pre with hnil | ⟨pre0, prev, hcat⟩
    · rw [hnil] at hy
      simp at hy
      omega
    · rw [List.concat_eq_append] at hcat
      have hl2 : e.lines = pre0 ++ prev :: line :: post := by rw [hl, hcat]; simp
      have hy2 : e.cursor_y = (pre0.length : Int) + 1 := by
        rw [← hy, hcat]; simp
      have hd := delete_join_append e pre0 post prev line hl2 hy2 hx
      have hi1 : (e.cursor_y - 1).toNat = (contents pre0).length := by
        simp only [contents, List.length_map]
        omega
      have hi2 : e.cursor_y.toNat + 1 = (contents pre0).length + 2 := by
        simp only [contents, List.length_map]
        omega
      refine ⟨prev, _, ?_, hd, ?_, ?_, rfl, ?_, rfl⟩
      · rw [hl2, show e.cursor_y - 1 = (pre0.length : Int) by omega]
        exact lineAt_append_length pre0 _ prev
      · show contents (pre0 ++ _ :: post) = _
        rw [hl2, hi1, hi2]
        simp [contents_append, contents_cons, updateLine]
      · show ((pre0 ++ _ :: post).length : Int) = (e.lines.length : Int) - 1
        rw [hl2]
        simp only [List.length_append, List.length_cons]
        push_cast
        omega
      · show (pre0.length : Int) = e.cursor_y - 1
        omega
  have hret : ∃ e1, delete e = some e1 := by
    by_cases hx : 0 < e.cursor_x
    · obtain ⟨e1, h, _⟩ := hchar hx
      exact ⟨e1, h⟩
    · have hx0 : e.cursor_x = 0 := by omega
      by_cases hy0 : e.cursor_y = 0
      · exact ⟨e, delete_origin e hx0 hy0⟩
      · have hpos : 0 < e.cursor_y := by
          have := (lineAt_eq_some hline).1
          omega
        obtain ⟨_, e1, _, h, _⟩ := hjoin ⟨hx0, hpos⟩
        exact ⟨e1, h⟩
  refine ⟨?_, fun h => delete_origin e h.1 h.2, hchar, hjoin, by decide, by decide⟩
  obtain ⟨e1, h⟩ := hret
  refine ⟨e1, h, ?_⟩
  rw [processKeypress_backspace]
  simp only [h]

/-- Witness of C8: Backspace at the end of `hello`. -/
theorem backspace_spec_witness :
    ∃ e1,
      delete { initEditor 24 80 with
          lines := [{ chars := [104, 101, 108, 108, 111], rchars := [104, 101, 108, 108, 111] }],
          cursor_x := 5 } = some e1
      ∧ contents e1.lines = [[104, 101, 108, 108]]
      ∧ e1.cursor_x = 4 ∧ e1.cursor_y = 0 ∧ e1.dirty = true :=
  have h := (backspace_spec
    { initEditor 24 80 with
        lines := [{ chars := [104, 101, 108, 108, 111], rchars := [104, 101, 108, 108, 111] }],
        cursor_x := 5 }
    { chars := [104, 101, 108, 108, 111], rchars := [104, 101, 108, 108, 111] } (key 0).env 2
    (by decide) (by decide) (by decide)).2.2.1 (by decide)
  match h with
  | ⟨e1, h1, h2, _, _, h5, h6, h7⟩ => ⟨e1, h1, h2, h5, h6, h7⟩

theorem lineInsert_append (e : Editor) (pre post : List Line) (line : Line) (index : Int)
    (c : Nat) (hl : e.lines = pre ++ line :: post) :
    lineInsert e (pre.length : Int) index c = some
      { e with
        lines := pre ++ updateLine (Line.mk
          (line.chars.take (if index < 0 ∨ index > line.len then line.len else index).toNat
            ++ c :: line.chars.drop
              (if index < 0 ∨ index > line.len then line.len else index).toNat)
          line.rchars) :: post,
        dirty := true } := by
  have ha : lineAt (pre ++ line :: post) (pre.length : Int) = some line :=
    lineAt_append_length pre _ line
  simp only [lineInsert, hl, ha, Option.bind_eq_bind, Option.some_bind, Option.pure_def,
    Int.toNat_ofNat, List.set_append, lt_irrefl, if_false, Nat.sub_self, List.set_cons_zero]

theorem insertPos_eq (len index : Int) :
    (if index < 0 ∨ index > len then len else index)
      = (if 0 ≤ index ∧ index ≤ len then index else len) := by
  by_cases h : 0 ≤ index ∧ index ≤ len
  · rw [if_pos h, if_neg (by omega)]
  · rw [if_neg h, if_pos (by omega)]

theorem insert_eq (e : Editor) (c : Nat) :
    insert e c
      = (lineInsert (if e.cursor_y = e.num_lines then insertLine e e.num_lines [] else e)
            (if e.cursor_y = e.num_lines then insertLine e e.num_lines [] else e).cursor_y
            (if e.cursor_y = e.num_lines then insertLine e e.num_lines [] else e).cursor_x
            c).map
          (fun e2 => { e2 with cursor_x := e2.cursor_x + 1 }) := by
  unfold insert
  simp only []
  cases lineInsert (if e.cursor_y = e.num_lines then insertLine e e.num_lines [] else e)
      (if e.cursor_y = e.num_lines then insertLine e e.num_lines [] else e).cursor_y
      (if e.cursor_y = e.num_lines then insertLine e e.num_lines [] else e).cursor_x c <;> rfl

/-- C9: `lineInsert` on a line of length `n` returns and leaves
`content[..k] ++ [ch] ++ content[k..]` with `k = col` when `0 <= col <= n` and `k = n`
otherwise, of length `n + 1`, with the render recomputed, `dirty` set and every other line
as it was; `insert` first appends an empty line when the cursor row is `num_lines`, inserts
at the cursor, and moves `cursor_x` on by exactly 1 while `cursor_y` and the other lines
stay. -/
theorem insert_char_spec (e : Editor) (row : Int) (line : Line) (index : Int) (c : Nat)
    (hline : lineAt e.lines row = some line) :
    (∃ e1 l1, lineInsert e row index c = some e1
      ∧ lineAt e1.lines row = some l1
      ∧ l1.chars
          = line.chars.take (if 0 ≤ index ∧ index ≤ line.len then index else line.len).toNat
            ++ [c]
            ++ line.chars.drop (if 0 ≤ index ∧ index ≤ line.len then index else line.len).toNat
      ∧ l1.len = line.len + 1
      ∧ l1.rchars = render l1.chars
      ∧ e1.dirty = true
      ∧ contents e1.lines = (contents e.lines).set row.toNat l1.chars
      ∧ e1.cursor_x = e.cursor_x ∧ e1.cursor_y = e.cursor_y)
    ∧ (row = e.cursor_y → ∃ e1, insert e c = some e1
        ∧ contents e1.lines
            = (contents e.lines).set e.cursor_y.toNat
                (line.chars.take
                    (if 0 ≤ e.cursor_x ∧ e.cursor_x ≤ line.len then e.cursor_x
                      else line.len).toNat
                  ++ [c]
                  ++ line.chars.drop
                    (if 0 ≤ e.cursor_x ∧ e.cursor_x ≤ line.len then e.cursor_x
                      else line.len).toNat)
        ∧ e1.num_lines = e.num_lines
        ∧ e1.cursor_x = e.cursor_x + 1 ∧ e1.cursor_y = e.cursor_y ∧ e1.dirty = true)
    ∧ (∀ e0 : Editor, e0.cursor_y = e0.num_lines → ∃ e1, insert e0 c = some e1
        ∧ contents e1.lines = contents e0.lines ++ [[c]]
        ∧ e1.num_lines = e0.num_lines + 1
        ∧ e1.cursor_x = e0.cursor_x + 1 ∧ e1.cursor_y = e0.cursor_y ∧ e1.dirty = true) := by
  obtain ⟨pre, post, hl, hy, hpre, hpost⟩ := lines_split hline
  subst hy
  have hrow : ((pre.length : Nat) : Int).toNat = (contents pre).length := by
    simp only [contents, List.length_map]
    omega
  refine ⟨?_, ?_, ?_⟩
  · have hi := lineInsert_append e pre post line index c hl
    rw [insertPos_eq] at hi
    refine ⟨_, _, hi, lineAt_append_length pre post _, ?_, ?_, rfl, rfl, ?_, rfl, rfl⟩
    · simp [updateLine]
    · simp only [updateLine, Line.len, List.length_append, List.length_take, List.length_cons,
        List.length_drop, List.length_nil]
      split_ifs <;> push_cast <;> omega
    · show contents (pre ++ _ :: post) = _
      rw [hl, hrow]
      simp [contents_append, contents_cons, updateLine]
  · intro hr
    have hi := lineInsert_append e pre post line e.cursor_x c hl
    rw [insertPos_eq, hr] at hi
    have hne : ¬ e.cursor_y = e.num_lines := by
      have := (lineAt_eq_some hline).2.1
      simp only [Editor.num_lines]
      omega
    rw [insert_eq, if_neg hne, hi]
    refine ⟨_, rfl, ?_, ?_, rfl, rfl, rfl⟩
    · show contents (pre ++ _ :: post) = _
      rw [hl, ← hr, hrow]
      simp [contents_append, contents_cons, updateLine]
    · show ((pre ++ _ :: post).length : Int) = (e.lines.length : Int)
      rw [hl]
      simp
  · intro e0 h0
    have hins := insertLine_end e0 []
    have hi := lineInsert_append
      { e0 with lines := e0.lines ++ [{ chars := [], rchars := render [] }] }
      e0.lines [] { chars := [], rchars := render [] } e0.cursor_x c rfl
    have hcy : e0.cursor_y = (e0.lines.length : Int) := h0
    rw [insert_eq, if_pos h0, hins]
    simp only [hcy] at hi ⊢
    rw [hi]
    refine ⟨_, rfl, ?_, ?_, rfl, rfl, rfl⟩
    · simp [contents, updateLine]
    · simp [Editor.num_lines]

/-- Witness of C9: the byte `x` inserted at index 1 of `ab`. -/
theorem insert_char_spec_witness :
    ∃ e1 l1,
      lineInsert { initEditor 24 80 with lines := [{ chars := [97, 98], rchars := [97, 98] }] }
        0 1 120 = some e1
      ∧ lineAt e1.lines 0 = some l1
      ∧ l1.chars = [97, 120, 98]
      ∧ l1.rchars = render l1.chars
      ∧ e1.dirty = true :=
  have h := (insert_char_spec
    { initEditor 24 80 with lines := [{ chars := [97, 98], rchars := [97, 98] }] }
    0 { chars := [97, 98], rchars := [97, 98] } 1 120 (by decide)).1
  match h with
  | ⟨e1, l1, h1, h2, h3, _, h5, h6, _⟩ => ⟨e1, l1, h1, h2, h3, h5, h6⟩

theorem deleteRow_of_lt (e : Editor) (pre post : List Line) (line : Line)
    (hl : e.lines = pre ++ line :: post) :
    deleteRow e (pre.length : Int) = some { e with lines := pre ++ post, dirty := true } := by
  have hg : ¬ ((pre.length : Int) < 0 ∨ (pre.length : Int) > e.num_lines) := by
    simp only [Editor.num_lines, hl, List.length_append, List.length_cons]
    push_cast
    omega
  have ha : lineAt e.lines (pre.length : Int) = some line := by
    rw [hl]; exact lineAt_append_length pre post line
  unfold deleteRow
  rw [if_neg hg, ha, hl]
  simp only [Int.toNat_ofNat]
  rw [List.eraseIdx_append_of_length_le (le_refl _)]
  simp

theorem deleteRow_out_of_range (e : Editor) (index : Int)
    (h : index < 0 ∨ e.num_lines < index) : deleteRow e index = some e := by
  unfold deleteRow
  rw [if_pos h]

/-- C10 fails on the code at `index == num_lines`: the guard of `deleteRow` is
`index > num_lines`, so the call is not rejected; it goes on to read `lines[num_lines]`,
outside the array, instead of leaving the editor as it was.  This holds for every editor,
for instance for the document of the one line `a` and index 1. -/
theorem deleteRow_at_num_lines_not_rejected (e : Editor) :
    deleteRow e e.num_lines = none
    ∧ deleteRow e e.num_lines ≠ some e
    ∧ deleteRow { initEditor 24 80 with lines := [{ chars := [97], rchars := [97] }] } 1
        = none := by
  have h : deleteRow e e.num_lines = none := by
    have hg : ¬ (e.num_lines < 0 ∨ e.num_lines > e.num_lines) := by
      simp only [Editor.num_lines]
      omega
    have hnone : lineAt e.lines e.num_lines = none :=
      lineAt_eq_none_of_ge (le_refl _)
    unfold deleteRow
    rw [if_neg hg, hnone]
  refine ⟨h, ?_, by decide⟩
  rw [h]
  exact Option.noConfusion

/-! ## Deleting a byte, Left arrow, forward delete: the cases the code misses -/

/-- C11 fails on the code at `col == len`: the guard of `lineDelete` is `index > line->len`,
so the call is not rejected.  On the line `ab` with `col = 2` it drops the last byte and sets
`dirty`; on an empty line with `col = 0` the length goes to `-1` and the render is stored
outside its allocation.  With `col = 1` the byte at index 1 goes, and `col = 3` is rejected. -/
theorem lineDelete_at_len_not_rejected :
    lineDelete { initEditor 24 80 with lines := [{ chars := [97, 98], rchars := [97, 98] }] }
        0 2
      = some { initEditor 24 80 with
          lines := [{ chars := [97], rchars := [97] }], dirty := true }
    ∧ lineDelete { initEditor 24 80 with lines := [{ chars := [], rchars := [] }] } 0 0
      = none
    ∧ lineDelete { initEditor 24 80 with lines := [{ chars := [97, 98], rchars := [97, 98] }] }
        0 1
      = some { initEditor 24 80 with
          lines := [{ chars := [97], rchars := [97] }], dirty := true }
    ∧ lineDelete { initEditor 24 80 with lines := [{ chars := [97, 98], rchars := [97, 98] }] }
        0 3
      = some { initEditor 24 80 with lines := [{ chars := [97, 98], rchars := [97, 98] }] } := by
  refine ⟨?_, ?_, ?_, ?_⟩ <;> decide

/-- C12 fails on the code when line `y` is shorter than line `y - 1`: `moveCursor` takes the
column from `current`, which still points at line `y`, and then cuts it back to line `y - 1`.
With the lines `abc` and the empty line, Left at row 1, column 0 ends at row 0, column 0, not
column 3; with the lines `abc` and `x` it ends at column 1. -/
theorem moveCursor_left_wrap_uses_old_line :
    moveCursor { initEditor 24 80 with
        lines := [{ chars := [97, 98, 99], rchars := [97, 98, 99] },
                  { chars := [], rchars := [] }],
        cursor_x := 0, cursor_y := 1 } ARROW_LEFT
      = some { initEditor 24 80 with
        lines := [{ chars := [97, 98, 99], rchars := [97, 98, 99] },
                  { chars := [], rchars := [] }],
        cursor_x := 0, cursor_y := 0 }
    ∧ moveCursor { initEditor 24 80 with
        lines := [{ chars := [97, 98, 99], rchars := [97, 98, 99] },
                  { chars := [120], rchars := [120] }],
        cursor_x := 0, cursor_y := 1 } ARROW_LEFT
      = some { initEditor 24 80 with
        lines := [{ chars := [97, 98, 99], rchars := [97, 98, 99] },
                  { chars := [120], rchars := [120] }],
        cursor_x := 1, cursor_y := 0 }
    ∧ dispatchKey (key ARROW_LEFT).env { initEditor 24 80 with
        lines := [{ chars := [97, 98, 99], rchars := [97, 98, 99] },
                  { chars := [], rchars := [] }],
        cursor_x := 0, cursor_y := 1 } ARROW_LEFT
      = Outcome.running { initEditor 24 80 with
        lines := [{ chars := [97, 98, 99], rchars := [97, 98, 99] },
                  { chars := [], rchars := [] }],
        cursor_x := 0, cursor_y := 0 } := by
  refine ⟨?_, ?_, ?_⟩ <;> decide

/-- C20 fails on the code at the end of an empty line that has a next line: `moveCursor`
takes the cursor to column 0 of the next row, the column is still equal to `current_x`, so
`delete` is not called.  With the empty line followed by `b` and the cursor at row 0,
column 0, the DELETE key leaves both lines and moves the cursor to row 1.  On the lines `a`
and `b` the key joins the lines at the end of row 0, removes `a` at column 0 and changes
nothing at the end of the document. -/
theorem delete_key_on_empty_line_only_moves :
    dispatchKey (key DELETE_KEY).env { initEditor 24 80 with
        lines := [{ chars := [], rchars := [] }, { chars := [98], rchars := [98] }],
        cursor_x := 0, cursor_y := 0 } DELETE_KEY
      = Outcome.running { initEditor 24 80 with
        lines := [{ chars := [], rchars := [] }, { chars := [98], rchars := [98] }],
        cursor_x := 0, cursor_y := 1 }
    ∧ processKeypress (key DELETE_KEY).env
        { editor := { initEditor 24 80 with
            lines := [{ chars := [], rchars := [] }, { chars := [98], rchars := [98] }],
            cursor_x := 0, cursor_y := 0 },
          quit_left := 2 } DELETE_KEY
      = Outcome.running
        { editor := { initEditor 24 80 with
            lines := [{ chars := [], rchars := [] }, { chars := [98], rchars := [98] }],
            cursor_x := 0, cursor_y := 1 },
          quit_left := 2 }
    ∧ dispatchKey (key DELETE_KEY).env { initEditor 24 80 with
        lines := [{ chars := [97], rchars := [97] }, { chars := [98], rchars := [98] }],
        cursor_x := 1, cursor_y := 0 } DELETE_KEY
      = Outcome.running { initEditor 24 80 with
        lines := [{ chars := [97, 98], rchars := [97, 98] }],
        cursor_x := 1, cursor_y := 0, dirty := true }
    ∧ dispatchKey (key DELETE_KEY).env { initEditor 24 80 with
        lines := [{ chars := [97], rchars := [97] }, { chars := [98], rchars := [98] }],
        cursor_x := 0, cursor_y := 0 } DELETE_KEY
      = Outcome.running { initEditor 24 80 with
        lines := [{ chars := [], rchars := [] }, { chars := [98], rchars := [98] }],
        cursor_x := 0, cursor_y := 0, dirty := true }
    ∧ dispatchKey (key DELETE_KEY).env { initEditor 24 80 with
        lines := [{ chars := [97], rchars := [97] }, { chars := [98], rchars := [98] }],
        cursor_x := 1, cursor_y := 1 } DELETE_KEY
      = Outcome.running { initEditor 24 80 with
        lines := [{ chars := [97], rchars := [97] }, { chars := [98], rchars := [98] }],
        cursor_x := 1, cursor_y := 1 } := by
  refine ⟨?_, ?_, ?_, ?_, ?_⟩ <;> decide

/-! ## Row offset -/

/-- C16: with a viewport of `H >= 1` rows, a document of `N` lines, the cursor row inside the
document (`0 <= cursor_y < N`, or `cursor_y = 0` when `N = 0`) and `row_offset >= 0` before,
every result of `scroll` has `0 <= row_offset <= max(0, N - 1)` and
`row_offset <= cursor_y <= row_offset + H - 1`; and `scroll` returns whenever the cursor
column is inside its line. -/
theorem scroll_row_offset_bounds (e : Editor) (hrows : 1 ≤ e.rows) (hoff : 0 ≤ e.row_offset)
    (hcur : (0 ≤ e.cursor_y ∧ e.cursor_y < e.num_lines)
      ∨ (e.num_lines = 0 ∧ e.cursor_y = 0)) :
    ((∀ line, lineAt e.lines e.cursor_y = some line → e.cursor_x ≤ line.len)
      → ∃ e1, scroll e = some e1)
    ∧ ∀ e1, scroll e = some e1 →
        e1.num_lines = e.num_lines ∧ e1.cursor_y = e.cursor_y ∧ e1.rows = e.rows
        ∧ 0 ≤ e1.row_offset ∧ e1.row_offset ≤ max 0 (e1.num_lines - 1)
        ∧ e1.row_offset ≤ e1.cursor_y ∧ e1.cursor_y ≤ e1.row_offset + e1.rows - 1 := by
  constructor
  · intro hx
    by_cases hlt : e.cursor_y < e.num_lines
    · have h0 : 0 ≤ e.cursor_y := by omega
      have hsome : ∃ line, lineAt e.lines e.cursor_y = some line := by
        unfold lineAt
        rw [if_neg (by omega)]
        have hn : e.cursor_y.toNat < e.lines.length := by
          simp only [Editor.num_lines] at hlt
          omega
        exact ⟨_, List.getElem?_eq_getElem hn⟩
      obtain ⟨line, hline⟩ := hsome
      by_cases hx0 : 0 ≤ e.cursor_x
      · exact ⟨_, scroll_inside_line e line hline hx0 (hx line hline)⟩
      · have hz : e.cursor_x.toNat = 0 := by omega
        rw [scroll_eq]
        simp [hlt, hline, cursorToRenderX, hz, cursorToRenderXLoop]
    · rw [scroll_eq]
      simp [hlt]
  · intro e1 h
    rw [scroll_eq] at h
    obtain ⟨rx, _, rfl⟩ := Option.map_eq_some'.mp h
    have hc := clamp_bounds e.row_offset (e.cursor_y - e.rows + 1) e.cursor_y (by omega)
    have hnn : 0 ≤ clamp e.row_offset (e.cursor_y - e.rows + 1) e.cursor_y := by
      unfold clamp
      split_ifs <;> omega
    refine ⟨rfl, rfl, rfl, hnn, ?_, hc.2, ?_⟩
    · show clamp e.row_offset (e.cursor_y - e.rows + 1) e.cursor_y ≤ max 0 (e.num_lines - 1)
      have := hc.2
      omega
    · show e.cursor_y ≤ clamp e.row_offset (e.cursor_y - e.rows + 1) e.cursor_y + e.rows - 1
      have := hc.1
      omega

/-- Witness of C16: three rows, four lines, the cursor on the last line, offset 0 before. -/
theorem scroll_row_offset_bounds_witness :
    ∃ e1, scroll { initEditor 3 80 with
        lines := [{ chars := [97], rchars := [97] }, { chars := [98], rchars := [98] },
                  { chars := [99], rchars := [99] }, { chars := [100], rchars := [100] }],
        cursor_x := 1, cursor_y := 3 } = some e1
      ∧ 0 ≤ e1.row_offset ∧ e1.row_offset ≤ max 0 (e1.num_lines - 1)
      ∧ e1.row_offset ≤ e1.cursor_y ∧ e1.cursor_y ≤ e1.row_offset + e1.rows - 1 :=
  have h := scroll_row_offset_bounds
    { initEditor 3 80 with
      lines := [{ chars := [97], rchars := [97] }, { chars := [98], rchars := [98] },
                { chars := [99], rchars := [99] }, { chars := [100], rchars := [100] }],
      cursor_x := 1, cursor_y := 3 }
    (by decide) (by decide) (Or.inl (by decide))
  have hx : ∀ line, lineAt [{ chars := [97], rchars := [97] }, { chars := [98], rchars := [98] },
      { chars := [99], rchars := [99] }, { chars := [100], rchars := [100] }] 3 = some line
      → (1 : Int) ≤ line.len := by
    intro line hl
    have hl1 : some (Line.mk [100] [100]) = some line := hl
    cases hl1
    decide
  match h.1 hx with
  | ⟨e1, he⟩ =>
    ⟨e1, he, (h.2 e1 he).2.2.2.1, (h.2 e1 he).2.2.2.2.1, (h.2 e1 he).2.2.2.2.2.1,
      (h.2 e1 he).2.2.2.2.2.2⟩

/-! ## Save failures -/

theorem saveToDiskWrite_cases (env : SaveEnv) (e : Editor) :
    (¬ (env.createFile = true ∧ env.setFilePointerEnd = true ∧ env.setEndOfFile = true
          ∧ env.setFilePointerStart = true ∧ env.writeFile = true)
        ∧ saveToDiskWrite env e = (Outcome.fault, none))
    ∨ ((env.createFile = true ∧ env.setFilePointerEnd = true ∧ env.setEndOfFile = true
          ∧ env.setFilePointerStart = true ∧ env.writeFile = true)
        ∧ saveToDiskWrite env e
          = (Outcome.running
              { e with dirty := false
                       status := Status.wrote (fullTextLen e.lines) (e.filename.getD []) },
             some (fullText e.lines))) := by
  unfold saveToDiskWrite
  cases h1 : env.createFile <;> cases h2 : env.setFilePointerEnd <;>
    cases h3 : env.setEndOfFile <;> cases h4 : env.setFilePointerStart <;>
    cases h5 : env.writeFile <;>
    simp [die, setStatusErrorExit, ErrorExit, writeFileBytes_fullText]

theorem promptSaveAs_eq (env : SaveEnv) (e : Editor) :
    promptSaveAs env e
      = (scroll e).map (fun e1 => ({ e1 with status := Status.empty }, env.promptResult)) := by
  unfold promptSaveAs
  cases scroll e <;> rfl

theorem scroll_fields {e e1 : Editor} (h : scroll e = some e1) :
    e1.lines = e.lines ∧ e1.cursor_x = e.cursor_x ∧ e1.cursor_y = e.cursor_y
      ∧ e1.dirty = e.dirty ∧ e1.filename = e.filename ∧ e1.rows = e.rows
      ∧ e1.cols = e.cols ∧ e1.status = e.status := by
  rw [scroll_eq] at h
  obtain ⟨rx, _, rfl⟩ := Option.map_eq_some'.mp h
  exact ⟨rfl, rfl, rfl, rfl, rfl, rfl, rfl, rfl⟩

theorem processKeypress_save (env : SaveEnv) (s : State) :
    processKeypress env s (CTRL_KEY 115)
      = match (saveToDisk env s.editor).1 with
        | Outcome.running e => Outcome.running { editor := e, quit_left := QUIT_CONFIRMATION }
        | Outcome.exited code => Outcome.exited code
        | Outcome.fault => Outcome.fault := by
  have hq : ¬ CTRL_KEY 115 = CTRL_KEY 113 := by decide
  simp only [processKeypress, if_neg hq, dispatchKey, if_true]

theorem saveToDisk_cases (env : SaveEnv) (e : Editor) :
    (∃ name, e.filename = some name ∧ saveToDisk env e = saveToDiskWrite env e)
    ∨ (e.filename = none ∧ scroll e = none ∧ saveToDisk env e = (Outcome.fault, none))
    ∨ (∃ e0, e.filename = none ∧ scroll e = some e0 ∧ env.promptResult = none
        ∧ saveToDisk env e = (Outcome.running { e0 with status := Status.saveAborted }, none))
    ∨ (∃ e0 name, e.filename = none ∧ scroll e = some e0 ∧ env.promptResult = some name
        ∧ saveToDisk env e
          = saveToDiskWrite env { e0 with status := Status.empty, filename := some name }) := by
  unfold saveToDisk
  rw [promptSaveAs_eq]
  cases hf : e.filename with
  | some name => exact Or.inl ⟨name, rfl, rfl⟩
  | none =>
    right
    cases hs : scroll e with
    | none => exact Or.inl ⟨rfl, rfl, rfl⟩
    | some e0 =>
      right
      cases hp : env.promptResult with
      | none => exact Or.inl ⟨e0, rfl, rfl, rfl, rfl⟩
      | some name => exact Or.inr ⟨e0, name, rfl, rfl, rfl, rfl⟩

/-- A save that writes nothing and comes back with an editor state is the cancelled prompt:
the status is `Save aborted`, and the lines, the cursor and `dirty` are as they were. -/
theorem saveToDisk_running_of_not_written (env : SaveEnv) (e : Editor)
    (hfail : (saveToDisk env e).2 = none) :
    ∀ e1, (saveToDisk env e).1 = Outcome.running e1 →
        e1.lines = e.lines ∧ e1.cursor_x = e.cursor_x ∧ e1.cursor_y = e.cursor_y
        ∧ e1.dirty = e.dirty ∧ e1.status = Status.saveAborted
        ∧ e.filename = none ∧ env.promptResult = none := by
  intro e1 h1
  rcases saveToDisk_cases env e with ⟨name, hf, hs⟩ | ⟨hf, hsc, hs⟩ | ⟨e0, hf, hsc, hp, hs⟩
      | ⟨e0, name, hf, hsc, hp, hs⟩
  · rcases saveToDiskWrite_cases env e with ⟨_, hw⟩ | ⟨_, hw⟩
    · rw [hs, hw] at h1
      exact Outcome.noConfusion h1
    · rw [hs, hw] at hfail
      exact Option.noConfusion hfail
  · rw [hs] at h1
    exact Outcome.noConfusion h1
  · rw [hs] at h1
    cases h1
    obtain ⟨a, b, c, d, _⟩ := scroll_fields hsc
    exact ⟨a, b, c, d, rfl, hf, hp⟩
  · rcases saveToDiskWrite_cases env
        { e0 with status := Status.empty, filename := some name }
      with ⟨_, hw⟩ | ⟨_, hw⟩
    · rw [hs, hw] at h1
      exact Outcome.noConfusion h1
    · rw [hs, hw] at hfail
      exact Option.noConfusion hfail

/-- A save never ends the program with an exit code: it comes back with an editor state or
it leaves the data of the program. -/
theorem saveToDisk_not_exited (env : SaveEnv) (e : Editor) (code : Int) :
    (saveToDisk env e).1 ≠ Outcome.exited code := by
  rcases saveToDisk_cases env e with ⟨name, hf, hs⟩ | ⟨hf, hsc, hs⟩ | ⟨e0, hf, hsc, hp, hs⟩
      | ⟨e0, name, hf, hsc, hp, hs⟩
  · rcases saveToDiskWrite_cases env e with ⟨_, hw⟩ | ⟨_, hw⟩ <;> rw [hs, hw] <;>
      exact Outcome.noConfusion
  · rw [hs]
    exact Outcome.noConfusion
  · rw [hs]
    exact Outcome.noConfusion
  · rcases saveToDiskWrite_cases env
        { e0 with status := Status.empty, filename := some name }
      with ⟨_, hw⟩ | ⟨_, hw⟩ <;> rw [hs, hw] <;> exact Outcome.noConfusion

/-- When a save leaves the data of the program: the prompt has to draw a frame for a cursor
outside its line, or a file name is there (given, or entered at the prompt) and one of the
five file operations fails. -/
theorem saveToDisk_fault_iff (env : SaveEnv) (e : Editor) :
    (saveToDisk env e).1 = Outcome.fault
      ↔ (e.filename = none ∧ scroll e = none)
        ∨ ((e.filename ≠ none ∨ (scroll e ≠ none ∧ env.promptResult ≠ none))
            ∧ ¬ (env.createFile = true ∧ env.setFilePointerEnd = true
                  ∧ env.setEndOfFile = true ∧ env.setFilePointerStart = true
                  ∧ env.writeFile = true)) := by
  rcases saveToDisk_cases env e with ⟨name, hf, hs⟩ | ⟨hf, hsc, hs⟩ | ⟨e0, hf, hsc, hp, hs⟩
      | ⟨e0, name, hf, hsc, hp, hs⟩
  · rcases saveToDiskWrite_cases env e with ⟨hc, hw⟩ | ⟨hc, hw⟩ <;> rw [hs, hw] <;>
      simp [hf, hc]
  · rw [hs]
    simp [hf, hsc]
  · rw [hs]
    simp [hf, hsc, hp]
  · rcases saveToDiskWrite_cases env
        { e0 with status := Status.empty, filename := some name }
      with ⟨hc, hw⟩ | ⟨hc, hw⟩ <;> rw [hs, hw] <;> simp [hf, hsc, hp, hc]

/-- C17 fails on the code whenever a file operation of the save fails.  On the document of
the one line `a` with a file name, Ctrl-S with `SetFilePointerEx`, `SetEndOfFile` or
`WriteFile` failing goes to `setStatusMessage(ErrorExit())`, and `ErrorExit` stores its text
through a pointer that is never set; with `CreateFileA` failing it goes to `die`, which
frees a string literal.  In each case the key does not come back with an editor state, so
the editor does not go on with a status message.  The same holds from the empty document
for the keys `a`, Ctrl-S with a name entered at the prompt; and for every editor the part of
`saveToDisk` after the prompt comes back exactly when all five file operations succeed. -/
theorem save_file_failure_faults :
    processKeypress
        { promptResult := none, createFile := true, setFilePointerEnd := false,
          setEndOfFile := true, setFilePointerStart := true, writeFile := true }
        { editor := { initEditor 24 80 with
            lines := [{ chars := [97], rchars := [97] }], filename := some [102],
            dirty := true },
          quit_left := 2 } (CTRL_KEY 115)
      = Outcome.fault
    ∧ processKeypress
        { promptResult := none, createFile := true, setFilePointerEnd := true,
          setEndOfFile := false, setFilePointerStart := true, writeFile := true }
        { editor := { initEditor 24 80 with
            lines := [{ chars := [97], rchars := [97] }], filename := some [102],
            dirty := true },
          quit_left := 2 } (CTRL_KEY 115)
      = Outcome.fault
    ∧ processKeypress
        { promptResult := none, createFile := true, setFilePointerEnd := true,
          setEndOfFile := true, setFilePointerStart := false, writeFile := true }
        { editor := { initEditor 24 80 with
            lines := [{ chars := [97], rchars := [97] }], filename := some [102],
            dirty := true },
          quit_left := 2 } (CTRL_KEY 115)
      = Outcome.fault
    ∧ processKeypress
        { promptResult := none, createFile := true, setFilePointerEnd := true,
          setEndOfFile := true, setFilePointerStart := true, writeFile := false }
        { editor := { initEditor 24 80 with
            lines := [{ chars := [97], rchars := [97] }], filename := some [102],
            dirty := true },
          quit_left := 2 } (CTRL_KEY 115)
      = Outcome.fault
    ∧ processKeypress
        { promptResult := none, createFile := false, setFilePointerEnd := true,
          setEndOfFile := true, setFilePointerStart := true, writeFile := true }
        { editor := { initEditor 24 80 with
            lines := [{ chars := [97], rchars := [97] }], filename := some [102],
            dirty := true },
          quit_left := 2 } (CTRL_KEY 115)
      = Outcome.fault
    ∧ run (initState 24 80)
        [key 97,
         { key := CTRL_KEY 115,
           env := { promptResult := some [102], createFile := true, setFilePointerEnd := true,
                    setEndOfFile := false, setFilePointerStart := true, writeFile := true } }]
      = Outcome.fault
    ∧ ∀ (env : SaveEnv) (e : Editor),
        saveToDiskWrite env e
          = if env.createFile = true ∧ env.setFilePointerEnd = true ∧ env.setEndOfFile = true
                ∧ env.setFilePointerStart = true ∧ env.writeFile = true then
              (Outcome.running
                { e with dirty := false
                         status := Status.wrote (fullTextLen e.lines) (e.filename.getD []) },
               some (fullText e.lines))
            else (Outcome.fault, none) := by
  refine ⟨by decide, by decide, by decide, by decide, by decide, by decide, ?_⟩
  intro env e
  rcases saveToDiskWrite_cases env e with ⟨hc, hw⟩ | ⟨hc, hw⟩
  · rw [hw, if_neg hc]
  · rw [hw, if_pos hc]

/-! ## Frame rows -/

theorem renderSlice_clamp (rchars : List Nat) (col_offset cols : Int) (hco : 0 ≤ col_offset)
    (hcols : 0 ≤ cols) :
    renderSlice rchars col_offset (clamp ((rchars.length : Int) - col_offset) 0 cols)
      = some ((rchars.take (min (rchars.length : Int) (col_offset + cols)).toNat).drop
          col_offset.toNat) := by
  have hc : 0 ≤ clamp ((rchars.length : Int) - col_offset) 0 cols
      ∧ clamp ((rchars.length : Int) - col_offset) 0 cols ≤ cols
      ∧ (0 ≤ (rchars.length : Int) - col_offset →
          clamp ((rchars.length : Int) - col_offset) 0 cols
            = min ((rchars.length : Int) - col_offset) cols)
      ∧ ((rchars.length : Int) - col_offset < 0 →
          clamp ((rchars.length : Int) - col_offset) 0 cols = 0) := by
    unfold clamp
    split_ifs <;> omega
  obtain ⟨h0, h1, h2, h3⟩ := hc
  rw [List.drop_take]
  unfold renderSlice
  rw [if_neg (by omega)]
  by_cases hz : clamp ((rchars.length : Int) - col_offset) 0 cols = 0
  · rw [if_pos hz]
    congr 1
    symm
    rw [List.take_eq_nil_iff]
    by_cases hneg : (rchars.length : Int) - col_offset < 0
    · right
      exact List.drop_eq_nil_of_le (by omega)
    · have := h2 (by omega)
      left
      omega
  · rw [if_neg hz]
    have hpos : 0 ≤ (rchars.length : Int) - col_offset := by
      by_contra hneg
      exact hz (h3 (by omega))
    have hmin := h2 hpos
    rw [if_neg (by omega)]
    congr 1
    rw [List.take_eq_take, List.length_drop]
    omega

theorem writeLinesRow_eq (e : Editor) (i : Nat) (sb : List Nat) (hcols : 0 ≤ e.cols)
    (hco : 0 ≤ e.col_offset) :
    writeLinesRow e i sb
      = if (i : Int) + e.row_offset < 0 then none else some (sb ++ rowRecord e i) := by
  unfold writeLinesRow rowRecord rowVisible appendToBuffer
  have hcomm : e.row_offset + (i : Int) = (i : Int) + e.row_offset := by omega
  rw [hcomm]
  by_cases hge : (i : Int) + e.row_offset ≥ e.num_lines
  · have hn : ¬ (i : Int) + e.row_offset < 0 := by
      simp only [Editor.num_lines] at hge
      omega
    simp [hge, hn]
  · by_cases hneg : (i : Int) + e.row_offset < 0
    · have hnone : lineAt e.lines ((i : Int) + e.row_offset) = none := by
        unfold lineAt
        rw [if_pos hneg]
      simp [hge, hneg, hnone]
    · have hlt : ((i : Int) + e.row_offset).toNat < e.lines.length := by
        simp only [Editor.num_lines] at hge
        omega
      have hsome : lineAt e.lines ((i : Int) + e.row_offset)
          = some (e.lines[((i : Int) + e.row_offset).toNat]) := by
        unfold lineAt
        rw [if_neg hneg]
        exact List.getElem?_eq_getElem hlt
      simp only [hge, hneg, hsome, if_false, Option.bind_eq_bind, Option.some_bind, Line.rlen,
        renderSlice_clamp _ _ _ hco hcols, Option.pure_def]
      simp

theorem writeLinesLoop_eq (e : Editor) (hcols : 0 ≤ e.cols) (hco : 0 ≤ e.col_offset)
    (n i : Nat) (sb : List Nat) :
    (0 ≤ (i : Int) + e.row_offset → ∃ out, writeLinesLoop e n i sb = some out)
    ∧ ∀ out, writeLinesLoop e n i sb = some out →
        out = sb ++ ((List.range' i n).map (rowRecord e)).flatten := by
  induction n generalizing i sb with
  | zero =>
    refine ⟨fun _ => ⟨sb, rfl⟩, fun out h => ?_⟩
    simp only [writeLinesLoop, Option.some.injEq] at h
    simp [← h]
  | succ n ih =>
    simp only [writeLinesLoop, writeLinesRow_eq e i sb hcols hco]
    constructor
    · intro h0
      rw [if_neg (by omega)]
      exact (ih (i + 1) _).1 (by push_cast; omega)
    · intro out h
      by_cases hneg : (i : Int) + e.row_offset < 0
      · rw [if_pos hneg] at h
        exact Option.noConfusion h
      · rw [if_neg hneg] at h
        have := (ih (i + 1) _).2 out h
        rw [this, List.range'_succ]
        simp

/-- C19: with `rows >= 0`, `cols >= 0` and `col_offset >= 0`, every result of `writeLines`
is the string builder followed by exactly `rows` row records, each the visible bytes of its
row, then the erase-to-end-of-line escape, then CR LF.  Row `i` shows the single byte `~`
when `row_offset + i >= num_lines`, otherwise the bytes
`rchars[col_offset .. min(rlen, col_offset + cols))` of line `row_offset + i`, none when
`col_offset >= rlen` and never more than `cols`.  `writeLines` returns whenever
`row_offset >= 0`. -/
theorem writeLines_rows (e : Editor) (sb : List Nat) (hrows : 0 ≤ e.rows) (hcols : 0 ≤ e.cols)
    (hco : 0 ≤ e.col_offset) :
    (0 ≤ e.row_offset → ∃ out, writeLines e sb = some out)
    ∧ ∀ out, writeLines e sb = some out →
        out = sb ++ ((List.range e.rows.toNat).map (rowRecord e)).flatten
        ∧ (((List.range e.rows.toNat).map (rowRecord e)).length : Int) = e.rows
        ∧ ∀ i, i < e.rows.toNat →
            rowRecord e i = rowVisible e i ++ [27, 91, 75] ++ [13, 10]
            ∧ (e.row_offset + (i : Int) ≥ e.num_lines → rowVisible e i = [126])
            ∧ ∀ line, e.row_offset + (i : Int) < e.num_lines →
                lineAt e.lines (e.row_offset + (i : Int)) = some line →
                rowVisible e i
                    = (line.rchars.take (min line.rlen (e.col_offset + e.cols)).toNat).drop
                        e.col_offset.toNat
                  ∧ ((rowVisible e i).length : Int) ≤ e.cols
                  ∧ (e.col_offset ≥ line.rlen → rowVisible e i = []) := by
  have hloop := writeLinesLoop_eq e hcols hco e.rows.toNat 0 sb
  constructor
  · intro h0
    exact hloop.1 (by simpa using h0)
  · intro out h
    refine ⟨?_, ?_, ?_⟩
    · rw [List.range_eq_range']
      exact hloop.2 out h
    · simp only [List.length_map, List.length_range]
      omega
    · intro i _
      refine ⟨rfl, ?_, ?_⟩
      · intro hge
        unfold rowVisible
        rw [if_pos hge]
      · intro line hlt hline
        have hv : rowVisible e i
            = (line.rchars.take (min line.rlen (e.col_offset + e.cols)).toNat).drop
                e.col_offset.toNat := by
          unfold rowVisible
          rw [if_neg (by omega), hline]
        refine ⟨hv, ?_, ?_⟩
        · rw [hv]
          simp only [List.length_drop, List.length_take, Line.rlen]
          omega
        · intro hge
          rw [hv]
          apply List.drop_eq_nil_of_le
          simp only [List.length_take, Line.rlen] at hge ⊢
          omega

/-- Witness of C19: three rows of two columns over the lines tab `ab` and `c`, scrolled three
columns to the right. -/
theorem writeLines_rows_witness :
    ∃ out, writeLines { initEditor 3 2 with
        lines := [{ chars := [9, 97, 98], rchars := [32, 32, 32, 32, 97, 98] },
                  { chars := [99], rchars := [99] }],
        col_offset := 3 } [] = some out
      ∧ out = [32, 97, 27, 91, 75, 13, 10, 27, 91, 75, 13, 10, 126, 27, 91, 75, 13, 10] :=
  have h := writeLines_rows
    { initEditor 3 2 with
      lines := [{ chars := [9, 97, 98], rchars := [32, 32, 32, 32, 97, 98] },
                { chars := [99], rchars := [99] }],
      col_offset := 3 } [] (by decide) (by decide) (by decide)
  match h.1 (by decide) with
  | ⟨out, ho⟩ => ⟨out, ho, (h.2 out ho).1.trans (by decide)⟩

/-! ## Prompt -/

theorem promptLoop_cons (str : List Nat) (c : Int) (keys : List Int) :
    promptLoop str (c :: keys)
      = if c = DELETE_KEY ∨ c = CTRL_KEY 104 ∨ c = BACKSPACE then
          promptLoop (if str.length ≠ 0 then str.dropLast else str) keys
        else if c = ESCAPE_KEY then some (none, keys)
        else if c = ENTER_KEY then
          if str.length ≠ 0 then some (some str, keys) else promptLoop str keys
        else if (!iscntrl c) ∧ c < 128 then promptLoop (str ++ [keyByte c]) keys
        else promptLoop str keys := by
  rw [promptLoop]

theorem promptLoop_cons_ends (str : List Nat) (c : Int) (keys : List Int)
    (h : promptEnds str c) :
    promptLoop str (c :: keys) = some (promptResult str c, keys) := by
  unfold promptEnds at h
  rw [promptLoop_cons]
  unfold promptResult
  rcases h with h | ⟨h, hne⟩
  · subst h
    simp [ESCAPE_KEY, DELETE_KEY, CTRL_KEY, BACKSPACE]
  · subst h
    have hlen : str.length ≠ 0 := by
      intro h0
      exact hne (List.length_eq_zero.mp h0)
    simp [ESCAPE_KEY, DELETE_KEY, CTRL_KEY, BACKSPACE, ENTER_KEY, hlen]

theorem promptLoop_cons_goes_on (str : List Nat) (c : Int) (keys : List Int) (hc : 0 ≤ c)
    (h : ¬ promptEnds str c) :
    promptLoop str (c :: keys) = promptLoop (promptBufferStep str c) keys := by
  unfold promptEnds at h
  have hesc : ¬ c = ESCAPE_KEY := fun he => h (Or.inl he)
  rw [promptLoop_cons]
  unfold promptBufferStep
  by_cases herase : c = DELETE_KEY ∨ c = CTRL_KEY 104 ∨ c = BACKSPACE
  · have herase2 : c = BACKSPACE ∨ c = DELETE_KEY ∨ c = CTRL_KEY 104 := by tauto
    rw [if_pos herase, if_pos herase2]
    by_cases hlen : str.length ≠ 0
    · rw [if_pos hlen]
    · rw [if_neg hlen]
      have : str = [] := List.length_eq_zero.mp (by omega)
      rw [this]
      rfl
  · have herase2 : ¬ (c = BACKSPACE ∨ c = DELETE_KEY ∨ c = CTRL_KEY 104) := by tauto
    rw [if_neg herase, if_neg herase2, if_neg hesc]
    by_cases hent : c = ENTER_KEY
    · have hempty : ¬ str.length ≠ 0 := by
        intro hlen
        apply h
        right
        refine ⟨hent, ?_⟩
        intro hnil
        rw [hnil] at hlen
        exact hlen rfl
      have hno : ¬ (32 ≤ c ∧ c ≤ 126) := by
        rw [hent]
        decide
      rw [if_pos hent, if_neg hempty, if_neg hno]
    · rw [if_neg hent]
      by_cases hacc : 32 ≤ c ∧ c ≤ 126
      · have hcode : (!iscntrl c) = true ∧ c < 128 := by
          unfold iscntrl
          constructor
          · simp
            omega
          · omega
        have hbyte : keyByte c = c.toNat := by
          unfold keyByte
          congr 1
          omega
        rw [if_pos hcode, if_pos hacc, hbyte]
      · have hcode : ¬ ((!iscntrl c) = true ∧ c < 128) := by
          unfold iscntrl
          simp
          omega
        rw [if_neg hcode, if_neg hacc]

theorem promptLoop_iff (keys : List Int) (hnn : ∀ c ∈ keys, 0 ≤ c) (str : List Nat)
    (res : Option (List Nat)) (rest : List Int) :
    promptLoop str keys = some (res, rest)
      ↔ ∃ pre k, keys = pre ++ k :: rest
          ∧ (∀ p c q, pre = p ++ c :: q → ¬ promptEnds (promptBufferFrom str p) c)
          ∧ promptEnds (promptBufferFrom str pre) k
          ∧ res = promptResult (promptBufferFrom str pre) k := by
  induction keys generalizing str with
  | nil =>
    constructor
    · intro h
      simp [promptLoop] at h
    · rintro ⟨pre, k, h, _⟩
      exact absurd h (by simp)
  | cons c ks ih =>
    have hc : 0 ≤ c := hnn c (by simp)
    have hks : ∀ c1 ∈ ks, 0 ≤ c1 := fun c1 h1 => hnn c1 (by simp [h1])
    by_cases hend : promptEnds str c
    · rw [promptLoop_cons_ends str c ks hend]
      constructor
      · intro h
        simp only [Option.some.injEq, Prod.mk.injEq] at h
        obtain ⟨h1, h2⟩ := h
        refine ⟨[], c, by simp [h2], ?_, hend, h1.symm⟩
        intro p c1 q hp
        exact absurd hp (by simp)
      · rintro ⟨pre, k, hk, hno, hke, hres⟩
        cases pre with
        | nil =>
          simp only [List.nil_append, List.cons.injEq] at hk
          obtain ⟨rfl, rfl⟩ := hk
          rw [hres]
          rfl
        | cons c1 pre1 =>
          simp only [List.cons_append, List.cons.injEq] at hk
          obtain ⟨rfl, _⟩ := hk
          exact absurd hend (hno [] c pre1 rfl)
    · rw [promptLoop_cons_goes_on str c ks hc hend, ih hks]
      constructor
      · rintro ⟨pre, k, hk, hno, hke, hres⟩
        refine ⟨c :: pre, k, by simp [hk], ?_, hke, hres⟩
        intro p c1 q hp
        cases p with
        | nil =>
          simp only [List.nil_append, List.cons.injEq] at hp
          obtain ⟨rfl, _⟩ := hp
          exact hend
        | cons c2 p1 =>
          simp only [List.cons_append, List.cons.injEq] at hp
          obtain ⟨rfl, hp1⟩ := hp
          exact hno p1 c1 q hp1
      · rintro ⟨pre, k, hk, hno, hke, hres⟩
        cases pre with
        | nil =>
          simp only [List.nil_append, List.cons.injEq] at hk
          obtain ⟨rfl, _⟩ := hk
          exact absurd hke hend
        | cons c1 pre1 =>
          simp only [List.cons_append, List.cons.injEq] at hk
          obtain ⟨rfl, hk1⟩ := hk
          refine ⟨pre1, k, hk1, ?_, hke, hres⟩
          intro p c2 q hp
          exact hno (c :: p) c2 q (by simp [hp])

theorem promptBufferFrom_snoc (buf : List Nat) (keys : List Int) (c : Int) :
    promptBufferFrom buf (keys ++ [c]) = promptBufferStep (promptBufferFrom buf keys) c := by
  simp [promptBufferFrom, List.foldl_append]

/-- C18 fails on the code for the key `-1`, which is how `readKey` returns the character
`0xFF` (`AsciiChar` is a signed `char`): it is below 128 and `iscntrl(-1)` is false, so the
test `!iscntrl(c) && c < 128` lets it through, `prompt` adds the byte 255 to the buffer, and
the Enter key that follows returns the string made of that byte.  By the claim the key is
not a non-control ASCII key, the buffer stays empty and Enter does not end the prompt; the
same byte arriving as the key 255 is turned away by the test, as the claim says. -/
theorem prompt_accepts_negative_key :
    prompt [-1, ENTER_KEY] = some (some [255], [])
    ∧ iscntrl (-1) = false
    ∧ keyByte (-1) = 255
    ∧ promptBufferFrom [] [-1] = []
    ∧ ¬ promptEnds (promptBufferFrom [] [-1]) ENTER_KEY
    ∧ prompt [255, ENTER_KEY] = none
    ∧ prompt [-1, 97, ENTER_KEY, 98] = some (some [255, 97], [98])
    ∧ promptBufferFrom [] [-1, 97] = [97] := by
  refine ⟨by decide, by decide, by decide, by decide, ?_, by decide, by decide, by decide⟩
  unfold promptEnds
  decide

/-- On keys without negative codes `prompt` does what its description says: it returns
exactly at the first key that is Escape, with the result `NULL` whatever the buffer holds,
or Enter while the buffer is not empty, with the buffer as result; the buffer is the fold of the keys before
it in which Backspace, Delete and Ctrl-H take away the last byte if any, the non-control
ASCII keys are added in order and every other key, Enter on the empty buffer among them,
changes nothing.  A returned string is never empty, and when no key ends the prompt it does
not return. -/
theorem prompt_spec (keys : List Int) (hnn : ∀ c ∈ keys, 0 ≤ c) :
    (∀ res rest, prompt keys = some (res, rest)
      ↔ ∃ pre k, keys = pre ++ k :: rest
          ∧ (∀ p c q, pre = p ++ c :: q → ¬ promptEnds (promptBufferFrom [] p) c)
          ∧ promptEnds (promptBufferFrom [] pre) k
          ∧ res = promptResult (promptBufferFrom [] pre) k)
    ∧ (∀ str rest, prompt keys = some (some str, rest) → str ≠ [])
    ∧ (∀ rest, prompt keys = some (none, rest)
        ↔ ∃ pre, keys = pre ++ ESCAPE_KEY :: rest
            ∧ ∀ p c q, pre = p ++ c :: q → ¬ promptEnds (promptBufferFrom [] p) c)
    ∧ ((∀ p c q, keys = p ++ c :: q → ¬ promptEnds (promptBufferFrom [] p) c)
        → prompt keys = none)
    ∧ (∀ (pre : List Int) (c : Int),
        promptBufferFrom [] (pre ++ [c])
          = if c = BACKSPACE ∨ c = DELETE_KEY ∨ c = CTRL_KEY 104 then
              (promptBufferFrom [] pre).dropLast
            else if 32 ≤ c ∧ c ≤ 126 then promptBufferFrom [] pre ++ [c.toNat]
            else promptBufferFrom [] pre) := by
  have hiff := promptLoop_iff keys hnn []
  refine ⟨fun res rest => hiff res rest, ?_, ?_, ?_, ?_⟩
  · intro str rest h
    obtain ⟨pre, k, _, _, hke, hres⟩ := (hiff (some str) rest).mp h
    unfold promptEnds at hke
    unfold promptResult at hres
    rcases hke with hk | ⟨_, hne⟩
    · rw [if_pos hk] at hres
      exact Option.noConfusion hres
    · by_cases hk : k = ESCAPE_KEY
      · rw [if_pos hk] at hres
        exact Option.noConfusion hres
      · rw [if_neg hk] at hres
        cases hres
        exact hne
  · intro rest
    rw [show prompt keys = promptLoop [] keys from rfl, hiff none rest]
    constructor
    · rintro ⟨pre, k, hk, hno, hke, hres⟩
      unfold promptResult at hres
      by_cases hesc : k = ESCAPE_KEY
      · subst hesc
        exact ⟨pre, hk, hno⟩
      · rw [if_neg hesc] at hres
        exact Option.noConfusion hres
    · rintro ⟨pre, hk, hno⟩
      refine ⟨pre, ESCAPE_KEY, hk, hno, Or.inl rfl, ?_⟩
      unfold promptResult
      rw [if_pos rfl]
  · intro hno
    cases hp : prompt keys with
    | none => rfl
    | some r =>
      obtain ⟨res, rest⟩ := r
      obtain ⟨pre, k, hk, _, hke, _⟩ := (hiff res rest).mp hp
      exact absurd hke (hno pre k rest hk)
  · intro pre c
    rw [promptBufferFrom_snoc]
    rfl

/-- An instance of `prompt_spec`: the keys `a`, Ctrl-H, Enter, `b`, Left arrow, Enter, `x`. -/
theorem prompt_spec_witness :
    ∃ pre k, [97, 8, ENTER_KEY, 98, ARROW_LEFT, ENTER_KEY, 120] = pre ++ k :: [120]
      ∧ (∀ p c q, pre = p ++ c :: q → ¬ promptEnds (promptBufferFrom [] p) c)
      ∧ promptEnds (promptBufferFrom [] pre) k
      ∧ some [98] = promptResult (promptBufferFrom [] pre) k :=
  ((prompt_spec [97, 8, ENTER_KEY, 98, ARROW_LEFT, ENTER_KEY, 120] (by decide)).1
    (some [98]) [120]).mp (by decide)

/-! ## Cursor movement keeps the document -/

theorem curLen_nonneg (e : Editor) : 0 ≤ curLen e := by
  unfold curLen
  cases lineAt e.lines e.cursor_y with
  | none => exact le_refl _
  | some line => simp [Line.len]

theorem moveCursorSwitch_fields {e e1 : Editor} {key : Int}
    (h : moveCursorSwitch e key = some e1) :
    e1.lines = e.lines ∧ e1.dirty = e.dirty
      ∧ (0 ≤ e.cursor_y → e.cursor_y ≤ e.num_lines → 0 ≤ e.cursor_x →
          0 ≤ e1.cursor_y ∧ e1.cursor_y ≤ e.num_lines ∧ 0 ≤ e1.cursor_x) := by
  unfold moveCursorSwitch at h
  by_cases h1 : key = ARROW_LEFT
  · rw [if_pos h1] at h
    by_cases h2 : e.cursor_x > 0
    · rw [if_pos h2] at h
      cases h
      refine ⟨rfl, rfl, fun _ _ _ => ⟨?_, ?_, ?_⟩⟩ <;> try dsimp only
      all_goals omega
    · rw [if_neg h2] at h
      by_cases h3 : e.cursor_y > 0
      · rw [if_pos h3] at h
        by_cases h4 : e.cursor_y ≥ e.num_lines
        · rw [if_pos h4] at h
          cases h
          refine ⟨rfl, rfl, fun _ _ _ => ⟨?_, ?_, ?_⟩⟩ <;> try dsimp only
          all_goals omega
        · rw [if_neg h4] at h
          simp only [Option.bind_eq_bind, Option.bind_eq_some, Option.pure_def,
            Option.some.injEq] at h
          obtain ⟨current, _, rfl⟩ := h
          have hlen : 0 ≤ current.len := by simp [Line.len]
          refine ⟨rfl, rfl, fun _ _ _ => ⟨?_, ?_, ?_⟩⟩ <;> try dsimp only
          all_goals omega
      · rw [if_neg h3] at h
        cases h
        exact ⟨rfl, rfl, fun a b c => ⟨a, b, c⟩⟩
  · rw [if_neg h1] at h
    by_cases h5 : key = ARROW_RIGHT
    · rw [if_pos h5] at h
      by_cases h6 : e.cursor_y ≥ e.num_lines
      · rw [if_pos h6] at h
        cases h
        exact ⟨rfl, rfl, fun a b c => ⟨a, b, c⟩⟩
      · rw [if_neg h6] at h
        simp only [Option.bind_eq_bind, Option.bind_eq_some, Option.pure_def] at h
        obtain ⟨current, _, h⟩ := h
        by_cases h7 : e.cursor_x < current.len
        · rw [if_pos h7] at h
          cases h
          refine ⟨rfl, rfl, fun _ _ _ => ⟨?_, ?_, ?_⟩⟩ <;> try dsimp only
          all_goals omega
        · rw [if_neg h7] at h
          by_cases h8 : e.cursor_x = current.len ∧ e.cursor_y < e.num_lines - 1
          · rw [if_pos h8] at h
            cases h
            refine ⟨rfl, rfl, fun _ _ _ => ⟨?_, ?_, ?_⟩⟩ <;> try dsimp only
            all_goals omega
          · rw [if_neg h8] at h
            cases h
            exact ⟨rfl, rfl, fun a b c => ⟨a, b, c⟩⟩
    · rw [if_neg h5] at h
      by_cases h9 : key = ARROW_UP
      · rw [if_pos h9] at h
        by_cases h10 : e.cursor_y > 0
        · rw [if_pos h10] at h
          cases h
          refine ⟨rfl, rfl, fun _ _ _ => ⟨?_, ?_, ?_⟩⟩ <;> try dsimp only
          all_goals omega
        · rw [if_neg h10] at h
          cases h
          exact ⟨rfl, rfl, fun a b c => ⟨a, b, c⟩⟩
      · rw [if_neg h9] at h
        by_cases h11 : key = ARROW_DOWN
        · rw [if_pos h11] at h
          by_cases h12 : e.cursor_y < e.num_lines - 1
          · rw [if_pos h12] at h
            cases h
            refine ⟨rfl, rfl, fun _ _ _ => ⟨?_, ?_, ?_⟩⟩ <;> try dsimp only
            all_goals omega
          · rw [if_neg h12] at h
            cases h
            exact ⟨rfl, rfl, fun a b c => ⟨a, b, c⟩⟩
        · rw [if_neg h11] at h
          cases h
          exact ⟨rfl, rfl, fun a b c => ⟨a, b, c⟩⟩

theorem moveCursorSwitch_vertical {e e1 : Editor} {key : Int}
    (hk : key = ARROW_UP ∨ key = ARROW_DOWN) (h : moveCursorSwitch e key = some e1) :
    e1.cursor_x = e.cursor_x := by
  unfold moveCursorSwitch at h
  rcases hk with hk | hk
  · subst hk
    rw [if_neg (by decide), if_neg (by decide), if_pos rfl] at h
    by_cases h10 : e.cursor_y > 0
    · rw [if_pos h10] at h
      cases h
      rfl
    · rw [if_neg h10] at h
      cases h
      rfl
  · subst hk
    rw [if_neg (by decide), if_neg (by decide), if_neg (by decide), if_pos rfl] at h
    by_cases h12 : e.cursor_y < e.num_lines - 1
    · rw [if_pos h12] at h
      cases h
      rfl
    · rw [if_neg h12] at h
      cases h
      rfl

theorem moveCursor_eq_some {e e1 : Editor} {key : Int} (h : moveCursor e key = some e1) :
    ∃ e0, moveCursorSwitch e key = some e0
      ∧ (e0.cursor_y ≥ e0.num_lines ∨ ∃ line, lineAt e0.lines e0.cursor_y = some line)
      ∧ e1 = { e0 with
                cursor_x := (if e0.cursor_x > curLen e0 then curLen e0 else e0.cursor_x) } := by
  unfold moveCursor at h
  cases h0 : moveCursorSwitch e key with
  | none => simp [h0] at h
  | some e0 =>
    simp only [h0, Option.bind_eq_bind, Option.some_bind] at h
    refine ⟨e0, rfl, ?_⟩
    by_cases hge : e0.cursor_y ≥ e0.num_lines
    · rw [if_pos hge] at h
      have hcl : curLen e0 = 0 := by
        unfold curLen
        rw [lineAt_eq_none_of_ge hge]
      simp only [Option.pure_def, Option.some_bind, Option.some.injEq] at h
      rw [hcl]
      exact ⟨Or.inl hge, h.symm⟩
    · rw [if_neg hge] at h
      cases hline : lineAt e0.lines e0.cursor_y with
      | none => simp [hline] at h
      | some line =>
        have hcl : curLen e0 = line.len := by
          unfold curLen
          rw [hline]
        simp only [hline, Option.pure_def, Option.some_bind, Option.some.injEq] at h
        rw [hcl]
        exact ⟨Or.inr ⟨line, rfl⟩, h.symm⟩

theorem moveCursor_fields {e e1 : Editor} {key : Int} (h : moveCursor e key = some e1) :
    e1.lines = e.lines ∧ e1.dirty = e.dirty
      ∧ (0 ≤ e.cursor_y → e.cursor_y ≤ e.num_lines → 0 ≤ e.cursor_x → CursorOk e1)
      ∧ (key = ARROW_UP ∨ key = ARROW_DOWN → e1.cursor_x = min e.cursor_x (curLen e1)) := by
  obtain ⟨e0, h0, _, rfl⟩ := moveCursor_eq_some h
  obtain ⟨hl, hd, hb⟩ := moveCursorSwitch_fields h0
  have hcur : curLen { e0 with
      cursor_x := (if e0.cursor_x > curLen e0 then curLen e0 else e0.cursor_x) }
        = curLen e0 := rfl
  have hnn := curLen_nonneg e0
  refine ⟨hl, hd, ?_, ?_⟩
  · intro a b c
    obtain ⟨a1, b1, c1⟩ := hb a b c
    have hN : e0.num_lines = e.num_lines := by simp only [Editor.num_lines, hl]
    refine ⟨a1, ?_, ?_, ?_⟩
    · show e0.cursor_y ≤ e0.num_lines
      omega
    · show 0 ≤ (if e0.cursor_x > curLen e0 then curLen e0 else e0.cursor_x)
      split_ifs <;> omega
    · rw [hcur]
      show (if e0.cursor_x > curLen e0 then curLen e0 else e0.cursor_x) ≤ curLen e0
      split_ifs <;> omega
  · intro hk
    rw [hcur, ← moveCursorSwitch_vertical hk h0]
    show (if e0.cursor_x > curLen e0 then curLen e0 else e0.cursor_x) = _
    split_ifs <;> omega

theorem cursorOk_bounds {e : Editor} (h : CursorOk e) :
    0 ≤ e.cursor_y ∧ e.cursor_y ≤ e.num_lines ∧ 0 ≤ e.cursor_x := ⟨h.1, h.2.1, h.2.2.1⟩

theorem moveCursor_nav {e e1 : Editor} {key : Int} (h : moveCursor e key = some e1) :
    e1.lines = e.lines ∧ e1.dirty = e.dirty ∧ (CursorOk e → CursorOk e1) := by
  obtain ⟨hl, hd, hc, _⟩ := moveCursor_fields h
  exact ⟨hl, hd, fun hok => hc hok.1 hok.2.1 hok.2.2.1⟩

theorem moveCursorTimes_nav (key : Int) (n : Nat) {e e1 : Editor}
    (h : moveCursorTimes key n e = some e1) :
    e1.lines = e.lines ∧ e1.dirty = e.dirty ∧ (CursorOk e → CursorOk e1) := by
  induction n generalizing e with
  | zero =>
    simp only [moveCursorTimes, Option.some.injEq] at h
    subst h
    exact ⟨rfl, rfl, id⟩
  | succ n ih =>
    simp only [moveCursorTimes, Option.bind_eq_some] at h
    obtain ⟨e0, h0, h1⟩ := h
    obtain ⟨a, b, c⟩ := moveCursor_nav h0
    obtain ⟨a1, b1, c1⟩ := ih h1
    exact ⟨a1.trans a, b1.trans b, fun hok => c1 (c hok)⟩

theorem homeEndStep_nav (c : Int) {e e1 : Editor} (h : homeEndStep c e = some e1) :
    e1.lines = e.lines ∧ e1.dirty = e.dirty ∧ (CursorOk e → CursorOk e1) := by
  unfold homeEndStep at h
  by_cases h1 : c = HOME_KEY ∧ e.cursor_x > 0
  · rw [if_pos h1] at h
    exact moveCursor_nav h
  · rw [if_neg h1] at h
    by_cases h2 : c = END_KEY ∧ e.cursor_y < e.num_lines
    · rw [if_pos h2] at h
      cases hline : lineAt e.lines e.cursor_y with
      | none => simp [hline] at h
      | some line =>
        simp only [hline, Option.bind_eq_bind, Option.some_bind] at h
        by_cases h3 : e.cursor_x < line.len
        · rw [if_pos h3] at h
          exact moveCursor_nav h
        · rw [if_neg h3] at h
          cases h
          exact ⟨rfl, rfl, id⟩
    · rw [if_neg h2] at h
      cases h
      exact ⟨rfl, rfl, id⟩

theorem homeEndTimes_nav (c : Int) (n : Nat) {e e1 : Editor}
    (h : homeEndTimes c n e = some e1) :
    e1.lines = e.lines ∧ e1.dirty = e.dirty ∧ (CursorOk e → CursorOk e1) := by
  induction n generalizing e with
  | zero =>
    simp only [homeEndTimes, Option.some.injEq] at h
    subst h
    exact ⟨rfl, rfl, id⟩
  | succ n ih =>
    simp only [homeEndTimes, Option.bind_eq_some] at h
    obtain ⟨e0, h0, h1⟩ := h
    obtain ⟨a, b, c1⟩ := homeEndStep_nav c h0
    obtain ⟨a1, b1, c2⟩ := ih h1
    exact ⟨a1.trans a, b1.trans b, fun hok => c2 (c1 hok)⟩

/-! ## Render cache: preserved by the line store -/

theorem renderValid_set {lines : List Line} (h : RenderValid lines) (i : Nat) (l : Line)
    (hl : l.rchars = render l.chars) : RenderValid (lines.set i l) := by
  intro l1 h1
  rcases List.mem_or_eq_of_mem_set h1 with h2 | h2
  · exact h l1 h2
  · rw [h2]; exact hl

theorem renderValid_eraseIdx {lines : List Line} (h : RenderValid lines) (i : Nat) :
    RenderValid (lines.eraseIdx i) :=
  fun l1 h1 => h l1 (List.mem_of_mem_eraseIdx h1)

theorem renderValid_insert {lines : List Line} (h : RenderValid lines) (i : Nat) (l : Line)
    (hl : l.rchars = render l.chars) : RenderValid (lines.take i ++ l :: lines.drop i) := by
  intro l1 h1
  simp only [List.mem_append, List.mem_cons] at h1
  rcases h1 with h2 | h2 | h2
  · exact h l1 (List.mem_of_mem_take h2)
  · rw [h2]; exact hl
  · exact h l1 (List.mem_of_mem_drop h2)

theorem insertLine_facts (e : Editor) (index : Int) (str : List Nat) :
    (insertLine e index str).dirty = e.dirty
      ∧ (insertLine e index str).cursor_x = e.cursor_x
      ∧ (insertLine e index str).cursor_y = e.cursor_y
      ∧ (RenderValid e.lines → RenderValid (insertLine e index str).lines) := by
  unfold insertLine
  by_cases h : index < 0 ∨ index > e.num_lines
  · rw [if_pos h]
    exact ⟨rfl, rfl, rfl, id⟩
  · rw [if_neg h]
    exact ⟨rfl, rfl, rfl, fun hv => renderValid_insert hv _ _ rfl⟩

theorem lineInsert_facts {e e1 : Editor} {row index : Int} {c : Nat}
    (h : lineInsert e row index c = some e1) :
    e1.dirty = true ∧ e1.cursor_x = e.cursor_x ∧ e1.cursor_y = e.cursor_y
      ∧ (RenderValid e.lines → RenderValid e1.lines) := by
  unfold lineInsert at h
  cases hline : lineAt e.lines row with
  | none => simp [hline] at h
  | some line =>
    simp only [hline, Option.bind_eq_bind, Option.some_bind, Option.pure_def,
      Option.some.injEq] at h
    subst h
    exact ⟨rfl, rfl, rfl, fun hv => renderValid_set hv _ _ rfl⟩

theorem insert_facts {e e1 : Editor} {c : Nat} (h : insert e c = some e1) :
    e1.dirty = true ∧ (RenderValid e.lines → RenderValid e1.lines) := by
  rw [insert_eq] at h
  obtain ⟨e2, h2, rfl⟩ := Option.map_eq_some'.mp h
  obtain ⟨hd, _, _, hv⟩ := lineInsert_facts h2
  refine ⟨hd, fun hrv => hv ?_⟩
  by_cases hy : e.cursor_y = e.num_lines
  · rw [if_pos hy]
    exact (insertLine_facts e e.num_lines []).2.2.2 hrv
  · rw [if_neg hy]
    exact hrv

theorem insertNewline_facts {e e1 : Editor} (h : insertNewline e = some e1) :
    e1.dirty = true ∧ (RenderValid e.lines → RenderValid e1.lines) := by
  unfold insertNewline at h
  by_cases hx : e.cursor_x = 0
  · rw [if_pos hx] at h
    simp only [Option.pure_def, Option.bind_eq_bind, Option.some_bind, Option.some.injEq] at h
    subst h
    exact ⟨rfl, fun hv => (insertLine_facts e e.cursor_y []).2.2.2 hv⟩
  · rw [if_neg hx] at h
    cases hline : lineAt e.lines e.cursor_y with
    | none => simp [hline] at h
    | some line =>
      simp only [hline, Option.bind_eq_bind, Option.some_bind] at h
      by_cases hg : e.cursor_x < 0 ∨ e.cursor_x > line.len
      · rw [if_pos hg] at h
        simp at h
      · rw [if_neg hg] at h
        cases hline1 : lineAt
            (insertLine e (e.cursor_y + 1) (List.drop e.cursor_x.toNat line.chars)).lines
            (insertLine e (e.cursor_y + 1) (List.drop e.cursor_x.toNat line.chars)).cursor_y with
        | none => simp [hline1] at h
        | some line1 =>
          simp only [hline1, Option.some_bind, Option.pure_def, Option.some.injEq] at h
          subst h
          refine ⟨rfl, fun hv => ?_⟩
          exact renderValid_set ((insertLine_facts e _ _).2.2.2 hv) _ _ rfl

theorem lineDelete_facts {e e1 : Editor} {row index : Int}
    (h : lineDelete e row index = some e1) :
    (e1 = e ∨ e1.dirty = true) ∧ e1.cursor_x = e.cursor_x ∧ e1.cursor_y = e.cursor_y
      ∧ (RenderValid e.lines → RenderValid e1.lines) := by
  unfold lineDelete at h
  cases hline : lineAt e.lines row with
  | none => simp [hline] at h
  | some line =>
    simp only [hline, Option.bind_eq_bind, Option.some_bind, Option.pure_def] at h
    by_cases h1 : index < 0 ∨ index > line.len
    · rw [if_pos h1] at h
      cases h
      exact ⟨Or.inl rfl, rfl, rfl, id⟩
    · rw [if_neg h1] at h
      by_cases h2 : index < line.len
      · rw [if_pos h2] at h
        cases h
        exact ⟨Or.inr rfl, rfl, rfl, fun hv => renderValid_set hv _ _ rfl⟩
      · rw [if_neg h2] at h
        by_cases h3 : line.len = 0
        · rw [if_pos h3] at h
          exact Option.noConfusion h
        · rw [if_neg h3] at h
          cases h
          exact ⟨Or.inr rfl, rfl, rfl, fun hv => renderValid_set hv _ _ rfl⟩

theorem appendToLine_facts {e e1 : Editor} {row : Int} {str : List Nat}
    (h : appendToLine e row str = some e1) :
    e1.dirty = true ∧ e1.cursor_x = e.cursor_x ∧ e1.cursor_y = e.cursor_y
      ∧ (RenderValid e.lines → RenderValid e1.lines) := by
  unfold appendToLine at h
  cases hline : lineAt e.lines row with
  | none => simp [hline] at h
  | some line =>
    simp only [hline, Option.bind_eq_bind, Option.some_bind, Option.pure_def,
      Option.some.injEq] at h
    subst h
    exact ⟨rfl, rfl, rfl, fun hv => renderValid_set hv _ _ rfl⟩

theorem deleteRow_facts {e e1 : Editor} {index : Int} (h : deleteRow e index = some e1) :
    (e1 = e ∨ e1.dirty = true) ∧ e1.cursor_x = e.cursor_x ∧ e1.cursor_y = e.cursor_y
      ∧ (RenderValid e.lines → RenderValid e1.lines) := by
  unfold deleteRow at h
  by_cases h1 : index < 0 ∨ index > e.num_lines
  · rw [if_pos h1] at h
    cases h
    exact ⟨Or.inl rfl, rfl, rfl, id⟩
  · rw [if_neg h1] at h
    cases hline : lineAt e.lines index with
    | none => simp [hline] at h
    | some line =>
      simp only [hline, Option.some.injEq] at h
      subst h
      exact ⟨Or.inr rfl, rfl, rfl, fun hv => renderValid_eraseIdx hv _⟩

theorem delete_facts {e e1 : Editor} (h : delete e = some e1) :
    (e1.dirty = true ∨ (e1.lines = e.lines ∧ e1.dirty = e.dirty))
      ∧ (RenderValid e.lines → RenderValid e1.lines) := by
  unfold delete at h
  by_cases h1 : e.cursor_x = 0 ∧ e.cursor_y = 0
  · rw [if_pos h1] at h
    cases h
    exact ⟨Or.inr ⟨rfl, rfl⟩, id⟩
  · rw [if_neg h1] at h
    by_cases h2 : e.cursor_x > 0
    · rw [if_pos h2] at h
      obtain ⟨hd, _, _, hv⟩ := lineDelete_facts h
      refine ⟨?_, hv⟩
      rcases hd with hd | hd
      · right
        rw [hd]
        exact ⟨rfl, rfl⟩
      · exact Or.inl hd
    · rw [if_neg h2] at h
      simp only [Option.bind_eq_bind, Option.bind_eq_some] at h
      obtain ⟨line, _, next, _, e3, h3, h4⟩ := h
      obtain ⟨hd3, _, _, hv3⟩ := appendToLine_facts h3
      obtain ⟨hd4, _, _, hv4⟩ := deleteRow_facts h4
      refine ⟨Or.inl ?_, fun hv => hv4 (hv3 hv)⟩
      rcases hd4 with hd4 | hd4
      · rw [hd4]; exact hd3
      · exact hd4

/-! ## One key: dirty flag and render cache -/

theorem saveToDisk_running (env : SaveEnv) (e e1 : Editor)
    (h : (saveToDisk env e).1 = Outcome.running e1) :
    e1.lines = e.lines ∧ e1.cursor_x = e.cursor_x ∧ e1.cursor_y = e.cursor_y := by
  rcases saveToDisk_cases env e with ⟨name, hf, hs⟩ | ⟨hf, hsc, hs⟩ | ⟨e0, hf, hsc, hp, hs⟩
      | ⟨e0, name, hf, hsc, hp, hs⟩
  · rcases saveToDiskWrite_cases env e with ⟨_, hw⟩ | ⟨_, hw⟩ <;>
      rw [hs, hw] at h <;> cases h
    exact ⟨rfl, rfl, rfl⟩
  · rw [hs] at h
    cases h
  · rw [hs] at h
    cases h
    obtain ⟨a, b, c, _⟩ := scroll_fields hsc
    exact ⟨a, b, c⟩
  · obtain ⟨a, b, c, _⟩ := scroll_fields hsc
    rcases saveToDiskWrite_cases env { e0 with status := Status.empty, filename := some name }
      with ⟨_, hw⟩ | ⟨_, hw⟩ <;>
      rw [hs, hw] at h <;> cases h
    exact ⟨a, b, c⟩

theorem ofOption_running {α : Type} {x : Option α} {a : α}
    (h : Outcome.ofOption x = Outcome.running a) : x = some a := by
  cases x with
  | none => exact Outcome.noConfusion h
  | some b =>
    simp only [Outcome.ofOption, Outcome.running.injEq] at h
    rw [h]

/-- The keys that only move the cursor. -/
theorem dispatchKey_navigation {env : SaveEnv} {e e1 : Editor} {c : Int}
    (hnav : c = ARROW_LEFT ∨ c = ARROW_RIGHT ∨ c = ARROW_UP ∨ c = ARROW_DOWN ∨ c = HOME_KEY
      ∨ c = END_KEY ∨ c = PAGE_UP ∨ c = PAGE_DOWN)
    (h : dispatchKey env e c = Outcome.running e1) :
    e1.lines = e.lines ∧ e1.dirty = e.dirty ∧ (CursorOk e → CursorOk e1) := by
  unfold dispatchKey at h
  have hs : ¬ c = CTRL_KEY 115 := by
    rcases hnav with h | h | h | h | h | h | h | h <;> rw [h] <;> decide
  rw [if_neg hs] at h
  by_cases ha : c = ARROW_LEFT ∨ c = ARROW_RIGHT ∨ c = ARROW_UP ∨ c = ARROW_DOWN
  · rw [if_pos ha] at h
    exact moveCursor_nav (ofOption_running h)
  · rw [if_neg ha] at h
    by_cases hp : c = PAGE_UP ∨ c = PAGE_DOWN
    · rw [if_pos hp] at h
      simp only [] at h
      by_cases hn : e.rows < 0
      · rw [if_pos hn] at h
        exact Outcome.noConfusion h
      · rw [if_neg hn] at h
        exact moveCursorTimes_nav _ _ (ofOption_running h)
    · rw [if_neg hp] at h
      have hh : c = HOME_KEY ∨ c = END_KEY := by tauto
      rw [if_pos hh] at h
      have h2 := ofOption_running h
      have h4 : ∃ n : Int, (if n < 0 then none else homeEndTimes c n.toNat e) = some e1 := by
        by_cases hge : e.cursor_y ≥ e.num_lines
        · rw [if_pos hge] at h2
          exact ⟨e.cols, h2⟩
        · rw [if_neg hge] at h2
          cases hline : lineAt e.lines e.cursor_y with
          | none => simp [hline] at h2
          | some line =>
            rw [hline] at h2
            exact ⟨line.len, h2⟩
      obtain ⟨n, h3⟩ := h4
      by_cases hn : n < 0
      · rw [if_pos hn] at h3
        exact Option.noConfusion h3
      · rw [if_neg hn] at h3
        exact homeEndTimes_nav _ _ h3

theorem dispatchKey_facts {env : SaveEnv} {e e1 : Editor} {c : Int}
    (h : dispatchKey env e c = Outcome.running e1) :
    (¬ (c = CTRL_KEY 115 ∧ (saveToDisk env e).2 ≠ none) →
        e1.dirty = true ∨ (e1.lines = e.lines ∧ e1.dirty = e.dirty))
      ∧ (RenderValid e.lines → RenderValid e1.lines) := by
  by_cases hs : c = CTRL_KEY 115
  · have h1 : (saveToDisk env e).1 = Outcome.running e1 := by
      unfold dispatchKey at h
      rw [if_pos hs] at h
      exact h
    obtain ⟨hl, _, _⟩ := saveToDisk_running env e e1 h1
    refine ⟨fun hno => Or.inr ⟨hl, ?_⟩, fun hv => by rw [hl]; exact hv⟩
    have hfail : (saveToDisk env e).2 = none := by
      by_contra hne
      exact hno ⟨hs, hne⟩
    exact (saveToDisk_running_of_not_written env e hfail e1 h1).2.2.2.1
  · by_cases hnav : c = ARROW_LEFT ∨ c = ARROW_RIGHT ∨ c = ARROW_UP ∨ c = ARROW_DOWN
        ∨ c = HOME_KEY ∨ c = END_KEY ∨ c = PAGE_UP ∨ c = PAGE_DOWN
    · obtain ⟨hl, hd, _⟩ := dispatchKey_navigation hnav h
      exact ⟨fun _ => Or.inr ⟨hl, hd⟩, fun hv => by rw [hl]; exact hv⟩
    · unfold dispatchKey at h
      have ha : ¬ (c = ARROW_LEFT ∨ c = ARROW_RIGHT ∨ c = ARROW_UP ∨ c = ARROW_DOWN) := by
        tauto
      have hp : ¬ (c = PAGE_UP ∨ c = PAGE_DOWN) := by tauto
      have hh : ¬ (c = HOME_KEY ∨ c = END_KEY) := by tauto
      rw [if_neg hs, if_neg ha, if_neg hp, if_neg hh] at h
      by_cases hdel : c = DELETE_KEY
      · rw [if_pos hdel] at h
        have h2 := ofOption_running h
        simp only [Option.bind_eq_bind, Option.bind_eq_some] at h2
        obtain ⟨e0, h0, h3⟩ := h2
        obtain ⟨hl0, hd0, _⟩ := moveCursor_nav h0
        by_cases hx : e.cursor_x ≠ e0.cursor_x
        · rw [if_pos hx] at h3
          obtain ⟨hd, hv⟩ := delete_facts h3
          refine ⟨fun _ => ?_, fun hrv => hv (by rw [hl0]; exact hrv)⟩
          rcases hd with hd | ⟨hd1, hd2⟩
          · exact Or.inl hd
          · exact Or.inr ⟨hd1.trans hl0, hd2.trans hd0⟩
        · rw [if_neg hx] at h3
          simp only [Option.pure_def, Option.some.injEq] at h3
          subst h3
          exact ⟨fun _ => Or.inr ⟨hl0, hd0⟩, fun hrv => by rw [hl0]; exact hrv⟩
      · rw [if_neg hdel] at h
        by_cases hb : c = BACKSPACE
        · rw [if_pos hb] at h
          obtain ⟨hd, hv⟩ := delete_facts (ofOption_running h)
          exact ⟨fun _ => hd, hv⟩
        · rw [if_neg hb] at h
          by_cases hent : c = ENTER_KEY
          · rw [if_pos hent] at h
            obtain ⟨hd, hv⟩ := insertNewline_facts (ofOption_running h)
            exact ⟨fun _ => Or.inl hd, hv⟩
          · rw [if_neg hent] at h
            obtain ⟨hd, hv⟩ := insert_facts (ofOption_running h)
            exact ⟨fun _ => Or.inl hd, hv⟩

theorem processKeypress_running {env : SaveEnv} {s s1 : State} {c : Int}
    (h : processKeypress env s c = Outcome.running s1) :
    (c = CTRL_Q ∧ s1.editor = { s.editor with status := Status.quitWarning s.quit_left })
    ∨ (c ≠ CTRL_Q ∧ dispatchKey env s.editor c = Outcome.running s1.editor) := by
  by_cases hq : c = CTRL_Q
  · left
    refine ⟨hq, ?_⟩
    rw [hq, processKeypress_quit] at h
    by_cases hc : s.editor.dirty = true ∧ s.quit_left ≠ 0
    · rw [if_pos hc] at h
      cases h
      rfl
    · rw [if_neg hc] at h
      exact Outcome.noConfusion h
  · right
    refine ⟨hq, ?_⟩
    have hq1 : ¬ c = CTRL_KEY 113 := hq
    simp only [processKeypress, if_neg hq1] at h
    cases hd : dispatchKey env s.editor c with
    | running e =>
      simp only [hd, Outcome.running.injEq] at h
      rw [← h]
    | exited code => simp [hd] at h
    | fault => simp [hd] at h

/-- C13: for every state and every key that `processKeypress` handles and returns from,
other than a save that wrote the file: if the sequence of line contents has changed, `dirty`
is true afterwards; `dirty` does not go from true to false; and the navigation keys (arrows,
Home, End, Page Up, Page Down) change neither the lines nor `dirty`. -/
theorem dirty_flag_spec (env : SaveEnv) (s s1 : State) (c : Int)
    (h : processKeypress env s c = Outcome.running s1)
    (hsave : ¬ (c = CTRL_KEY 115 ∧ (saveToDisk env s.editor).2 ≠ none)) :
    (contents s1.editor.lines ≠ contents s.editor.lines → s1.editor.dirty = true)
    ∧ (s.editor.dirty = true → s1.editor.dirty = true)
    ∧ (c = ARROW_LEFT ∨ c = ARROW_RIGHT ∨ c = ARROW_UP ∨ c = ARROW_DOWN ∨ c = HOME_KEY
        ∨ c = END_KEY ∨ c = PAGE_UP ∨ c = PAGE_DOWN →
        s1.editor.lines = s.editor.lines ∧ s1.editor.dirty = s.editor.dirty) := by
  have hstep : s1.editor.dirty = true
      ∨ (s1.editor.lines = s.editor.lines ∧ s1.editor.dirty = s.editor.dirty) := by
    rcases processKeypress_running h with ⟨_, he⟩ | ⟨_, hd⟩
    · right
      rw [he]
      exact ⟨rfl, rfl⟩
    · exact (dispatchKey_facts hd).1 hsave
  refine ⟨?_, ?_, ?_⟩
  · intro hne
    rcases hstep with hd | ⟨hl, _⟩
    · exact hd
    · exact absurd (by rw [hl]) hne
  · intro hdirty
    rcases hstep with hd | ⟨_, hd⟩
    · exact hd
    · rw [hd]
      exact hdirty
  · intro hnav
    rcases processKeypress_running h with ⟨hq, _⟩ | ⟨_, hd⟩
    · exfalso
      rcases hnav with h | h | h | h | h | h | h | h <;> rw [h] at hq <;> revert hq <;> decide
    · obtain ⟨hl, hdd, _⟩ := dispatchKey_navigation hnav hd
      exact ⟨hl, hdd⟩

/-- Witness of C13: the key `x` on a clean document of one line. -/
theorem dirty_flag_spec_witness :
    processKeypress (key 120).env
        { editor := { initEditor 24 80 with lines := [{ chars := [97], rchars := [97] }] },
          quit_left := 2 } 120
      = Outcome.running
        { editor := { initEditor 24 80 with
            lines := [{ chars := [120, 97], rchars := [120, 97] }],
            cursor_x := 1, dirty := true },
          quit_left := 2 }
    ∧ ({ initEditor 24 80 with
          lines := [{ chars := [120, 97], rchars := [120, 97] }],
          cursor_x := 1, dirty := true } : Editor).dirty = true :=
  ⟨by decide,
   (dirty_flag_spec (key 120).env
      { editor := { initEditor 24 80 with lines := [{ chars := [97], rchars := [97] }] },
        quit_left := 2 }
      { editor := { initEditor 24 80 with
          lines := [{ chars := [120, 97], rchars := [120, 97] }],
          cursor_x := 1, dirty := true },
        quit_left := 2 }
      120 (by decide) (by decide)).1 (by decide)⟩

/-! ## Invariants of the reachable states -/

theorem run_invariant (P : Editor → Prop)
    (hscreen : ∀ e e1, refreshScreen e = some e1 → P e → P e1)
    (hkey : ∀ (env : SaveEnv) (s s1 : State) (c : Int),
      processKeypress env s c = Outcome.running s1 → P s.editor → P s1.editor)
    (ks : List KeyEvent) :
    ∀ s0 s, run s0 ks = Outcome.running s → P s0.editor → P s.editor := by
  induction ks with
  | nil =>
    intro s0 s h hp
    simp only [run, Outcome.running.injEq] at h
    rw [← h]
    exact hp
  | cons k ks ih =>
    intro s0 s h hp
    simp only [run] at h
    cases hr : refreshScreen s0.editor with
    | none => simp [hr] at h
    | some e =>
      simp only [hr] at h
      cases hk : processKeypress k.env { s0 with editor := e } k.key with
      | running s1 =>
        simp only [hk] at h
        exact ih s1 s h (hkey k.env _ s1 k.key hk (hscreen _ _ hr hp))
      | exited code => simp [hk] at h
      | fault => simp [hk] at h

theorem processKeypress_renderValid {env : SaveEnv} {s s1 : State} {c : Int}
    (h : processKeypress env s c = Outcome.running s1) (hv : RenderValid s.editor.lines) :
    RenderValid s1.editor.lines := by
  rcases processKeypress_running h with ⟨_, he⟩ | ⟨_, hd⟩
  · rw [he]
    exact hv
  · exact (dispatchKey_facts hd).2 hv

theorem openLoop_renderValid (fuel : Nat) (stream : List Nat) (e e1 : Editor)
    (h : openLoop fuel stream e = some e1) (hv : RenderValid e.lines) :
    RenderValid e1.lines ∧ e1.cursor_x = e.cursor_x ∧ e1.cursor_y = e.cursor_y := by
  induction fuel generalizing stream e with
  | zero => simp [openLoop] at h
  | succ n ih =>
    unfold openLoop at h
    rcases hg : getline stream with ⟨_ | line, rest⟩
    · simp only [hg, Option.some.injEq] at h
      rw [← h]
      exact ⟨hv, rfl, rfl⟩
    · simp only [hg] at h
      obtain ⟨_, hx, hy, hrv⟩ := insertLine_facts e e.num_lines (stripLineEnd line)
      obtain ⟨a, b, c⟩ := ih rest _ h (hrv hv)
      exact ⟨a, b.trans hx, c.trans hy⟩

theorem initial_facts {s : State} (h : Initial s) :
    RenderValid s.editor.lines ∧ s.editor.cursor_x = 0 ∧ s.editor.cursor_y = 0 := by
  rcases h with ⟨rows, cols, rfl⟩ | ⟨rows, cols, filename, bytes, h⟩
  · refine ⟨?_, rfl, rfl⟩
    intro l hl
    simp [initState, initEditor] at hl
  · unfold loadState at h
    obtain ⟨e, he, rfl⟩ := Option.map_eq_some'.mp h
    unfold openEditor at he
    have hv0 : RenderValid
        ({ initEditor rows cols with filename := some filename } : Editor).lines := by
      intro l hl
      simp [initEditor] at hl
    obtain ⟨a, b, c⟩ := openLoop_renderValid _ _ _ _ he hv0
    exact ⟨a, b, c⟩

/-- C14: in every state that the loop of `main` reaches from the empty document or from a
loaded file, every line has `rchars` equal to the tab expansion of its content and `rlen`
equal to its length.  `insertLine` gives the new line such a render, and `insert`, Enter
(`insertNewline`), Backspace (`delete`) and the DELETE key keep the property. -/
theorem render_cache_never_stale (s : State) (h : Reachable s) :
    (∀ l ∈ s.editor.lines, l.rchars = render l.chars ∧ l.rlen = ((render l.chars).length : Int))
    ∧ (∀ (e : Editor) (index : Int) (str : List Nat),
        RenderValid e.lines → RenderValid (insertLine e index str).lines)
    ∧ (∀ (e e1 : Editor) (c : Nat),
        insert e c = some e1 → RenderValid e.lines → RenderValid e1.lines)
    ∧ (∀ e e1 : Editor,
        insertNewline e = some e1 → RenderValid e.lines → RenderValid e1.lines)
    ∧ (∀ e e1 : Editor, delete e = some e1 → RenderValid e.lines → RenderValid e1.lines)
    ∧ (∀ (env : SaveEnv) (e e1 : Editor),
        dispatchKey env e DELETE_KEY = Outcome.running e1 →
        RenderValid e.lines → RenderValid e1.lines) := by
  obtain ⟨s0, ks, h0, hrun⟩ := h
  have hv : RenderValid s.editor.lines :=
    run_invariant (fun e => RenderValid e.lines)
      (fun e e1 he hp => by
        show RenderValid e1.lines
        rw [(refreshScreen_dirty he).2.1]
        exact hp)
      (fun env s s1 c hk hp => processKeypress_renderValid hk hp)
      ks s0 s hrun (initial_facts h0).1
  refine ⟨fun l hl => ?_, fun e index str => (insertLine_facts e index str).2.2.2,
    fun e e1 c hi => (insert_facts hi).2, fun e e1 hi => (insertNewline_facts hi).2,
    fun e e1 hd => (delete_facts hd).2, fun env e e1 hd => (dispatchKey_facts hd).2⟩
  have := hv l hl
  refine ⟨this, ?_⟩
  rw [Line.rlen, this]

/-- Witness of C14: the state after the keys `a`, tab, Enter, `b`, Backspace. -/
theorem render_cache_never_stale_witness :
    (Line.mk [97, 9] [97, 32, 32, 32]).rchars = render (Line.mk [97, 9] [97, 32, 32, 32]).chars
    ∧ (Line.mk [] []).rchars = render (Line.mk [] []).chars :=
  have h := (render_cache_never_stale
    { editor := { initEditor 24 80 with
        lines := [{ chars := [97, 9], rchars := [97, 32, 32, 32] },
                  { chars := [], rchars := [] }],
        cursor_x := 0, cursor_y := 1, render_x := 1, dirty := true, status := Status.help },
      quit_left := 2 }
    ⟨initState 24 80, [key 97, key 9, key ENTER_KEY, key 98, key BACKSPACE],
      Or.inl ⟨24, 80, rfl⟩, by decide⟩).1
  ⟨(h _ (List.mem_cons_self _ _)).1,
   (h _ (List.mem_cons_of_mem _ (List.mem_cons_self _ _))).1⟩

/-! ## Cursor invariant -/

theorem cursorOk_inside (e : Editor) (pre post : List Line) (line : Line)
    (hl : e.lines = pre ++ line :: post) (hy : e.cursor_y = (pre.length : Int))
    (h0 : 0 ≤ e.cursor_x) (h1 : e.cursor_x ≤ line.len) : CursorOk e := by
  have hline : lineAt e.lines e.cursor_y = some line := by
    rw [hl, hy]
    exact lineAt_append_length pre post line
  refine ⟨by omega, ?_, h0, ?_⟩
  · simp only [Editor.num_lines, hl, List.length_append, List.length_cons]
    push_cast
    omega
  · unfold curLen
    rw [hline]
    exact h1

theorem cursorOk_past_end (e : Editor) (hy : e.cursor_y = e.num_lines) (hx : e.cursor_x = 0) :
    CursorOk e := by
  have hnone : lineAt e.lines e.cursor_y = none := lineAt_eq_none_of_ge (by rw [hy]; rfl)
  refine ⟨?_, by omega, by omega, ?_⟩
  · rw [hy]
    simp [Editor.num_lines]
  · unfold curLen
    rw [hnone, hx]

theorem cursorOk_cases {e : Editor} (h : CursorOk e) :
    (e.cursor_y = e.num_lines ∧ e.cursor_x = 0)
    ∨ ∃ pre line post, e.lines = pre ++ line :: post ∧ e.cursor_y = (pre.length : Int)
        ∧ 0 ≤ e.cursor_x ∧ e.cursor_x ≤ line.len := by
  obtain ⟨h0, h1, h2, h3⟩ := h
  unfold curLen at h3
  cases hline : lineAt e.lines e.cursor_y with
  | none =>
    left
    simp only [hline] at h3
    refine ⟨?_, by omega⟩
    by_contra hne
    have hlt : e.cursor_y.toNat < e.lines.length := by
      simp only [Editor.num_lines] at h1 hne
      omega
    unfold lineAt at hline
    rw [if_neg (by omega), List.getElem?_eq_getElem hlt] at hline
    exact Option.noConfusion hline
  | some line =>
    right
    simp only [hline] at h3
    obtain ⟨pre, post, hl, hy, _, _⟩ := lines_split hline
    exact ⟨pre, line, post, hl, hy.symm, h2, h3⟩

theorem cursorOk_congr {e e1 : Editor} (hl : e1.lines = e.lines)
    (hx : e1.cursor_x = e.cursor_x) (hy : e1.cursor_y = e.cursor_y) (h : CursorOk e) :
    CursorOk e1 := by
  unfold CursorOk curLen Editor.num_lines at *
  rw [hl, hx, hy]
  exact h

theorem insert_cursorOk {e e1 : Editor} {c : Nat} (h : insert e c = some e1)
    (hok : CursorOk e) : CursorOk e1 := by
  rcases cursorOk_cases hok with ⟨hy, hx⟩ | ⟨pre, line, post, hl, hy, h0, h1⟩
  · have hins := insertLine_end e []
    have hi := lineInsert_append
      { e with lines := e.lines ++ [{ chars := [], rchars := render [] }] }
      e.lines [] { chars := [], rchars := render [] } e.cursor_x c rfl
    have hcy : e.cursor_y = (e.lines.length : Int) := hy
    rw [insert_eq, if_pos hy, hins] at h
    simp only [hcy] at hi h
    rw [hi] at h
    simp only [Option.map_some', Option.some.injEq] at h
    subst h
    refine cursorOk_inside _ e.lines [] _ rfl rfl ?_ ?_
    · show 0 ≤ e.cursor_x + 1
      omega
    · show e.cursor_x + 1 ≤ _
      rw [hx]
      simp [updateLine, Line.len]
  · have hne : ¬ e.cursor_y = e.num_lines := by
      simp only [Editor.num_lines, hl, List.length_append, List.length_cons, hy]
      push_cast
      omega
    have hi := lineInsert_append e pre post line e.cursor_x c hl
    rw [insert_eq, if_neg hne, hy, hi] at h
    simp only [Option.map_some', Option.some.injEq] at h
    subst h
    refine cursorOk_inside _ pre post _ rfl hy ?_ ?_
    · show 0 ≤ e.cursor_x + 1
      omega
    · show e.cursor_x + 1 ≤ _
      have hg : ¬ (e.cursor_x < 0 ∨ e.cursor_x > line.len) := by omega
      simp only [if_neg hg, updateLine, Line.len, List.length_append, List.length_take,
        List.length_cons, List.length_drop]
      simp only [Line.len] at h1
      push_cast
      omega

theorem insertNewline_cursorOk {e e1 : Editor} (h : insertNewline e = some e1)
    (hok : CursorOk e) : CursorOk e1 := by
  rcases cursorOk_cases hok with ⟨hy, hx⟩ | ⟨pre, line, post, hl, hy, h0, h1⟩
  · unfold insertNewline at h
    rw [if_pos hx, hy, insertLine_end] at h
    simp only [Option.pure_def, Option.bind_eq_bind, Option.some_bind, Option.some.injEq] at h
    subst h
    apply cursorOk_past_end
    · show e.cursor_y + 1 = ((e.lines ++ [_]).length : Int)
      rw [hy]
      simp [Editor.num_lines]
    · rfl
  · obtain ⟨l0, l1, _, _, hins⟩ := insertNewline_append e pre post line hl hy h0 h1
    rw [hins] at h
    cases h
    refine cursorOk_inside _ (pre ++ [l0]) post l1 (by simp) (by simp) (le_refl _) ?_
    show (0 : Int) ≤ l1.len
    simp [Line.len]

theorem delete_cursorOk {e e1 : Editor} (h : delete e = some e1) (hok : CursorOk e) :
    CursorOk e1 := by
  rcases cursorOk_cases hok with ⟨hy, hx⟩ | ⟨pre, line, post, hl, hy, h0, h1⟩
  · by_cases hy0 : e.cursor_y = 0
    · rw [delete_origin e hx hy0] at h
      cases h
      exact hok
    · exfalso
      unfold delete at h
      have hn1 : ¬ (e.cursor_x = 0 ∧ e.cursor_y = 0) := fun hc => hy0 hc.2
      have hn2 : ¬ e.cursor_x > 0 := by omega
      rw [if_neg hn1, if_neg hn2] at h
      have hnone : lineAt e.lines (e.cursor_y - 1 + 1) = none :=
        lineAt_eq_none_of_ge (by rw [hy]; simp [Editor.num_lines])
      simp only [Option.bind_eq_bind, Option.bind_eq_some] at h
      obtain ⟨_, _, next, hnext, _⟩ := h
      rw [hnone] at hnext
      exact Option.noConfusion hnext
  · by_cases hx : 0 < e.cursor_x
    · rw [delete_char_append e pre post line hl hy hx h1] at h
      cases h
      have hlt : (e.cursor_x - 1).toNat < line.chars.length := by
        simp only [Line.len] at h1
        omega
      refine cursorOk_inside _ pre post _ rfl hy ?_ ?_
      · show 0 ≤ e.cursor_x - 1
        omega
      · show e.cursor_x - 1 ≤ _
        simp only [updateLine, Line.len, List.length_eraseIdx, if_pos hlt]
        simp only [Line.len] at h1
        omega
    · have hx0 : e.cursor_x = 0 := by omega
      rcases List.eq_nil_or_concat pre with hnil | ⟨pre0, prev, hcat⟩
      · have hy0 : e.cursor_y = 0 := by rw [hy, hnil]; rfl
        rw [delete_origin e hx0 hy0] at h
        cases h
        exact hok
      · rw [List.concat_eq_append] at hcat
        have hl2 : e.lines = pre0 ++ prev :: line :: post := by rw [hl, hcat]; simp
        have hy2 : e.cursor_y = (pre0.length : Int) + 1 := by rw [hy, hcat]; simp
        rw [delete_join_append e pre0 post prev line hl2 hy2 hx0] at h
        cases h
        refine cursorOk_inside _ pre0 post _ rfl rfl ?_ ?_
        · show (0 : Int) ≤ prev.len
          simp [Line.len]
        · show prev.len ≤ _
          simp [updateLine, Line.len]

theorem dispatchKey_cursorOk {env : SaveEnv} {e e1 : Editor} {c : Int}
    (h : dispatchKey env e c = Outcome.running e1) (hok : CursorOk e) : CursorOk e1 := by
  by_cases hs : c = CTRL_KEY 115
  · have h1 : (saveToDisk env e).1 = Outcome.running e1 := by
      unfold dispatchKey at h
      rw [if_pos hs] at h
      exact h
    obtain ⟨hl, hx, hy⟩ := saveToDisk_running env e e1 h1
    exact cursorOk_congr hl hx hy hok
  · by_cases hnav : c = ARROW_LEFT ∨ c = ARROW_RIGHT ∨ c = ARROW_UP ∨ c = ARROW_DOWN
        ∨ c = HOME_KEY ∨ c = END_KEY ∨ c = PAGE_UP ∨ c = PAGE_DOWN
    · exact (dispatchKey_navigation hnav h).2.2 hok
    · unfold dispatchKey at h
      have ha : ¬ (c = ARROW_LEFT ∨ c = ARROW_RIGHT ∨ c = ARROW_UP ∨ c = ARROW_DOWN) := by
        tauto
      have hp : ¬ (c = PAGE_UP ∨ c = PAGE_DOWN) := by tauto
      have hh : ¬ (c = HOME_KEY ∨ c = END_KEY) := by tauto
      rw [if_neg hs, if_neg ha, if_neg hp, if_neg hh] at h
      by_cases hdel : c = DELETE_KEY
      · rw [if_pos hdel] at h
        have h2 := ofOption_running h
        simp only [Option.bind_eq_bind, Option.bind_eq_some] at h2
        obtain ⟨e0, h0, h3⟩ := h2
        have hok0 := (moveCursor_nav h0).2.2 hok
        by_cases hx : e.cursor_x ≠ e0.cursor_x
        · rw [if_pos hx] at h3
          exact delete_cursorOk h3 hok0
        · rw [if_neg hx] at h3
          simp only [Option.pure_def, Option.some.injEq] at h3
          subst h3
          exact hok0
      · rw [if_neg hdel] at h
        by_cases hb : c = BACKSPACE
        · rw [if_pos hb] at h
          exact delete_cursorOk (ofOption_running h) hok
        · rw [if_neg hb] at h
          by_cases hent : c = ENTER_KEY
          · rw [if_pos hent] at h
            exact insertNewline_cursorOk (ofOption_running h) hok
          · rw [if_neg hent] at h
            exact insert_cursorOk (ofOption_running h) hok

theorem processKeypress_cursorOk {env : SaveEnv} {s s1 : State} {c : Int}
    (h : processKeypress env s c = Outcome.running s1) (hok : CursorOk s.editor) :
    CursorOk s1.editor := by
  rcases processKeypress_running h with ⟨_, he⟩ | ⟨_, hd⟩
  · rw [he]
    exact cursorOk_congr rfl rfl rfl hok
  · exact dispatchKey_cursorOk hd hok

theorem reachable_cursorOk {s : State} (h : Reachable s) : CursorOk s.editor := by
  obtain ⟨s0, ks, h0, hrun⟩ := h
  obtain ⟨_, hx, hy⟩ := initial_facts h0
  have hinit : CursorOk s0.editor := by
    refine ⟨by omega, ?_, by omega, ?_⟩
    · rw [hy]
      simp [Editor.num_lines]
    · rw [hx]
      exact curLen_nonneg _
  exact run_invariant CursorOk
    (fun e e1 he hp =>
      cursorOk_congr (refreshScreen_dirty he).2.1 (refreshScreen_dirty he).2.2.1
        (refreshScreen_dirty he).2.2.2 hp)
    (fun env s s1 c hk hp => processKeypress_cursorOk hk hp)
    ks s0 s hrun hinit

/-- C15: in every state that the loop of `main` reaches from the empty document or from a
loaded file, `0 <= cursor_y <= num_lines`, `0 <= cursor_x <= len(line cursor_y)` and
`cursor_x = 0` when `cursor_y == num_lines`; and after Up or Down the column is the minimum
of the column before and the length of the line the cursor is on afterwards. -/
theorem cursor_invariant (s : State) (h : Reachable s) :
    (0 ≤ s.editor.cursor_y ∧ s.editor.cursor_y ≤ s.editor.num_lines ∧ 0 ≤ s.editor.cursor_x
      ∧ (∀ line, lineAt s.editor.lines s.editor.cursor_y = some line →
          s.editor.cursor_x ≤ line.len)
      ∧ (s.editor.cursor_y = s.editor.num_lines → s.editor.cursor_x = 0))
    ∧ ∀ (key : Int) (e1 : Editor), key = ARROW_UP ∨ key = ARROW_DOWN →
        moveCursor s.editor key = some e1 →
        e1.cursor_x = min s.editor.cursor_x (curLen e1)
        ∧ (∀ line, lineAt e1.lines e1.cursor_y = some line →
            e1.cursor_x = min s.editor.cursor_x line.len)
        ∧ (e1.cursor_y = e1.num_lines → e1.cursor_x = 0) := by
  have hok := reachable_cursorOk h
  obtain ⟨h0, h1, h2, h3⟩ := hok
  refine ⟨⟨h0, h1, h2, ?_, ?_⟩, ?_⟩
  · intro line hline
    unfold curLen at h3
    simp only [hline] at h3
    exact h3
  · intro hy
    have hnone : lineAt s.editor.lines s.editor.cursor_y = none :=
      lineAt_eq_none_of_ge (by rw [hy]; rfl)
    unfold curLen at h3
    simp only [hnone] at h3
    omega
  · intro key e1 hk hm
    obtain ⟨_, _, hc, hmin⟩ := moveCursor_fields hm
    have hmin1 := hmin hk
    refine ⟨hmin1, ?_, ?_⟩
    · intro line hline
      rw [hmin1]
      unfold curLen
      simp only [hline]
    · intro hy
      have hnone : lineAt e1.lines e1.cursor_y = none :=
        lineAt_eq_none_of_ge (by rw [hy]; rfl)
      rw [hmin1]
      unfold curLen
      simp only [hnone]
      omega

/-- Witness of C15: the state after the keys `a`, `b`, Enter, `c`, Up. -/
theorem cursor_invariant_witness :
    (0 : Int) ≤ 0 ∧ (0 : Int) ≤ ((2 : Nat) : Int) ∧ (0 : Int) ≤ 1
    ∧ ({ initEditor 24 80 with
          lines := [{ chars := [97, 98], rchars := [97, 98] },
                    { chars := [99], rchars := [99] }],
          cursor_x := 1, cursor_y := 0, render_x := 1, dirty := true,
          status := Status.help } : Editor).cursor_x
        ≤ (Line.mk [97, 98] [97, 98]).len :=
  have h := (cursor_invariant
    { editor := { initEditor 24 80 with
        lines := [{ chars := [97, 98], rchars := [97, 98] },
                  { chars := [99], rchars := [99] }],
        cursor_x := 1, cursor_y := 0, render_x := 1, dirty := true, status := Status.help },
      quit_left := 2 }
    ⟨initState 24 80, [key 97, key 98, key ENTER_KEY, key 99, key ARROW_UP],
      Or.inl ⟨24, 80, rfl⟩, by decide⟩).1
  ⟨h.1, h.2.1, h.2.2.1, h.2.2.2.1 _ (by decide)⟩

/-! ## Backspace on the row past the last line -/

theorem lineAt_isSome {lines : List Line} {i : Int} (h0 : 0 ≤ i)
    (h1 : i < (lines.length : Int)) : ∃ l, lineAt lines i = some l := by
  have hi : i.toNat < lines.length := by omega
  refine ⟨lines[i.toNat], ?_⟩
  unfold lineAt
  rw [if_neg (by omega)]
  exact List.getElem?_eq_getElem hi

/-- With the cursor at column 0 of the row past the last line of a non-empty document,
`delete` steps back to the last line and then reads `lines[cursor_y + 1]`, which is
`lines[num_lines]`: an access outside the array. -/
theorem delete_past_last_row (e : Editor) (hx : e.cursor_x = 0)
    (hy : e.cursor_y = e.num_lines) (hpos : 0 < e.cursor_y) : delete e = none := by
  have hlen : e.cursor_y = (e.lines.length : Int) := hy
  obtain ⟨line, hline⟩ : ∃ l, lineAt e.lines (e.cursor_y - 1) = some l :=
    lineAt_isSome (by omega) (by omega)
  have hnext : lineAt e.lines (e.cursor_y - 1 + 1) = none :=
    lineAt_eq_none_of_ge (by omega)
  have h1 : ¬ (e.cursor_x = 0 ∧ e.cursor_y = 0) := by omega
  have h2 : ¬ e.cursor_x > 0 := by omega
  unfold delete
  rw [if_neg h1, if_neg h2]
  simp only [hline, hnext, Option.bind_eq_bind, Option.some_bind, Option.none_bind]

/-! ### Every other access of a handler is in range -/

theorem scroll_total {e : Editor} (hok : CursorOk e) : ∃ e1, scroll e = some e1 := by
  rcases cursorOk_cases hok with ⟨hy, _⟩ | ⟨pre, line, post, hl, hy, h0, h1⟩
  · have hn : ¬ e.cursor_y < e.num_lines := by omega
    rw [scroll_eq, if_neg hn]
    exact ⟨_, rfl⟩
  · have hline : lineAt e.lines e.cursor_y = some line := by
      rw [hl, hy]
      exact lineAt_append_length pre post line
    exact ⟨_, scroll_inside_line e line hline h0 h1⟩

theorem moveCursorSwitch_total (e : Editor) (key : Int) (h0 : 0 ≤ e.cursor_y) :
    ∃ e1, moveCursorSwitch e key = some e1 := by
  by_cases hge : e.cursor_y ≥ e.num_lines
  · unfold moveCursorSwitch
    simp only [if_pos hge]
    split_ifs <;> exact ⟨_, rfl⟩
  · obtain ⟨line, hline⟩ : ∃ l, lineAt e.lines e.cursor_y = some l :=
      lineAt_isSome h0 (by simp only [Editor.num_lines] at hge; omega)
    unfold moveCursorSwitch
    simp only [if_neg hge, hline, Option.bind_eq_bind, Option.some_bind, Option.pure_def]
    split_ifs <;> exact ⟨_, rfl⟩

theorem moveCursor_total (e : Editor) (key : Int) (hok : CursorOk e) :
    ∃ e1, moveCursor e key = some e1 := by
  obtain ⟨hy0, hy1, hx0⟩ := cursorOk_bounds hok
  obtain ⟨e0, h0⟩ := moveCursorSwitch_total e key hy0
  obtain ⟨hl, _, hb⟩ := moveCursorSwitch_fields h0
  obtain ⟨hb0, _, _⟩ := hb hy0 hy1 hx0
  by_cases hge : e0.cursor_y ≥ e0.num_lines
  · unfold moveCursor
    simp only [h0, if_pos hge, Option.bind_eq_bind, Option.some_bind, Option.pure_def]
    exact ⟨_, rfl⟩
  · obtain ⟨line, hline⟩ : ∃ l, lineAt e0.lines e0.cursor_y = some l :=
      lineAt_isSome hb0 (by simp only [Editor.num_lines] at hge; omega)
    unfold moveCursor
    simp only [h0, if_neg hge, hline, Option.bind_eq_bind, Option.some_bind, Option.pure_def]
    exact ⟨_, rfl⟩

theorem moveCursorTimes_total (key : Int) (n : Nat) :
    ∀ e : Editor, CursorOk e → ∃ e1, moveCursorTimes key n e = some e1 := by
  induction n with
  | zero => intro e _; exact ⟨e, rfl⟩
  | succ n ih =>
    intro e hok
    obtain ⟨e0, h0⟩ := moveCursor_total e key hok
    obtain ⟨e1, h1⟩ := ih e0 ((moveCursor_nav h0).2.2 hok)
    refine ⟨e1, ?_⟩
    unfold moveCursorTimes
    rw [h0]
    exact h1

theorem homeEndStep_total (c : Int) (e : Editor) (hok : CursorOk e) :
    ∃ e1, homeEndStep c e = some e1 := by
  obtain ⟨hy0, _, _⟩ := cursorOk_bounds hok
  unfold homeEndStep
  by_cases h1 : c = HOME_KEY ∧ e.cursor_x > 0
  · rw [if_pos h1]
    exact moveCursor_total e ARROW_LEFT hok
  · rw [if_neg h1]
    by_cases h2 : c = END_KEY ∧ e.cursor_y < e.num_lines
    · rw [if_pos h2]
      obtain ⟨line, hline⟩ : ∃ l, lineAt e.lines e.cursor_y = some l :=
        lineAt_isSome hy0 h2.2
      simp only [hline, Option.bind_eq_bind, Option.some_bind, Option.pure_def]
      by_cases h3 : e.cursor_x < line.len
      · rw [if_pos h3]
        exact moveCursor_total e ARROW_RIGHT hok
      · rw [if_neg h3]
        exact ⟨_, rfl⟩
    · rw [if_neg h2]
      exact ⟨_, rfl⟩

theorem homeEndTimes_total (c : Int) (n : Nat) :
    ∀ e : Editor, CursorOk e → ∃ e1, homeEndTimes c n e = some e1 := by
  induction n with
  | zero => intro e _; exact ⟨e, rfl⟩
  | succ n ih =>
    intro e hok
    obtain ⟨e0, h0⟩ := homeEndStep_total c e hok
    obtain ⟨e1, h1⟩ := ih e0 ((homeEndStep_nav c h0).2.2 hok)
    refine ⟨e1, ?_⟩
    unfold homeEndTimes
    rw [h0]
    exact h1

theorem insert_total (e : Editor) (c : Nat) (hok : CursorOk e) :
    ∃ e1, insert e c = some e1 := by
  rcases cursorOk_cases hok with ⟨hy, _⟩ | ⟨pre, line, post, hl, hy, _, _⟩
  · have hi := lineInsert_append
      { e with lines := e.lines ++ [{ chars := [], rchars := render [] }] }
      e.lines [] { chars := [], rchars := render [] } e.cursor_x c rfl
    have hcy : e.cursor_y = (e.lines.length : Int) := hy
    rw [insert_eq, if_pos hy, insertLine_end e []]
    simp only [hcy] at hi ⊢
    rw [hi]
    exact ⟨_, rfl⟩
  · have hne : ¬ e.cursor_y = e.num_lines := by
      simp only [Editor.num_lines, hl, List.length_append, List.length_cons, hy]
      push_cast
      omega
    rw [insert_eq, if_neg hne, hy, lineInsert_append e pre post line e.cursor_x c hl]
    exact ⟨_, rfl⟩

theorem insertNewline_total (e : Editor) (hok : CursorOk e) :
    ∃ e1, insertNewline e = some e1 := by
  rcases cursorOk_cases hok with ⟨_, hx⟩ | ⟨pre, line, post, hl, hy, h0, h1⟩
  · unfold insertNewline
    simp only [if_pos hx, Option.bind_eq_bind, Option.some_bind, Option.pure_def]
    exact ⟨_, rfl⟩
  · obtain ⟨_, _, _, _, h⟩ := insertNewline_append e pre post line hl hy h0 h1
    exact ⟨_, h⟩

/-- Outside the one position of `delete_past_last_row`, `delete` makes no access outside
the array of lines. -/
theorem delete_total (e : Editor) (hok : CursorOk e)
    (hnot : ¬ (e.cursor_x = 0 ∧ e.cursor_y = e.num_lines ∧ 0 < e.cursor_y)) :
    ∃ e1, delete e = some e1 := by
  rcases cursorOk_cases hok with ⟨hy, hx⟩ | ⟨pre, line, post, hl, hy, h0, h1⟩
  · have hy0 : e.cursor_y = 0 := by
      have := hok.1
      by_contra hne
      exact hnot ⟨hx, hy, by omega⟩
    exact ⟨e, delete_origin e hx hy0⟩
  · by_cases hx : 0 < e.cursor_x
    · exact ⟨_, delete_char_append e pre post line hl hy hx h1⟩
    · have hx0 : e.cursor_x = 0 := by omega
      rcases List.eq_nil_or_concat pre with hnil | ⟨pre0, prev, hcat⟩
      · have hy0 : e.cursor_y = 0 := by rw [hy, hnil]; rfl
        exact ⟨e, delete_origin e hx0 hy0⟩
      · rw [List.concat_eq_append] at hcat
        have hl2 : e.lines = pre0 ++ prev :: line :: post := by rw [hl, hcat]; simp
        have hy2 : e.cursor_y = (pre0.length : Int) + 1 := by rw [hy, hcat]; simp
        exact ⟨_, delete_join_append e pre0 post prev line hl2 hy2 hx0⟩

theorem moveCursor_right_row {e e1 : Editor} (h : moveCursor e ARROW_RIGHT = some e1)
    (hok : CursorOk e) : e1.cursor_x = e.cursor_x ∨ e1.cursor_y < e1.num_lines := by
  obtain ⟨e0, h0, _, he1⟩ := moveCursor_eq_some h
  by_cases hge : e.cursor_y ≥ e.num_lines
  · left
    have hsw : moveCursorSwitch e ARROW_RIGHT = some e := by
      unfold moveCursorSwitch
      simp [ARROW_RIGHT, ARROW_LEFT, hge]
    rw [hsw] at h0
    cases h0
    subst he1
    have hle := hok.2.2.2
    show (if e.cursor_x > curLen e then curLen e else e.cursor_x) = e.cursor_x
    rw [if_neg (by omega)]
  · right
    obtain ⟨line, hline⟩ : ∃ l, lineAt e.lines e.cursor_y = some l :=
      lineAt_isSome hok.1 (by simp only [Editor.num_lines] at hge; omega)
    have hl := (moveCursorSwitch_fields h0).1
    have hy : e0.cursor_y < e.num_lines := by
      unfold moveCursorSwitch at h0
      simp only [ARROW_RIGHT, ARROW_LEFT, if_neg hge, hline, Option.bind_eq_bind,
        Option.some_bind, Option.pure_def] at h0
      split_ifs at h0 <;> simp only [Option.some.injEq] at h0 <;> subst h0 <;>
        (try dsimp only) <;> omega
    subst he1
    show e0.cursor_y < (e0.lines.length : Int)
    rw [hl]
    exact hy

theorem ofOption_fault_iff {α : Type} (x : Option α) :
    Outcome.ofOption x = Outcome.fault ↔ x = none := by
  cases x with
  | none => exact ⟨fun _ => rfl, fun _ => rfl⟩
  | some a => exact ⟨fun h => Outcome.noConfusion h, fun h => Option.noConfusion h⟩

/-- With a valid cursor and window sizes that are not negative, the handler of a key other
than the save key makes an access outside the array of lines for exactly one key and
position: Backspace at column 0 of the row past the last line of a non-empty document. -/
theorem dispatchKey_fault_iff (env : SaveEnv) (e : Editor) (c : Int) (hok : CursorOk e)
    (hrows : 0 ≤ e.rows) (hcols : 0 ≤ e.cols) (hs : c ≠ CTRL_KEY 115) :
    dispatchKey env e c = Outcome.fault
      ↔ c = BACKSPACE ∧ e.cursor_x = 0 ∧ e.cursor_y = e.num_lines ∧ 0 < e.cursor_y := by
  obtain ⟨hy0, hy1, hx0⟩ := cursorOk_bounds hok
  unfold dispatchKey
  rw [if_neg hs]
  by_cases ha : c = ARROW_LEFT ∨ c = ARROW_RIGHT ∨ c = ARROW_UP ∨ c = ARROW_DOWN
  · rw [if_pos ha]
    obtain ⟨e1, h1⟩ := moveCursor_total e c hok
    rw [h1]
    constructor
    · intro h
      exact Outcome.noConfusion h
    · intro h
      rw [h.1] at ha
      exact absurd ha (by decide)
  rw [if_neg ha]
  by_cases hp : c = PAGE_UP ∨ c = PAGE_DOWN
  · rw [if_pos hp]
    simp only [if_neg (not_lt.mpr hrows)]
    obtain ⟨e1, h1⟩ := moveCursorTimes_total
      (if c = PAGE_UP then ARROW_UP else ARROW_DOWN) e.rows.toNat e hok
    rw [h1]
    constructor
    · intro h
      exact Outcome.noConfusion h
    · intro h
      rw [h.1] at hp
      exact absurd hp (by decide)
  rw [if_neg hp]
  by_cases hh : c = HOME_KEY ∨ c = END_KEY
  · rw [if_pos hh]
    constructor
    · intro h
      exfalso
      rw [ofOption_fault_iff] at h
      by_cases hge : e.cursor_y ≥ e.num_lines
      · obtain ⟨e1, h1⟩ := homeEndTimes_total c e.cols.toNat e hok
        simp only [if_pos hge, Option.bind_eq_bind, Option.pure_def, Option.some_bind,
          if_neg (not_lt.mpr hcols), h1] at h
        exact Option.noConfusion h
      · obtain ⟨line, hline⟩ : ∃ l, lineAt e.lines e.cursor_y = some l :=
          lineAt_isSome hy0 (by simp only [Editor.num_lines] at hge; omega)
        have hlen : ¬ line.len < 0 := by simp [Line.len]
        obtain ⟨e1, h1⟩ := homeEndTimes_total c line.len.toNat e hok
        simp only [if_neg hge, hline, Option.bind_eq_bind, Option.pure_def, Option.some_bind,
          if_neg hlen, h1] at h
        exact Option.noConfusion h
    · intro h
      rw [h.1] at hh
      exact absurd hh (by decide)
  rw [if_neg hh]
  by_cases hdel : c = DELETE_KEY
  · rw [if_pos hdel]
    constructor
    · intro h
      exfalso
      rw [ofOption_fault_iff] at h
      obtain ⟨e0, h0⟩ := moveCursor_total e ARROW_RIGHT hok
      have hok0 := (moveCursor_nav h0).2.2 hok
      simp only [h0, Option.bind_eq_bind, Option.some_bind, Option.pure_def] at h
      by_cases hx : e.cursor_x ≠ e0.cursor_x
      · rw [if_pos hx] at h
        have hrow : e0.cursor_y < e0.num_lines := by
          rcases moveCursor_right_row h0 hok with hsame | hlt
          · exact absurd hsame.symm hx
          · exact hlt
        obtain ⟨e1, h1⟩ := delete_total e0 hok0 (by omega)
        rw [h1] at h
        exact Option.noConfusion h
      · rw [if_neg hx] at h
        exact Option.noConfusion h
    · intro h
      rw [h.1] at hdel
      exact absurd hdel (by decide)
  rw [if_neg hdel]
  by_cases hb : c = BACKSPACE
  · rw [if_pos hb, ofOption_fault_iff]
    constructor
    · intro h
      refine ⟨hb, ?_⟩
      by_contra hnot
      obtain ⟨e1, h1⟩ := delete_total e hok hnot
      rw [h1] at h
      exact Option.noConfusion h
    · intro h
      exact delete_past_last_row e h.2.1 h.2.2.1 h.2.2.2
  rw [if_neg hb]
  by_cases hent : c = ENTER_KEY
  · rw [if_pos hent]
    obtain ⟨e1, h1⟩ := insertNewline_total e hok
    rw [h1]
    constructor
    · intro h
      exact Outcome.noConfusion h
    · intro h
      exact absurd h.1 hb
  · rw [if_neg hent]
    obtain ⟨e1, h1⟩ := insert_total e (keyByte c) hok
    rw [h1]
    constructor
    · intro h
      exact Outcome.noConfusion h
    · intro h
      exact absurd h.1 hb

theorem processKeypress_fault_iff (env : SaveEnv) (s : State) (c : Int) :
    processKeypress env s c = Outcome.fault
      ↔ c ≠ CTRL_KEY 113 ∧ dispatchKey env s.editor c = Outcome.fault := by
  unfold processKeypress
  by_cases hq : c = CTRL_KEY 113
  · rw [if_pos hq]
    constructor
    · intro h
      split_ifs at h
    · intro h
      exact absurd hq h.1
  · rw [if_neg hq]
    cases hd : dispatchKey env s.editor c with
    | running e => exact ⟨fun h => Outcome.noConfusion h, fun h => Outcome.noConfusion h.2⟩
    | exited code => exact ⟨fun h => Outcome.noConfusion h, fun h => Outcome.noConfusion h.2⟩
    | fault => exact ⟨fun _ => ⟨hq, rfl⟩, fun _ => rfl⟩

/-- In a state that the main loop reaches, with window sizes that are not negative, the next
turn of the loop (drawing the frame, then handling the key) leaves the data of the program
in exactly two cases.  One is an access outside the array of lines: Backspace at column 0 of
the row past the last line of a non-empty document.  The other reads no line outside the
array: the save key with a file name (given, or entered at the prompt) and a file operation
that fails. -/
theorem reachable_step_fault_iff {s : State} (h : Reachable s) (hrows : 0 ≤ s.editor.rows)
    (hcols : 0 ≤ s.editor.cols) (k : KeyEvent) :
    run s [k] = Outcome.fault
      ↔ (k.key = BACKSPACE ∧ s.editor.cursor_x = 0
          ∧ s.editor.cursor_y = s.editor.num_lines ∧ 0 < s.editor.cursor_y)
        ∨ (k.key = CTRL_KEY 115
          ∧ (s.editor.filename ≠ none ∨ k.env.promptResult ≠ none)
          ∧ ¬ (k.env.createFile = true ∧ k.env.setFilePointerEnd = true
                ∧ k.env.setEndOfFile = true ∧ k.env.setFilePointerStart = true
                ∧ k.env.writeFile = true)) := by
  have hok := reachable_cursorOk h
  obtain ⟨e, hsc⟩ := scroll_total hok
  obtain ⟨hl, hx, hy, _, hfn, hr, hc, _⟩ := scroll_fields hsc
  have hok1 : CursorOk e := cursorOk_congr hl hx hy hok
  have hn : e.num_lines = s.editor.num_lines := by
    simp only [Editor.num_lines, hl]
  have hp := processKeypress_fault_iff k.env { s with editor := e } k.key
  have hrun : run s [k] = Outcome.fault
      ↔ processKeypress k.env { s with editor := e } k.key = Outcome.fault := by
    simp only [run, refreshScreen, hsc]
    cases processKeypress k.env { s with editor := e } k.key with
    | running s1 => exact ⟨fun h => Outcome.noConfusion h, fun h => Outcome.noConfusion h⟩
    | exited code => exact ⟨fun h => Outcome.noConfusion h, fun h => Outcome.noConfusion h⟩
    | fault => exact ⟨fun _ => rfl, fun _ => rfl⟩
  rw [hrun, hp]
  by_cases hsv : k.key = CTRL_KEY 115
  · obtain ⟨e2, hsc2⟩ := scroll_total hok1
    have hsome : scroll e ≠ none := by
      rw [hsc2]
      exact Option.noConfusion
    have hd : dispatchKey k.env e k.key = (saveToDisk k.env e).1 := by
      unfold dispatchKey
      rw [if_pos hsv]
    have hq : k.key ≠ CTRL_KEY 113 := by
      rw [hsv]
      decide
    have hb : k.key ≠ BACKSPACE := by
      rw [hsv]
      decide
    show k.key ≠ CTRL_KEY 113 ∧ dispatchKey k.env e k.key = Outcome.fault ↔ _
    rw [hd, saveToDisk_fault_iff, hfn]
    constructor
    · rintro ⟨_, ⟨_, hnone⟩ | ⟨hsrc, hfail⟩⟩
      · exact absurd hnone hsome
      · refine Or.inr ⟨hsv, ?_, hfail⟩
        rcases hsrc with hf | ⟨_, hpr⟩
        · exact Or.inl hf
        · exact Or.inr hpr
    · rintro (⟨hk, _⟩ | ⟨_, hsrc, hfail⟩)
      · exact absurd hk hb
      · refine ⟨hq, Or.inr ⟨?_, hfail⟩⟩
        rcases hsrc with hf | hpr
        · exact Or.inl hf
        · exact Or.inr ⟨hsome, hpr⟩
  · have hd := dispatchKey_fault_iff k.env e k.key hok1 (by rw [hr]; exact hrows)
      (by rw [hc]; exact hcols) hsv
    rw [hx, hy, hn] at hd
    show k.key ≠ CTRL_KEY 113 ∧ dispatchKey k.env e k.key = Outcome.fault ↔ _
    constructor
    · intro hf
      exact Or.inl (hd.mp hf.2)
    · rintro (hf | ⟨hk, _⟩)
      · refine ⟨?_, hd.mpr hf⟩
        rw [hf.1]
        decide
      · exact absurd hk hsv

/-- C21 fails on the code for Backspace on the past-last row.  From the empty document the
key Enter leaves one empty line and the cursor at row 1 = `num_lines`, column 0.  Backspace
then runs `delete`: `cursor_y--` gives row 0, and the argument `lines[cursor_y + 1].chars` of
`appendToLine` reads index 1 = `num_lines`, outside the array of lines, so the run does not
go on with an editor state.  The same read happens on every non-empty document with the
cursor at column 0 of the past-last row. -/
theorem backspace_past_last_row_reads_out_of_range :
    run (initState 24 80) [key ENTER_KEY]
        = Outcome.running (State.mk
            { initEditor 24 80 with
              lines := [Line.mk [] []], cursor_x := 0, cursor_y := 1, dirty := true,
              status := Status.help } 2)
    ∧ ({ initEditor 24 80 with
          lines := [Line.mk [] []], cursor_x := 0, cursor_y := 1, dirty := true,
          status := Status.help } : Editor).num_lines = 1
    ∧ lineAt [Line.mk [] []] (1 - 1) = some (Line.mk [] [])
    ∧ lineAt [Line.mk [] []] (1 - 1 + 1) = none
    ∧ delete { initEditor 24 80 with
          lines := [Line.mk [] []], cursor_x := 0, cursor_y := 1, dirty := true,
          status := Status.help } = none
    ∧ processKeypress (key BACKSPACE).env (State.mk
          { initEditor 24 80 with
            lines := [Line.mk [] []], cursor_x := 0, cursor_y := 1, dirty := true,
            status := Status.help } 2) BACKSPACE = Outcome.fault
    ∧ run (initState 24 80) [key ENTER_KEY, key BACKSPACE] = Outcome.fault
    ∧ ∀ (e : Editor) (l : Line) (ls : List Line),
        delete { e with lines := l :: ls, cursor_x := 0,
                        cursor_y := ((l :: ls).length : Int) } = none := by
  refine ⟨by decide, by decide, by decide, by decide, by decide, by decide, by decide, ?_⟩
  intro e l ls
  refine delete_past_last_row _ rfl rfl ?_
  show (0 : Int) < ((l :: ls).length : Int)
  simp only [List.length_cons]
  omega

end WinEditor
